import Mathlib

/-! # Polygon dictionary: point-location strategies and layout construction

A shallow embedding of `src/Dictionaries/PolygonDictionaryImplementations.cpp`
(ClickHouse): the three `find` strategies (`PolygonDictionarySimple`,
`PolygonDictionaryIndexEach`, `PolygonDictionaryIndexCell`), the layout
builder `createLayout` and the registration of the layouts; followed by the
constant-divisor modulo of `src/Functions/modulo.cpp` and by `arrayUniq` of
`src/Functions/array/arrayUniq.cpp`.

Conventions of the embedding.

* `bool find(const Point & point, size_t & polygon_index) const` becomes a
  function that takes the incoming value of the out-parameter and returns the
  pair `(returned bool, outgoing polygon_index)`.
* `std::vector` is `List`; an `operator[]` access out of range (undefined
  behaviour in C++) makes the embedded function return `none`.
* Coordinates are `Float64` in the source; the embedding uses exact rationals.
* `bg::covered_by` (Boost.Geometry) is an external primitive and is a parameter
  `covered_by : Point → Polygon → Bool` of every function that calls it.
-/

set_option autoImplicit false

namespace DB

/-! ## Data model -/

/-- A coordinate (`Float64` in the source, an exact rational here). -/
abbrev Coord := ℚ

/-- The `Point` of the dictionary: a pair of coordinates. -/
structure Point where
  x : Coord
  y : Coord
deriving DecidableEq

/-- A ring: an ordered sequence of points, implicitly closed. -/
abbrev Ring := List Point

/-- The `Polygon` of the dictionary: one outer ring and its hole rings. -/
structure Polygon where
  outer : Ring
  inners : List Ring
deriving DecidableEq

/-- The type of the point-in-polygon primitive `bg::covered_by(point, polygon)`. -/
abbrev CoveredBy := Point → Polygon → Bool

/-! ## Configuration of a polygon dictionary -/

namespace IPolygonDictionary

/-- The enum `IPolygonDictionary::InputType`. -/
inductive InputType
  | MultiPolygon
  | SimplePolygon
deriving DecidableEq, Repr

/-- The enum `IPolygonDictionary::PointType`. -/
inductive PointType
  | Array
  | Tuple
deriving DecidableEq, Repr

/-- The struct `IPolygonDictionary::Configuration`, with the four fields that
`createLayout` initialises. -/
structure Configuration where
  input_type : InputType
  point_type : PointType
  store_polygon_key_column : Bool
  use_async_executor : Bool
deriving DecidableEq, Repr

end IPolygonDictionary

/-! ## `PolygonDictionarySimple` -/

/-- The state of a `PolygonDictionarySimple`: the configuration and the polygon
list that the base class `IPolygonDictionary` owns. -/
structure PolygonDictionarySimple where
  configuration : IPolygonDictionary.Configuration
  polygons : List Polygon

namespace PolygonDictionarySimple

/-- The loop of `PolygonDictionarySimple::find` from index `i` on, over the
polygons that remain at positions `i, i+1, ...`:
`for (; i < polygons.size(); ++i) if (bg::covered_by(point, polygons[i]))
{ polygon_index = i; found = true; break; }` followed by `return found`. -/
def findFrom (covered_by : CoveredBy) (point : Point) :
    List Polygon → Nat → Nat → Bool × Nat
  | [], _, polygon_index => (false, polygon_index)
  | polygon :: rest, i, polygon_index =>
    if covered_by point polygon then (true, i)
    else findFrom covered_by point rest (i + 1) polygon_index

/-- The function `PolygonDictionarySimple::find(point, polygon_index)`: the
loop started at `i = 0` with `found = false`. -/
def find (covered_by : CoveredBy) (d : PolygonDictionarySimple) (point : Point)
    (polygon_index : Nat) : Bool × Nat :=
  findFrom covered_by point d.polygons 0 polygon_index

end PolygonDictionarySimple

/-! ## Grid cells and the grid, as `find` uses them

`FinalCell`, `FinalCellWithSlabs`, `GridRoot` and the element type of `buckets`
are declared in `PolygonDictionaryUtils.h` and
`PolygonDictionaryImplementations.h`, outside the translated file. The
embedding keeps exactly the members that the `find` functions read.
The constant `kNone` (the value of `first_covered` that means "unset") is a
parameter of the functions that compare against it. -/

/-- The members of `FinalCell` that `PolygonDictionaryIndexEach::find` reads. -/
structure FinalCell where
  polygon_ids : List Nat
  first_covered : Nat

/-- The members of `FinalCellWithSlabs` that `PolygonDictionaryIndexCell::find`
reads; `index` is the nested index through its
`find(point, polygon_index)`, with the out-parameter threaded as for the
dictionaries. -/
structure FinalCellWithSlabs where
  corresponding_ids : List Nat
  index : Point → Nat → Bool × Nat
  first_covered : Nat

/-- A grid through its only operation used here, `find(x, y)`, which returns a
pointer to the located cell or null. -/
abbrev GridRoot (ReturnCell : Type) := Coord → Coord → Option ReturnCell

/-- Modelled from the spec: the element type of `buckets` (declared in the
header, which is missing). Section 4.3: "Each candidate polygon is additionally
wrapped as an isolated single-polygon brute-force tester"; a bucket is built
from the vector `single` and holds it. -/
structure Bucket where
  polygons : List Polygon

/-- Modelled from the spec: the `find` of a bucket (its class is declared in the
missing header), the brute-force scan of section 4.2 over the bucket's own
polygons. -/
def Bucket.find (covered_by : CoveredBy) (bucket : Bucket) (point : Point)
    (polygon_index : Nat) : Bool × Nat :=
  PolygonDictionarySimple.findFrom covered_by point bucket.polygons 0 polygon_index

/-! ## `PolygonDictionaryIndexEach` -/

/-- The state of a `PolygonDictionaryIndexEach`. The members `min_intersections`
and `max_depth` hold the constructor arguments, which are of type `int`. -/
structure PolygonDictionaryIndexEach where
  configuration : IPolygonDictionary.Configuration
  polygons : List Polygon
  grid : GridRoot FinalCell
  min_intersections : Int
  max_depth : Int
  buckets : List Bucket

namespace PolygonDictionaryIndexEach

/-- The body of the constructor: `for (const auto & polygon : polygons)
{ std::vector<Polygon> single; single.emplace_back(polygon);
buckets.emplace_back(single); }`, started from the empty `buckets`. -/
def fillBuckets (polygons : List Polygon) : List Bucket :=
  polygons.foldl (fun buckets polygon => buckets ++ [Bucket.mk [polygon]]) []

/-- The constructor `PolygonDictionaryIndexEach(..., configuration_,
int min_intersections_, int max_depth_)`. The base class supplies `polygons`;
the member initialiser `grid(min_intersections_, max_depth_, polygons)` calls
the constructor of the grid, which is the parameter `makeGrid`. -/
def construct (makeGrid : Int → Int → List Polygon → GridRoot FinalCell)
    (polygons : List Polygon) (configuration_ : IPolygonDictionary.Configuration)
    (min_intersections_ max_depth_ : Int) : PolygonDictionaryIndexEach :=
  { configuration := configuration_
    polygons := polygons
    grid := makeGrid min_intersections_ max_depth_ polygons
    min_intersections := min_intersections_
    max_depth := max_depth_
    buckets := fillBuckets polygons }

/-- The candidate loop of `PolygonDictionaryIndexEach::find`:
`for (const auto & candidate : cell->polygon_ids)
{ size_t unused; if (buckets[candidate].find(point, unused)) { polygon_index =
candidate; return true; } }`.
The result is `none` when `buckets[candidate]` is out of range, `some (some c)`
when the loop returns through candidate `c`, and `some none` when the loop ends
without returning. The uninitialised `unused` is passed as `0`; only the
returned bool of the bucket is read. -/
def findCandidate (covered_by : CoveredBy) (buckets : List Bucket) (point : Point) :
    List Nat → Option (Option Nat)
  | [] => some none
  | candidate :: rest =>
    match buckets[candidate]? with
    | none => none
    | some bucket =>
      if (bucket.find covered_by point 0).1 then some (some candidate)
      else findCandidate covered_by buckets point rest

/-- The function `PolygonDictionaryIndexEach::find(point, polygon_index)`. -/
def find (kNone : Nat) (covered_by : CoveredBy) (d : PolygonDictionaryIndexEach)
    (point : Point) (polygon_index : Nat) : Option (Bool × Nat) :=
  match d.grid point.x point.y with
  | some cell =>
    match findCandidate covered_by d.buckets point cell.polygon_ids with
    | none => none
    | some (some candidate) => some (true, candidate)
    | some none =>
      if cell.first_covered ≠ kNone then some (true, cell.first_covered)
      else some (false, polygon_index)
  | none => some (false, polygon_index)

end PolygonDictionaryIndexEach

/-! ## `PolygonDictionaryIndexCell` -/

/-- The state of a `PolygonDictionaryIndexCell`; its constructor arguments
`min_intersections_` and `max_depth_` are of type `size_t`. -/
structure PolygonDictionaryIndexCell where
  configuration : IPolygonDictionary.Configuration
  polygons : List Polygon
  index : GridRoot FinalCellWithSlabs
  min_intersections : Nat
  max_depth : Nat

namespace PolygonDictionaryIndexCell

/-- The constructor `PolygonDictionaryIndexCell(..., configuration_,
size_t min_intersections_, size_t max_depth_)`; the member initialiser
`index(min_intersections_, max_depth_, polygons)` calls the constructor of the
cell index, which is the parameter `makeIndex`. The body is empty. -/
def construct (makeIndex : Nat → Nat → List Polygon → GridRoot FinalCellWithSlabs)
    (polygons : List Polygon) (configuration_ : IPolygonDictionary.Configuration)
    (min_intersections_ max_depth_ : Nat) : PolygonDictionaryIndexCell :=
  { configuration := configuration_
    polygons := polygons
    index := makeIndex min_intersections_ max_depth_ polygons
    min_intersections := min_intersections_
    max_depth := max_depth_ }

/-- The function `PolygonDictionaryIndexCell::find(point, polygon_index)`.
The nested `cell->index.find(point, polygon_index)` is only called when
`corresponding_ids` is not empty (short-circuit `&&`) and may write
`polygon_index` also when it returns false; `corresponding_ids[polygon_index]`
out of range gives `none`. -/
def find (kNone : Nat) (d : PolygonDictionaryIndexCell) (point : Point)
    (polygon_index : Nat) : Option (Bool × Nat) :=
  match d.index point.x point.y with
  | some cell =>
    if cell.corresponding_ids.isEmpty then
      if cell.first_covered ≠ kNone then some (true, cell.first_covered)
      else some (false, polygon_index)
    else
      match cell.index point polygon_index with
      | (true, local_id) =>
        match cell.corresponding_ids[local_id]? with
        | some global_id => some (true, global_id)
        | none => none
      | (false, written) =>
        if cell.first_covered ≠ kNone then some (true, cell.first_covered)
        else some (false, written)
  | none => some (false, polygon_index)

end PolygonDictionaryIndexCell

/-! ## The grid and cell builds

The constructors of the grid (`GridRoot`, `FinalCell`, `FinalCellWithSlabs` and
the nested index of a cell) are in `PolygonDictionaryUtils`, outside the
translated file. They are modelled from sections 4.3 and 4.4 of the
specification. The geometric primitives they call (Boost.Geometry) and the way
a cell is split, which the specification leaves open, are parameters. -/

/-- An axis-aligned region ("Grid cell: an axis-aligned region"). -/
structure Box where
  min_x : Coord
  min_y : Coord
  max_x : Coord
  max_y : Coord
deriving DecidableEq

/-- The closed region of a box contains the point `(x, y)`. -/
def Box.contains (box : Box) (x y : Coord) : Bool :=
  decide (box.min_x ≤ x) && decide (x ≤ box.max_x) &&
    (decide (box.min_y ≤ y) && decide (y ≤ box.max_y))

/-- The box grown to contain one more point. -/
def Box.extend (box : Box) (p : Point) : Box :=
  { min_x := min box.min_x p.x
    min_y := min box.min_y p.y
    max_x := max box.max_x p.x
    max_y := max box.max_y p.y }

/-- Modelled from the spec: "compute the bounding region of all polygons" (the
first step of the grid build, in the missing `GridRoot`): the smallest box that
contains every point of every outer ring; there is none when no polygon has a
point. -/
def boundingBox (polygons : List Polygon) : Option Box :=
  match polygons.flatMap Polygon.outer with
  | [] => none
  | p :: rest => some (rest.foldl Box.extend (Box.mk p.x p.y p.x p.y))

/-- The geometric parameters of the grid build: the test "the polygon's bounding
shape intersects the cell", the test "the whole cell area lies within the
polygon", and the subdivision of a cell into smaller cells. -/
structure GridGeometry where
  intersects : Box → Polygon → Bool
  within : Box → Polygon → Bool
  split : Box → List Box

/-- Modelled from the spec: the value of `first_covered` of a finalized cell
(constructor of `FinalCell`, missing), "if the whole cell area lies within a
single polygon's bounds, a `first_covered` sentinel for that polygon": the id of
the first such polygon, and `kNone` when there is none. -/
def firstCoveredOf (kNone : Nat) (g : GridGeometry) (polygons : List Polygon) (box : Box) : Nat :=
  match polygons.enum.find? (fun ip => g.within box ip.2) with
  | some ip => ip.1
  | none => kNone

/-- Modelled from the spec: the polygons relevant to a cell with their ids, "the
list of candidate polygon ids intersecting it", in construction order. -/
def relevantPolygons (g : GridGeometry) (polygons : List Polygon) (box : Box) :
    List (Nat × Polygon) :=
  polygons.enum.filter (fun ip => g.intersects box ip.2)

/-- Modelled from the spec: the finalisation of a grid cell (constructor of
`FinalCell`, missing), section 4.3: "A finalized cell stores: the list of
candidate polygon ids intersecting it, and, if the whole cell area lies within a
single polygon's bounds, a `first_covered` sentinel for that polygon". -/
def FinalCell.finalize (kNone : Nat) (g : GridGeometry) (polygons : List Polygon) (box : Box) :
    FinalCell :=
  { polygon_ids := (relevantPolygons g polygons box).map Prod.fst
    first_covered := firstCoveredOf kNone g polygons box }

/-- Modelled from the spec: the finalisation of a cell with slabs (constructor of
`FinalCellWithSlabs` and of its nested index, missing), section 4.4: "each
finalized cell builds a nested secondary index restricted to the polygons
relevant to that cell, with a local id table mapping the nested index's local
polygon ids back to global ids (`corresponding_ids`). A `first_covered` sentinel
is retained identically". The specification gives the nested index only through
the query contract of every index (the first covering polygon in order wins);
it is modelled by that contract over the local polygons. -/
def FinalCellWithSlabs.finalize (kNone : Nat) (covered_by : CoveredBy) (g : GridGeometry)
    (polygons : List Polygon) (box : Box) : FinalCellWithSlabs :=
  { corresponding_ids := (relevantPolygons g polygons box).map Prod.fst
    index := fun point polygon_index =>
      PolygonDictionarySimple.findFrom covered_by point
        ((relevantPolygons g polygons box).map Prod.snd) 0 polygon_index
    first_covered := firstCoveredOf kNone g polygons box }

namespace GridRoot

/-- Modelled from the spec: the subdivision of the grid build (missing
`GridRoot`), section 4.3: "For a cell, if the number of polygons whose bounding
shape intersects it exceeds `min_intersections` and the current subdivision
depth is below `max_depth`, split the cell further; otherwise finalize it".
The first numeric argument is `max_depth` minus the current depth; the result
lists the finalized cells with their regions. -/
def makeCells {ReturnCell : Type} (g : GridGeometry) (finalize : Box → ReturnCell)
    (polygons : List Polygon) (min_intersections : Nat) :
    Nat → Box → List (Box × ReturnCell)
  | 0, box => [(box, finalize box)]
  | remaining + 1, box =>
    if min_intersections < (polygons.filter (g.intersects box)).length then
      (g.split box).flatMap (makeCells g finalize polygons min_intersections remaining)
    else [(box, finalize box)]

/-- Modelled from the spec: the cells of the built grid (missing `GridRoot`):
the subdivision of the bounding region of all polygons, started at depth 0. -/
def cells {ReturnCell : Type} (g : GridGeometry) (finalize : Box → ReturnCell)
    (polygons : List Polygon) (min_intersections max_depth : Nat) : List (Box × ReturnCell) :=
  match boundingBox polygons with
  | none => []
  | some root => makeCells g finalize polygons min_intersections max_depth root

/-- Modelled from the spec: the built grid with its query "locate the leaf cell
containing the point" (missing `GridRoot::find`); null when no cell contains the
point. -/
def build {ReturnCell : Type} (g : GridGeometry) (finalize : Box → ReturnCell)
    (polygons : List Polygon) (min_intersections max_depth : Nat) : GridRoot ReturnCell :=
  fun x y =>
    ((cells g finalize polygons min_intersections max_depth).find?
      (fun cell => cell.1.contains x y)).map Prod.snd

end GridRoot

/-! ## A concrete geometry

The point-in-polygon primitive and the cell tests over exact coordinates, used
to evaluate the strategies on concrete polygons. -/

/-- The edges of an implicitly closed ring: consecutive points, and the last
point back to the first. -/
def Ring.edges : Ring → List (Point × Point)
  | [] => []
  | p :: rest => List.zip (p :: rest) (rest ++ [p])

/-- The point `p` lies on the closed segment from `a` to `b`. -/
def onSegment (p a b : Point) : Bool :=
  decide ((b.x - a.x) * (p.y - a.y) = (b.y - a.y) * (p.x - a.x)) &&
    (decide (min a.x b.x ≤ p.x) && decide (p.x ≤ max a.x b.x)) &&
    (decide (min a.y b.y ≤ p.y) && decide (p.y ≤ max a.y b.y))

/-- The horizontal ray from `p` towards larger `x` crosses the edge from `a` to
`b` (an edge counts for the heights `y` with `min a.y b.y ≤ y < max a.y b.y`). -/
def crossesRay (p a b : Point) : Bool :=
  (decide (p.y < a.y) != decide (p.y < b.y)) &&
    decide (p.x < a.x + (p.y - a.y) * (b.x - a.x) / (b.y - a.y))

/-- The point lies on the boundary of the ring. -/
def Ring.onBoundary (ring : Ring) (p : Point) : Bool :=
  ring.edges.any (fun edge => onSegment p edge.1 edge.2)

/-- The ray from the point crosses the ring an odd number of times. -/
def Ring.encloses (ring : Ring) (p : Point) : Bool :=
  (ring.edges.filter (fun edge => crossesRay p edge.1 edge.2)).length % 2 == 1

/-- Modelled from the spec: the point-in-polygon primitive of section 4.1
(`bg::covered_by` of Boost.Geometry in the source): "Inside includes the
boundary (closed containment). A hole subtracts its enclosed area: a point
inside a hole ring is not covered even if inside the outer ring", by ray
casting with explicit boundary handling. -/
def coveredBy : CoveredBy := fun p polygon =>
  (polygon.outer.onBoundary p || polygon.outer.encloses p) &&
    polygon.inners.all (fun hole => hole.onBoundary p || !hole.encloses p)

/-- Two closed boxes have a common point. -/
def Box.overlaps (a b : Box) : Bool :=
  (decide (a.min_x ≤ b.max_x) && decide (b.min_x ≤ a.max_x)) &&
    (decide (a.min_y ≤ b.max_y) && decide (b.min_y ≤ a.max_y))

/-- The box `a` lies inside the box `b`. -/
def Box.inside (a b : Box) : Bool :=
  (decide (b.min_x ≤ a.min_x) && decide (a.max_x ≤ b.max_x)) &&
    (decide (b.min_y ≤ a.min_y) && decide (a.max_y ≤ b.max_y))

/-- The four quadrants of a box around its centre. -/
def Box.quadrants (box : Box) : List Box :=
  [ Box.mk box.min_x box.min_y ((box.min_x + box.max_x) / 2) ((box.min_y + box.max_y) / 2),
    Box.mk ((box.min_x + box.max_x) / 2) box.min_y box.max_x ((box.min_y + box.max_y) / 2),
    Box.mk box.min_x ((box.min_y + box.max_y) / 2) ((box.min_x + box.max_x) / 2) box.max_y,
    Box.mk ((box.min_x + box.max_x) / 2) ((box.min_y + box.max_y) / 2) box.max_x box.max_y ]

/-- A grid geometry on bounding shapes: a polygon is a candidate of a cell when
its bounding box overlaps the cell, a cell counts as lying within a polygon
when it lies inside the bounding box of a polygon without holes (exact for
axis-aligned rectangles; for other polygons this is the bounding-shape reading
of section 4.3, which marks cells that the polygon does not cover), and a cell
is split into its quadrants. -/
def boundsGeometry : GridGeometry :=
  { intersects := fun box polygon =>
      match boundingBox [polygon] with
      | some bounds => box.overlaps bounds
      | none => false
    within := fun box polygon =>
      match boundingBox [polygon] with
      | some bounds => box.inside bounds && polygon.inners.isEmpty
      | none => false
    split := Box.quadrants }

/-- The square A of section 8: the ring `[(0,0),(0,2),(2,2),(2,0)]`. -/
def squareA : Polygon :=
  { outer := [Point.mk 0 0, Point.mk 0 2, Point.mk 2 2, Point.mk 2 0], inners := [] }

/-- The square B of section 8: the ring `[(1,1),(1,3),(3,3),(3,1)]`. -/
def squareB : Polygon :=
  { outer := [Point.mk 1 1, Point.mk 1 3, Point.mk 3 3, Point.mk 3 1], inners := [] }

/-- A configuration value for the examples. -/
def exampleConfiguration : IPolygonDictionary.Configuration :=
  { input_type := IPolygonDictionary.InputType.SimplePolygon
    point_type := IPolygonDictionary.PointType.Tuple
    store_polygon_key_column := false
    use_async_executor := false }

/-! ## `createLayout`

The layout builder reads the dictionary structure and the configuration, checks
the key, and constructs the dictionary. The classes it reads from
(`DictionaryStructure`, the data types, the Poco configuration) are declared
outside the translated file; the embedding keeps the parts that `createLayout`
reads. The parse of configuration entries, the lifetime, the storage id and the
load of the polygons from the source belong to external collaborators and are
taken as given. -/

/-- The data types of key attributes, as terms: `Float64`, `Array(T)`, the
unnamed `Tuple(T1, ..., Tn)`, and every other type under its name. -/
inductive DataType
  | Float64
  | Other (name : String)
  | Array (nested : DataType)
  | Tuple (elems : List DataType)

mutual
/-- Modelled from the spec: `IDataType::equals` (in `DataTypes`, missing), read
from section 4.5, "exactly these four encodings are accepted", as identity of
the type terms. -/
def DataType.equals : DataType → DataType → Bool
  | .Float64, .Float64 => true
  | .Other a, .Other b => a == b
  | .Array a, .Array b => a.equals b
  | .Tuple a, .Tuple b => DataType.equalsAll a b
  | _, _ => false
/-- The element-wise `equals` of two lists of tuple elements. -/
def DataType.equalsAll : List DataType → List DataType → Bool
  | [], [] => true
  | a :: as, b :: bs => a.equals b && DataType.equalsAll as bs
  | _, _ => false
end

/-- The local `f64`: `std::make_shared<DataTypeFloat64>()`. -/
def f64 : DataType := DataType.Float64

/-- The local `multi_polygon_array`: `Array(Array(Array(Array(Float64))))`. -/
def multi_polygon_array : DataType :=
  DataType.Array (DataType.Array (DataType.Array (DataType.Array f64)))

/-- The local `multi_polygon_tuple`: `Array(Array(Array(Tuple(Float64, Float64))))`. -/
def multi_polygon_tuple : DataType :=
  DataType.Array (DataType.Array (DataType.Array (DataType.Tuple [f64, f64])))

/-- The local `simple_polygon_array`: `Array(Array(Float64))`. -/
def simple_polygon_array : DataType :=
  DataType.Array (DataType.Array f64)

/-- The local `simple_polygon_tuple`: `Array(Tuple(Float64, Float64))`. -/
def simple_polygon_tuple : DataType :=
  DataType.Array (DataType.Tuple [f64, f64])

/-- The error codes that the translated files declare (`extern const int` in
`namespace ErrorCodes`). -/
inductive ErrorCode
  | BAD_ARGUMENTS
  | ILLEGAL_DIVISION
  | SIZES_OF_ARRAYS_DONT_MATCH
  | NUMBER_OF_ARGUMENTS_DOESNT_MATCH
  | ILLEGAL_COLUMN
  | ILLEGAL_TYPE_OF_ARGUMENT
deriving DecidableEq, Repr

/-- An `Exception`: its error code and the format string of its message. -/
structure Exception where
  code : ErrorCode
  message : String
deriving DecidableEq, Repr

/-- The members of `DictionaryAttribute` that `createLayout` reads. -/
structure DictionaryAttribute where
  name : String
  type : DataType

/-- The members of `DictionaryStructure` that `createLayout` reads: the optional
`key` and the optional `range_min` and `range_max`. -/
structure DictionaryStructure where
  key : Option (List DictionaryAttribute)
  range_min : Option DictionaryAttribute
  range_max : Option DictionaryAttribute

/-- The entries of the configuration that `createLayout` reads: the name of the
dictionary (`config.getString(... + ".name")`, the first statement; every
dictionary configuration carries it) and, under the layout,
`store_polygon_key_column`, `max_depth` and `min_intersections`, each present or
absent. -/
structure DictionaryConfig where
  name : String
  store_polygon_key_column : Option Bool
  max_depth : Option Nat
  min_intersections : Option Nat

/-- The call `config.getBool(key, defaultValue)`. -/
def getBool (entry : Option Bool) (defaultValue : Bool) : Bool :=
  match entry with
  | some value => value
  | none => defaultValue

/-- The call `config.getUInt(key, defaultValue)`: the entry when present and the
default when absent, as an `unsigned int` (below `2 ^ 32`). -/
def getUInt (entry : Option Nat) (defaultValue : Nat) : Nat :=
  match entry with
  | some value => value % 2 ^ 32
  | none => defaultValue % 2 ^ 32

/-- The implicit conversion of a `size_t` argument to an `int` parameter: the
value modulo `2 ^ 32`, read in two's complement. -/
def sizeToInt (value : Nat) : Int :=
  if value % 2 ^ 32 < 2 ^ 31 then ((value % 2 ^ 32 : Nat) : Int)
  else ((value % 2 ^ 32 : Nat) : Int) - 2 ^ 32

/-- The template argument `PolygonDictionary` of `createLayout`. -/
inductive PolygonDictionaryKind
  | Simple
  | IndexEach
  | IndexCell
deriving DecidableEq, Repr

/-- A constructed dictionary of one of the three classes. -/
inductive Dictionary
  | simple (d : PolygonDictionarySimple)
  | indexEach (d : PolygonDictionaryIndexEach)
  | indexCell (d : PolygonDictionaryIndexCell)

/-- The configuration that a constructed dictionary holds. -/
def Dictionary.configuration : Dictionary → IPolygonDictionary.Configuration
  | .simple d => d.configuration
  | .indexEach d => d.configuration
  | .indexCell d => d.configuration

/-- What `createLayout` takes from outside the file: the constants
`PolygonDictionary::kMaxDepthDefault` and
`PolygonDictionary::kMinIntersectionsDefault` of the instantiated class, the
constructors of the grid and of the cell index, the polygons that the base
class loads from the source, whether the source is a local ClickHouse source,
and the setting `dictionary_use_async_executor`. -/
structure LayoutEnvironment where
  kMaxDepthDefault : Nat
  kMinIntersectionsDefault : Nat
  makeGrid : Int → Int → List Polygon → GridRoot FinalCell
  makeIndex : Nat → Nat → List Polygon → GridRoot FinalCellWithSlabs
  polygons : List Polygon
  source_is_local_clickhouse : Bool
  dictionary_use_async_executor : Bool

/-- The key-type chain of `createLayout`: the `if (key_type->equals(...))`
cascade that sets `input_type` and `point_type`, or throws. -/
def keyTypeConfiguration (key_type : DataType) :
    Except Exception (IPolygonDictionary.InputType × IPolygonDictionary.PointType) :=
  if key_type.equals multi_polygon_array then
    .ok (IPolygonDictionary.InputType.MultiPolygon, IPolygonDictionary.PointType.Array)
  else if key_type.equals multi_polygon_tuple then
    .ok (IPolygonDictionary.InputType.MultiPolygon, IPolygonDictionary.PointType.Tuple)
  else if key_type.equals simple_polygon_array then
    .ok (IPolygonDictionary.InputType.SimplePolygon, IPolygonDictionary.PointType.Array)
  else if key_type.equals simple_polygon_tuple then
    .ok (IPolygonDictionary.InputType.SimplePolygon, IPolygonDictionary.PointType.Tuple)
  else
    .error (Exception.mk ErrorCode.BAD_ARGUMENTS
      "The key type \x7b\x7d is not one of the following allowed types for a polygon dictionary: \x7b\x7d \x7b\x7d \x7b\x7d \x7b\x7d ")

/-- The end of `createLayout`: the `if constexpr` on the class, which reads
`max_depth` and `min_intersections` for the two index classes only and calls
the constructor. The `size_t` values are converted to the `int` parameters of
the constructor of `PolygonDictionaryIndexEach`. -/
def makeDictionary (kind : PolygonDictionaryKind) (env : LayoutEnvironment)
    (config : DictionaryConfig) (configuration : IPolygonDictionary.Configuration) :
    Dictionary :=
  match kind with
  | .IndexEach =>
    let max_depth := getUInt config.max_depth env.kMaxDepthDefault
    let min_intersections := getUInt config.min_intersections env.kMinIntersectionsDefault
    .indexEach (PolygonDictionaryIndexEach.construct env.makeGrid env.polygons configuration
      (sizeToInt min_intersections) (sizeToInt max_depth))
  | .IndexCell =>
    let max_depth := getUInt config.max_depth env.kMaxDepthDefault
    let min_intersections := getUInt config.min_intersections env.kMinIntersectionsDefault
    .indexCell (PolygonDictionaryIndexCell.construct env.makeIndex env.polygons configuration
      min_intersections max_depth)
  | .Simple => .simple (PolygonDictionarySimple.mk configuration env.polygons)

/-- The function template `createLayout<PolygonDictionary>`. The checks run in
the order of the source: the key is present, the key has exactly one attribute
(the middle case below is `key->size() == 1`, with `(*dict_struct.key)[0]` as
`key_attribute`), the key type is one of the four, neither `range_min` nor
`range_max` is declared; then the dictionary is constructed. -/
def createLayout (kind : PolygonDictionaryKind) (env : LayoutEnvironment)
    (dict_struct : DictionaryStructure) (config : DictionaryConfig) :
    Except Exception Dictionary :=
  match dict_struct.key with
  | none =>
    .error (Exception.mk ErrorCode.BAD_ARGUMENTS "'key' is required for a polygon dictionary")
  | some [key_attribute] =>
    match keyTypeConfiguration key_attribute.type with
    | .error e => .error e
    | .ok (input_type, point_type) =>
      let use_async_executor :=
        env.source_is_local_clickhouse && env.dictionary_use_async_executor
      let configuration : IPolygonDictionary.Configuration :=
        { input_type := input_type
          point_type := point_type
          store_polygon_key_column := getBool config.store_polygon_key_column false
          use_async_executor := use_async_executor }
      if dict_struct.range_min.isSome || dict_struct.range_max.isSome then
        .error (Exception.mk ErrorCode.BAD_ARGUMENTS
          "\x7b\x7d: elements range_min and range_max should be defined only for a dictionary of layout 'range_hashed'")
      else
        .ok (makeDictionary kind env config configuration)
  | some _ =>
    .error (Exception.mk ErrorCode.BAD_ARGUMENTS
      "The 'key' should consist of a single attribute for a polygon dictionary")

/-! ## `registerDictionaryPolygon` -/

/-- The type of a layout builder as the factory stores it: an instance of
`createLayout`, applied to what it takes from outside and to its arguments. -/
abbrev LayoutCreateFunction :=
  LayoutEnvironment → DictionaryStructure → DictionaryConfig → Except Exception Dictionary

/-- One registration of the factory: the arguments of a call of
`registerLayout(layout_type, create_layout, is_layout_complex)`. -/
structure RegisteredLayout where
  layout_type : String
  layout_create_function : LayoutCreateFunction
  is_layout_complex : Bool

/-- Modelled from the spec: the layout table of `DictionaryFactory` (class
missing), section 9: "a runtime dispatch table from layout name to a builder
closure/function"; the registrations in the order they were made. -/
abbrev DictionaryFactory := List RegisteredLayout

/-- Modelled from the spec: `DictionaryFactory::registerLayout` (missing), which
adds one entry to the dispatch table. -/
def DictionaryFactory.registerLayout (factory : DictionaryFactory) (layout_type : String)
    (create_layout : LayoutCreateFunction) (is_layout_complex : Bool) : DictionaryFactory :=
  factory ++ [RegisteredLayout.mk layout_type create_layout is_layout_complex]

/-- Modelled from the spec: the dispatch of the factory on a layout name
(missing `DictionaryFactory::create`): the builder registered under the name. -/
def DictionaryFactory.lookup (factory : DictionaryFactory) (layout_type : String) :
    Option LayoutCreateFunction :=
  (factory.find? (fun entry => entry.layout_type == layout_type)).map
    RegisteredLayout.layout_create_function

/-- The function `registerDictionaryPolygon(factory)`: four calls of
`registerLayout`, the last one under the alias `polygon`. -/
def registerDictionaryPolygon (factory : DictionaryFactory) : DictionaryFactory :=
  (((factory.registerLayout "polygon_simple"
        (createLayout PolygonDictionaryKind.Simple) true).registerLayout "polygon_index_each"
        (createLayout PolygonDictionaryKind.IndexEach) true).registerLayout "polygon_index_cell"
        (createLayout PolygonDictionaryKind.IndexCell) true).registerLayout "polygon"
        (createLayout PolygonDictionaryKind.IndexCell) true

/-- An integer type: signedness and width in bits. -/
structure IntType where
  signed : Bool
  bits : Nat
deriving DecidableEq, Repr

/-- The type `UInt8`. -/
def IntType.UInt8 : IntType := IntType.mk false 8
/-- The type `UInt16`. -/
def IntType.UInt16 : IntType := IntType.mk false 16
/-- The type `UInt32`. -/
def IntType.UInt32 : IntType := IntType.mk false 32
/-- The type `UInt64`. -/
def IntType.UInt64 : IntType := IntType.mk false 64
/-- The type `Int8`. -/
def IntType.Int8 : IntType := IntType.mk true 8
/-- The type `Int16`. -/
def IntType.Int16 : IntType := IntType.mk true 16
/-- The type `Int32`. -/
def IntType.Int32 : IntType := IntType.mk true 32
/-- The type `Int64`. -/
def IntType.Int64 : IntType := IntType.mk true 64

/-- The constant `std::numeric_limits<T>::max()`. -/
def IntType.max (T : IntType) : Int :=
  if T.signed then 2 ^ (T.bits - 1) - 1 else 2 ^ T.bits - 1

/-- The constant `std::numeric_limits<T>::lowest()`. -/
def IntType.lowest (T : IntType) : Int :=
  if T.signed then -(2 ^ (T.bits - 1)) else 0

/-- The bit pattern of an integer in the type: the value modulo `2 ^ bits`. -/
def IntType.pattern (T : IntType) (value : Int) : Nat :=
  (value % 2 ^ T.bits).toNat

/-- The value that a bit pattern stands for in the type (two's complement for a
signed type). -/
def IntType.ofPattern (T : IntType) (pattern : Nat) : Int :=
  if T.signed && decide (2 ^ (T.bits - 1) ≤ pattern) then (pattern : Int) - 2 ^ T.bits
  else (pattern : Int)

/-- The conversion `static_cast<T>(value)` of an integer value. -/
def IntType.cast (T : IntType) (value : Int) : Int :=
  T.ofPattern (T.pattern value)

/-- The operation `x & y` carried out in the type. -/
def IntType.bitAnd (T : IntType) (x y : Int) : Int :=
  T.ofPattern (Nat.land (T.pattern x) (T.pattern y))

/-- The type in which a binary operation on an `A` and a `B` of the same
signedness is carried out (integer promotion to at least 32 bits, then the
wider of the two). -/
def IntType.common (A B : IntType) : IntType :=
  IntType.mk A.signed (Nat.max (Nat.max A.bits B.bits) 32)

/-- The sixteen pairs `(A, B)` for which `BinaryOperationImpl` is specialised to
`ModuloByConstantImpl<A, B>`. -/
def moduloSpecialisations : List (IntType × IntType) :=
  [ (IntType.UInt64, IntType.UInt8), (IntType.UInt64, IntType.UInt16),
    (IntType.UInt64, IntType.UInt32), (IntType.UInt64, IntType.UInt64),
    (IntType.UInt32, IntType.UInt8), (IntType.UInt32, IntType.UInt16),
    (IntType.UInt32, IntType.UInt32), (IntType.UInt32, IntType.UInt64),
    (IntType.Int64, IntType.Int8), (IntType.Int64, IntType.Int16),
    (IntType.Int64, IntType.Int32), (IntType.Int64, IntType.Int64),
    (IntType.Int32, IntType.Int8), (IntType.Int32, IntType.Int16),
    (IntType.Int32, IntType.Int32), (IntType.Int32, IntType.Int64) ]

/-- What a call of `vectorConstant` leaves behind: the contents of `dst` and the
exception thrown, if any. -/
structure VectorConstantResult where
  dst : List Int
  exception : Option Exception
deriving DecidableEq, Repr

/-- A loop `for (size_t i = 0; i < size; ++i) dst[i] = f(src[i]);` with `size`
the length of `src`: the first `size` elements of `dst` are written. -/
def writeAll (f : Int → Int) (src dst : List Int) : List Int :=
  src.map f ++ dst.drop src.length

namespace ModuloByConstantImpl

/-- The function `ModuloByConstantImpl<A, B>::vectorConstant(src, b, dst, size)`
for a pair of the same signedness. `ResultType` is declared outside the file and
is a parameter. The quotient `src[i] / divider` of libdivide is the truncated
quotient in `A`; the product and the difference are carried out in the common
type of `A` and `B`, and so is the `&` of the power-of-two branch. -/
def vectorConstant (A B ResultType : IntType) (src : List Int) (b : Int) (dst : List Int) :
    VectorConstantResult :=
  if (B.signed && decide (b = -1)) || decide (b = 1) then
    { dst := writeAll (fun _ => 0) src dst, exception := none }
  else if decide (b > A.max) || (A.signed && B.signed && decide (b < A.lowest)) then
    { dst := writeAll (fun x => ResultType.cast x) src dst, exception := none }
  else if A.cast b = 0 then
    { dst := dst
      exception := some (Exception.mk ErrorCode.ILLEGAL_DIVISION "Division by zero") }
  else if B.signed && decide (b = B.lowest) then
    { dst := dst
      exception := some (Exception.mk ErrorCode.ILLEGAL_DIVISION
        "Division by the most negative number") }
  else
    let b := if b < 0 then B.cast (-b) else b
    if (IntType.common B B).bitAnd b (b - 1) ≠ 0 then
      { dst := writeAll
          (fun x => ResultType.cast ((IntType.common A B).cast
            (x - (IntType.common A B).cast (A.cast (Int.tdiv x (A.cast b)) * b)))) src dst
        exception := none }
    else
      let mask := b - 1
      { dst := writeAll
          (fun x => ResultType.cast ((IntType.common A B).bitAnd x mask)) src dst
        exception := none }

/-- The member `process<OpCase::RightConstant>(a, b, c, size, right_nullmap)`;
`right_is_null` is the value of `right_nullmap && (*right_nullmap)[0]`. -/
def process (A B ResultType : IntType) (a : List Int) (b : Int) (c : List Int)
    (right_is_null : Bool) : VectorConstantResult :=
  if right_is_null then { dst := c, exception := none }
  else vectorConstant A B ResultType a b c

end ModuloByConstantImpl

/-! ## `arrayUniq` (`src/Functions/array/arrayUniq.cpp`)

Columns are lists of values of a type `Value` with decidable equality (for a
number the bit pattern of the value). An element of a nullable column is `none`
for NULL. A read past the end of a column or of a null map (undefined behaviour
in C++) makes the embedded function return `none`. -/

/-- The ten number types that `executeImpl` tries, in its order. -/
inductive NumberType
  | UInt8
  | UInt16
  | UInt32
  | UInt64
  | Int8
  | Int16
  | Int32
  | Int64
  | Float32
  | Float64
deriving DecidableEq, Repr

/-- The classes of columns that the casts `checkAndGetColumn<...>` of the
single-argument path tell apart: `ColumnVector<T>` for the ten number types,
`ColumnFixedString`, `ColumnString`, and every other column. -/
inductive ColumnClass
  | vector (T : NumberType)
  | fixedString
  | string
  | other
deriving DecidableEq, Repr

/-- A column that is not nullable: its class, its values, and the answer of
`isFixedAndContiguous()` with `sizeOfValueIfFixed()` (`none` when the column is
not fixed and contiguous). -/
structure PlainColumn (Value : Type) where
  cls : ColumnClass
  values : List Value
  fixed_size : Option Nat

/-- The data column of an array (`array->getData()`): a plain column, or a
`ColumnNullable` with its nested column, its null map and its own answer of
`isFixedAndContiguous()` with `sizeOfValueIfFixed()`. -/
inductive DataColumn (Value : Type)
  | plain (column : PlainColumn Value)
  | nullable (nested : PlainColumn Value) (null_map : List Bool) (fixed_size : Option Nat)

/-- A `ColumnArray`: the offsets and the data column. -/
structure ColumnArray (Value : Type) where
  offsets : List Nat
  data : DataColumn Value

/-- The column of an argument: a `ColumnArray`, a constant column of an array
(with the full column that `convertToFullColumn()` gives), or any other column,
under its name. -/
inductive ArgumentColumn (Value : Type)
  | array (column : ColumnArray Value)
  | constArray (full : ColumnArray Value)
  | other (name : String)

/-- The answer of `isFixedAndContiguous()` with `sizeOfValueIfFixed()` of a data
column. -/
def DataColumn.fixedSize {Value : Type} : DataColumn Value → Option Nat
  | .plain column => column.fixed_size
  | .nullable _ _ fixed_size => fixed_size

/-- The element of a data column at row `j`: `some none` for NULL, `some (some v)`
for the value `v`, and `none` past the end of the column. -/
def DataColumn.elementAt {Value : Type} : DataColumn Value → Nat → Option (Option Value)
  | .plain column, j => (column.values[j]?).map some
  | .nullable nested null_map _, j =>
    match null_map[j]?, nested.values[j]? with
    | some true, some _ => some none
    | some false, some value => some (some value)
    | _, _ => none

/-- The tuple of the elements of several columns at row `j`. -/
def tupleAt {Value : Type} : List (DataColumn Value) → Nat → Option (List (Option Value))
  | [], _ => some []
  | column :: rest, j =>
    match column.elementAt j, tupleAt rest j with
    | some element, some tuple => some (element :: tuple)
    | _, _ => none

/-- Modelled from the spec: the insertion into the hash set
(`ClearableHashSetWithStackMemory`, in `Common/HashTable`, missing) that
`method.emplaceKey(set, j, pool)` performs, for the "uniqueness counting" of
section 1: the set holds each key once, `set.size()` is its length and
`set.clear()` leaves the empty list. -/
def emplaceKey {Key : Type} [DecidableEq Key] (key : Key) (set : List Key) : List Key :=
  if key ∈ set then set else key :: set

/-- The conversion `static_cast<UInt32>(value)` of a size. -/
def toUInt32 (value : Nat) : Nat := value % 2 ^ 32

namespace FunctionArrayUniq

/-- The inner loop of `executeMethodImpl`, `count` iterations from row `j`:
`for (; j < off; ++j) { if constexpr (has_null_map) { if ((*null_map)[j])
{ found_null = true; continue; } } method.emplaceKey(set, j, pool); }`.
`keyAt j` is the key that the method takes from row `j` of its columns;
`has_null_map` is the presence of `null_map`. -/
def rowLoop {Key : Type} [DecidableEq Key] (keyAt : Nat → Option Key)
    (null_map : Option (List Bool)) : Nat → Nat → List Key → Bool → Option (List Key × Bool)
  | 0, _, set, found_null => some (set, found_null)
  | count + 1, j, set, found_null =>
    match null_map with
    | some flags =>
      match flags[j]? with
      | none => none
      | some true => rowLoop keyAt null_map count (j + 1) set true
      | some false =>
        match keyAt j with
        | none => none
        | some key => rowLoop keyAt null_map count (j + 1) (emplaceKey key set) found_null
    | none =>
      match keyAt j with
      | none => none
      | some key => rowLoop keyAt null_map count (j + 1) (emplaceKey key set) found_null

/-- The outer loop of `executeMethodImpl` over the offsets that remain, with
`prev_off` the offset before them: `set.clear(); found_null = false;` the inner
loop from `prev_off` to `off`, `res_values[i] = static_cast<UInt32>(set.size() +
found_null); prev_off = off;`. The result lists the values written to
`res_values`. -/
def executeMethodImpl {Key : Type} [DecidableEq Key] (keyAt : Nat → Option Key)
    (null_map : Option (List Bool)) : List Nat → Nat → Option (List Nat)
  | [], _ => some []
  | off :: rest, prev_off =>
    match rowLoop keyAt null_map (off - prev_off) prev_off [] false with
    | none => none
    | some (set, found_null) =>
      match executeMethodImpl keyAt null_map rest off with
      | none => none
      | some res_values => some (toUInt32 (set.length + found_null.toNat) :: res_values)

/-- The member `executeMethod<Method>`: both branches run `executeMethodImpl`,
with `has_null_map` the presence of `null_map`. -/
def executeMethod {Key : Type} [DecidableEq Key] (keyAt : Nat → Option Key)
    (offsets : List Nat) (null_map : Option (List Bool)) : Option (List Nat) :=
  executeMethodImpl keyAt null_map offsets 0

/-- The key of `MethodOneNumber<T>`, `MethodString` and `MethodFixedString` at
row `j`: the value of the column itself (their sets hold `T` or `StringRef`). -/
def valueKeyAt {Value : Type} (nested : PlainColumn Value) (j : Nat) : Option Value :=
  nested.values[j]?

/-- The member `executeNumber<T>`: `none` when the column is not a
`ColumnVector<T>` (the function returns false), else the values written. -/
def executeNumber {Value : Type} [DecidableEq Value] (T : NumberType) (offsets : List Nat)
    (data : DataColumn Value) (null_map : Option (List Bool)) : Option (Option (List Nat)) :=
  match data with
  | .plain nested =>
    if nested.cls = ColumnClass.vector T then
      some (executeMethod (valueKeyAt nested) offsets null_map)
    else none
  | .nullable _ _ _ => none

/-- The member `executeString`. -/
def executeString {Value : Type} [DecidableEq Value] (offsets : List Nat)
    (data : DataColumn Value) (null_map : Option (List Bool)) : Option (Option (List Nat)) :=
  match data with
  | .plain nested =>
    if nested.cls = ColumnClass.string then
      some (executeMethod (valueKeyAt nested) offsets null_map)
    else none
  | .nullable _ _ _ => none

/-- The member `executeFixedString`. -/
def executeFixedString {Value : Type} [DecidableEq Value] (offsets : List Nat)
    (data : DataColumn Value) (null_map : Option (List Bool)) : Option (Option (List Nat)) :=
  match data with
  | .plain nested =>
    if nested.cls = ColumnClass.fixedString then
      some (executeMethod (valueKeyAt nested) offsets null_map)
    else none
  | .nullable _ _ _ => none

/-- The loop of `execute128bit` over the columns: the sizes of their values, or
`none` when a column is not fixed and contiguous. -/
def keySizes {Value : Type} : List (DataColumn Value) → Option (List Nat)
  | [] => some []
  | column :: rest =>
    match column.fixedSize with
    | none => none
    | some size =>
      match keySizes rest with
      | none => none
      | some sizes => some (size :: sizes)

/-- The member `execute128bit`: `none` when it returns false (a column is not
fixed and contiguous, or the keys take more than 16 bytes). `pack` is the key
that `MethodFixed` (`HashMethodKeysFixed`, declared outside the file) packs into
a `UInt128` from the tuple of a row. -/
def execute128bit {Value : Type} (pack : List Nat → List (Option Value) → Nat)
    (offsets : List Nat) (columns : List (DataColumn Value)) : Option (Option (List Nat)) :=
  match keySizes columns with
  | none => none
  | some key_sizes =>
    if key_sizes.sum > 16 then none
    else
      some (executeMethod (fun j => (tupleAt columns j).map (pack key_sizes)) offsets none)

/-- The member `executeHashed`, which passes no null map. `hash` is the 128-bit
hash that `MethodHashed` (`HashMethodHashed`, declared outside the file) takes
of the tuple of a row. -/
def executeHashed {Value : Type} (hash : List (Option Value) → Nat)
    (offsets : List Nat) (columns : List (DataColumn Value)) : Option (List Nat) :=
  executeMethod (fun j => (tupleAt columns j).map hash) offsets none

/-- The first loop of `executeImpl` over the arguments that remain; `offsets`
is `none` before the first argument and the offsets of the first argument after
it. Returns the offsets of the first argument and the data columns. -/
def gatherColumns {Value : Type} :
    List (ArgumentColumn Value) → Option (List Nat) →
      Except Exception (Option (List Nat) × List (DataColumn Value))
  | [], offsets => .ok (offsets, [])
  | .other _ :: _, _ =>
    .error (Exception.mk ErrorCode.ILLEGAL_COLUMN
      "Illegal column \x7b\x7d of \x7b\x7d-th argument of function \x7b\x7d")
  | .array column :: rest, offsets =>
    match offsets with
    | none =>
      match gatherColumns rest (some column.offsets) with
      | .error e => .error e
      | .ok (first, data_columns) => .ok (first, column.data :: data_columns)
    | some first =>
      if column.offsets ≠ first then
        .error (Exception.mk ErrorCode.SIZES_OF_ARRAYS_DONT_MATCH
          "Lengths of all arrays passed to \x7b\x7d must be equal.")
      else
        match gatherColumns rest offsets with
        | .error e => .error e
        | .ok (first, data_columns) => .ok (first, column.data :: data_columns)
  | .constArray column :: rest, offsets =>
    match offsets with
    | none =>
      match gatherColumns rest (some column.offsets) with
      | .error e => .error e
      | .ok (first, data_columns) => .ok (first, column.data :: data_columns)
    | some first =>
      if column.offsets ≠ first then
        .error (Exception.mk ErrorCode.SIZES_OF_ARRAYS_DONT_MATCH
          "Lengths of all arrays passed to \x7b\x7d must be equal.")
      else
        match gatherColumns rest offsets with
        | .error e => .error e
        | .ok (first, data_columns) => .ok (first, column.data :: data_columns)

/-- The second loop of `executeImpl`: the first nullable data column gives the
null map and ends the loop; with a single argument it is replaced by its nested
column. -/
def findNullMap {Value : Type} (num_arguments : Nat) :
    List (DataColumn Value) → List (DataColumn Value) × Option (List Bool)
  | [] => ([], none)
  | .nullable nested null_map fixed_size :: rest =>
    if num_arguments = 1 then (DataColumn.plain nested :: rest, some null_map)
    else (DataColumn.nullable nested null_map fixed_size :: rest, some null_map)
  | .plain column :: rest =>
    ((DataColumn.plain column) :: (findNullMap num_arguments rest).1,
      (findNullMap num_arguments rest).2)

/-- The chain of the single-argument path: the ten calls of `executeNumber`,
then `executeFixedString`, then `executeString`, joined by `||`. -/
def executeTyped {Value : Type} [DecidableEq Value] (offsets : List Nat)
    (data : DataColumn Value) (null_map : Option (List Bool)) : Option (Option (List Nat)) :=
  (executeNumber NumberType.UInt8 offsets data null_map).orElse fun _ =>
  (executeNumber NumberType.UInt16 offsets data null_map).orElse fun _ =>
  (executeNumber NumberType.UInt32 offsets data null_map).orElse fun _ =>
  (executeNumber NumberType.UInt64 offsets data null_map).orElse fun _ =>
  (executeNumber NumberType.Int8 offsets data null_map).orElse fun _ =>
  (executeNumber NumberType.Int16 offsets data null_map).orElse fun _ =>
  (executeNumber NumberType.Int32 offsets data null_map).orElse fun _ =>
  (executeNumber NumberType.Int64 offsets data null_map).orElse fun _ =>
  (executeNumber NumberType.Float32 offsets data null_map).orElse fun _ =>
  (executeNumber NumberType.Float64 offsets data null_map).orElse fun _ =>
  (executeFixedString offsets data null_map).orElse fun _ =>
  executeString offsets data null_map

/-- The function `FunctionArrayUniq::executeImpl(arguments, ...)`. The result is
an exception, or the values of the result column, or `.ok none` when the call
has no argument (`assert(num_arguments > 0)`) or a read leaves a column. -/
def executeImpl {Value : Type} [DecidableEq Value]
    (pack : List Nat → List (Option Value) → Nat) (hash : List (Option Value) → Nat)
    (arguments : List (ArgumentColumn Value)) : Except Exception (Option (List Nat)) :=
  match gatherColumns arguments none with
  | .error e => .error e
  | .ok (none, _) => .ok none
  | .ok (some offsets, gathered) =>
    let num_arguments := arguments.length
    let data_columns := (findNullMap num_arguments gathered).1
    let null_map := (findNullMap num_arguments gathered).2
    if num_arguments = 1 then
      match data_columns with
      | [data] =>
        match executeTyped offsets data null_map with
        | some res_values => .ok res_values
        | none => .ok (executeHashed hash offsets data_columns)
      | _ => .ok none
    else
      match execute128bit pack offsets data_columns with
      | some res_values => .ok res_values
      | none => .ok (executeHashed hash offsets data_columns)

end FunctionArrayUniq

/-- The rows of a column of entries under the offsets that remain, with
`prev_off` the offset before them: row `i` holds the positions from
`offsets[i-1]` up to `offsets[i] - 1`. -/
def rowsOf {α : Type} (entries : List α) : List Nat → Nat → List (List α)
  | [], _ => []
  | off :: rest, prev_off =>
    ((entries.drop prev_off).take (off - prev_off)) :: rowsOf entries rest off

/-- The number of different members of a list. -/
def countDistinct {α : Type} [DecidableEq α] (row : List α) : Nat :=
  row.toFinset.card

/-- A packing of a tuple of small numbers into one number, base 256 with one
digit per component, for the examples. -/
def packBytes (_key_sizes : List Nat) (tuple : List (Option Nat)) : Nat :=
  tuple.foldl (fun acc element => acc * 256 + element.getD 0) 0

/-- The column of entries that the inner loop of `executeMethodImpl` sees at row
`j`: `none` when a read leaves the null map or the columns, `some none` for a
row that the null map marks, `some (some key)` for the key of the method. -/
def FunctionArrayUniq.entryAt {Key : Type} (keyAt : Nat → Option Key)
    (null_map : Option (List Bool)) (j : Nat) : Option (Option Key) :=
  match null_map with
  | some flags =>
    match flags[j]? with
    | none => none
    | some true => some none
    | some false => (keyAt j).map some
  | none => (keyAt j).map some

/-- The elements of a data column, row by row, with `none` for NULL. -/
def DataColumn.elements {Value : Type} : DataColumn Value → List (Option Value)
  | .plain column => column.values.map some
  | .nullable nested null_map _ =>
    List.zipWith (fun flag value => if flag then none else some value) null_map nested.values

/-- The class of a data column, of the nested column for a nullable one. -/
def DataColumn.cls {Value : Type} : DataColumn Value → ColumnClass
  | .plain column => column.cls
  | .nullable nested _ _ => nested.cls

/-- The array column of an argument, if it has one. -/
def ArgumentColumn.column? {Value : Type} : ArgumentColumn Value → Option (ColumnArray Value)
  | .array column => some column
  | .constArray full => some full
  | .other _ => none

/-- The invariant of a `ColumnArray` that the reads of `arrayUniq` rely on: a
nullable data column has one null flag per nested value, and no offset exceeds
the number of elements of the data column. -/
def ColumnArray.wellFormed {Value : Type} (column : ColumnArray Value) : Bool :=
  (match column.data with
    | .plain _ => true
    | .nullable nested null_map _ => null_map.length == nested.values.length) &&
  column.offsets.all (fun off => off ≤ column.data.elements.length)

/-- The tuples of the elements of several columns at the rows `0 .. n-1`. -/
def tuplesOf {Value : Type} (columns : List (DataColumn Value)) (n : Nat) :
    List (List (Option Value)) :=
  (List.range n).map (fun j => columns.map (fun column => (column.elements.getD j none)))

/-- The sizes of the arrays of a column with the offsets that remain, with
`prev_off` the offset before them: `offsets[i] - offsets[i-1]`. -/
def rowSizesFrom : List Nat → Nat → List Int
  | [], _ => []
  | off :: rest, prev_off => ((off : Int) - (prev_off : Int)) :: rowSizesFrom rest off

/-- The data columns of the arguments that are array columns. -/
def argumentDataColumns {Value : Type} (arguments : List (ArgumentColumn Value)) :
    List (DataColumn Value) :=
  (arguments.filterMap ArgumentColumn.column?).map ColumnArray.data

/-- The rows of tuples of several array arguments with common offsets: row `i`
lists the tuples `(a1[j], ..., an[j])` of the positions `j` of row `i`. -/
def tupleRows {Value : Type} (arguments : List (ArgumentColumn Value)) (offsets : List Nat) :
    List (List (List (Option Value))) :=
  rowsOf (tuplesOf (argumentDataColumns arguments) (offsets.foldl max 0)) offsets 0

/-- The plain remainder that the fast paths of `vectorConstant` are compared
with on unsigned operands: `a mod b`. -/
def plainRemainder (a b : Int) : Int :=
  a % b

namespace PolygonDictionarySimple

theorem findFrom_true_iff (covered_by : CoveredBy) (point : Point) (polygons : List Polygon)
    (k polygon_index r : Nat) :
    findFrom covered_by point polygons k polygon_index = (true, r) ↔
      ∃ m polygon, r = k + m ∧ polygons[m]? = some polygon ∧ covered_by point polygon = true ∧
        ∀ j q, j < m → polygons[j]? = some q → covered_by point q = false := by
  induction polygons generalizing k with
  | nil => simp [findFrom]
  | cons p rest ih =>
    unfold findFrom
    by_cases hp : covered_by point p = true
    · simp only [hp, if_true, Prod.mk.injEq, true_and]
      constructor
      · intro h
        refine ⟨0, p, by omega, by simp, hp, ?_⟩
        intro j q hj
        omega
      · rintro ⟨m, polygon, hr, hm, hc, hall⟩
        cases m with
        | zero => omega
        | succ m =>
          have := hall 0 p (by omega) (by simp)
          simp [hp] at this
    · have hp' : covered_by point p = false := by simpa using hp
      simp only [hp', Bool.false_eq_true, if_false]
      rw [ih]
      constructor
      · rintro ⟨m, polygon, hr, hm, hc, hall⟩
        refine ⟨m + 1, polygon, by omega, by simpa using hm, hc, ?_⟩
        intro j q hj hq
        cases j with
        | zero =>
          simp at hq
          subst hq
          exact hp'
        | succ j => exact hall j q (by omega) (by simpa using hq)
      · rintro ⟨m, polygon, hr, hm, hc, hall⟩
        cases m with
        | zero =>
          simp at hm
          subst hm
          simp [hp'] at hc
        | succ m =>
          refine ⟨m, polygon, by omega, by simpa using hm, hc, ?_⟩
          intro j q hj hq
          exact hall (j + 1) q (by omega) (by simpa using hq)

theorem findFrom_false_iff (covered_by : CoveredBy) (point : Point) (polygons : List Polygon)
    (k polygon_index : Nat) :
    (findFrom covered_by point polygons k polygon_index).1 = false ↔
      ∀ polygon ∈ polygons, covered_by point polygon = false := by
  induction polygons generalizing k with
  | nil => simp [findFrom]
  | cons p rest ih =>
    unfold findFrom
    by_cases hp : covered_by point p = true
    · simp [hp]
    · have hp' : covered_by point p = false := by simpa using hp
      simp [hp', ih]

theorem findFrom_false_snd (covered_by : CoveredBy) (point : Point) (polygons : List Polygon)
    (k polygon_index : Nat)
    (h : (findFrom covered_by point polygons k polygon_index).1 = false) :
    findFrom covered_by point polygons k polygon_index = (false, polygon_index) := by
  induction polygons generalizing k with
  | nil => simp [findFrom]
  | cons p rest ih =>
    unfold findFrom at h ⊢
    by_cases hp : covered_by point p = true
    · simp [hp] at h
    · have hp' : covered_by point p = false := by simpa using hp
      simp only [hp', Bool.false_eq_true, if_false] at h ⊢
      exact ih _ h

end PolygonDictionarySimple

/-- C1. `PolygonDictionarySimple::find` is a first-match linear scan: it returns
found with index `i` exactly when polygon `i` covers the point and no polygon of
smaller index does; it returns not found exactly when no polygon of the list
covers the point, and then leaves `polygon_index` as it was; on the empty
polygon list it returns not found. -/
theorem simple_find_first_match (covered_by : CoveredBy) (d : PolygonDictionarySimple)
    (point : Point) (polygon_index : Nat) :
    (∀ i, d.find covered_by point polygon_index = (true, i) ↔
      ∃ polygon, d.polygons[i]? = some polygon ∧ covered_by point polygon = true ∧
        ∀ j q, j < i → d.polygons[j]? = some q → covered_by point q = false) ∧
    ((d.find covered_by point polygon_index).1 = false ↔
      ∀ polygon ∈ d.polygons, covered_by point polygon = false) ∧
    ((d.find covered_by point polygon_index).1 = false →
      d.find covered_by point polygon_index = (false, polygon_index)) ∧
    (d.polygons = [] → d.find covered_by point polygon_index = (false, polygon_index)) := by
  refine ⟨?_, ?_, ?_, ?_⟩
  rotate_left 3
  · intro h
    simp [PolygonDictionarySimple.find, h, PolygonDictionarySimple.findFrom]
  · intro i
    unfold PolygonDictionarySimple.find
    rw [PolygonDictionarySimple.findFrom_true_iff]
    constructor
    · rintro ⟨m, polygon, hr, hm, hc, hall⟩
      have : i = m := by omega
      subst this
      exact ⟨polygon, hm, hc, hall⟩
    · rintro ⟨polygon, hm, hc, hall⟩
      exact ⟨i, polygon, by omega, hm, hc, hall⟩
  · exact PolygonDictionarySimple.findFrom_false_iff covered_by point d.polygons 0 polygon_index
  · exact PolygonDictionarySimple.findFrom_false_snd covered_by point d.polygons 0 polygon_index

/-! ## Facts about the buckets and the candidate loop -/

namespace PolygonDictionarySimple

theorem findFrom_eq_find? (covered_by : CoveredBy) (point : Point) (polygons : List Polygon)
    (k polygon_index : Nat) :
    findFrom covered_by point polygons k polygon_index =
      match (polygons.enumFrom k).find? (fun ip => covered_by point ip.2) with
      | some ip => (true, ip.1)
      | none => (false, polygon_index) := by
  induction polygons generalizing k with
  | nil => simp [findFrom]
  | cons p rest ih =>
    unfold findFrom
    by_cases hp : covered_by point p = true
    · simp [List.enumFrom_cons, hp]
    · have hp' : covered_by point p = false := by simpa using hp
      simp only [hp', Bool.false_eq_true, if_false, List.enumFrom_cons]
      rw [ih]
      simp [List.find?, hp']

theorem find_eq_find? (covered_by : CoveredBy) (point : Point) (polygons : List Polygon)
    (configuration : IPolygonDictionary.Configuration) (polygon_index : Nat) :
    (PolygonDictionarySimple.mk configuration polygons).find covered_by point polygon_index =
      match polygons.enum.find? (fun ip => covered_by point ip.2) with
      | some ip => (true, ip.1)
      | none => (false, polygon_index) :=
  findFrom_eq_find? covered_by point polygons 0 polygon_index

end PolygonDictionarySimple

theorem Bucket.find_single (covered_by : CoveredBy) (polygon : Polygon) (point : Point)
    (polygon_index : Nat) :
    ((Bucket.mk [polygon]).find covered_by point polygon_index).1 = covered_by point polygon := by
  unfold Bucket.find PolygonDictionarySimple.findFrom
  by_cases hp : covered_by point polygon = true
  · simp [hp]
  · have hp' : covered_by point polygon = false := by simpa using hp
    simp [hp', PolygonDictionarySimple.findFrom]

namespace PolygonDictionaryIndexEach

theorem fillBuckets_eq_map (polygons : List Polygon) :
    fillBuckets polygons = polygons.map (fun polygon => Bucket.mk [polygon]) := by
  have key : ∀ (acc : List Bucket) (l : List Polygon),
      l.foldl (fun buckets polygon => buckets ++ [Bucket.mk [polygon]]) acc =
        acc ++ l.map (fun polygon => Bucket.mk [polygon]) := by
    intro acc l
    induction l generalizing acc with
    | nil => simp
    | cons p rest ih => simp [ih]
  simpa [fillBuckets] using key [] polygons

theorem fillBuckets_getElem? (polygons : List Polygon) (i : Nat) :
    (fillBuckets polygons)[i]? = (polygons[i]?).map (fun polygon => Bucket.mk [polygon]) := by
  rw [fillBuckets_eq_map, List.getElem?_map]

theorem findCandidate_accept (covered_by : CoveredBy) (buckets : List Bucket) (point : Point)
    (before after : List Nat) (candidate : Nat)
    (hbefore : ∀ c ∈ before, ∃ bucket, buckets[c]? = some bucket ∧
      (bucket.find covered_by point 0).1 = false)
    (hcand : ∃ bucket, buckets[candidate]? = some bucket ∧
      (bucket.find covered_by point 0).1 = true) :
    findCandidate covered_by buckets point (before ++ candidate :: after) =
      some (some candidate) := by
  induction before with
  | nil =>
    obtain ⟨bucket, hb, hacc⟩ := hcand
    simp [findCandidate, hb, hacc]
  | cons c rest ih =>
    obtain ⟨bucket, hb, hrej⟩ := hbefore c (by simp)
    have hrest := ih (fun c' hc' => hbefore c' (by simp [hc']))
    simp [findCandidate, hb, hrej, hrest]

theorem findCandidate_reject (covered_by : CoveredBy) (buckets : List Bucket) (point : Point)
    (ids : List Nat)
    (hall : ∀ c ∈ ids, ∃ bucket, buckets[c]? = some bucket ∧
      (bucket.find covered_by point 0).1 = false) :
    findCandidate covered_by buckets point ids = some none := by
  induction ids with
  | nil => simp [findCandidate]
  | cons c rest ih =>
    obtain ⟨bucket, hb, hrej⟩ := hall c (by simp)
    have hrest := ih (fun c' hc' => hall c' (by simp [hc']))
    simp [findCandidate, hb, hrej, hrest]

/-- Over the buckets filled by the constructor, the candidate loop run on the
ids of a list of pairs `(id, polygon)` with `polygons[id] = polygon` returns the
id of the first pair whose polygon covers the point. -/
theorem findCandidate_fillBuckets (covered_by : CoveredBy) (polygons : List Polygon)
    (point : Point) (pairs : List (Nat × Polygon))
    (hpairs : ∀ ip ∈ pairs, polygons[ip.1]? = some ip.2) :
    findCandidate covered_by (fillBuckets polygons) point (pairs.map Prod.fst) =
      some ((pairs.find? (fun ip => covered_by point ip.2)).map Prod.fst) := by
  induction pairs with
  | nil => simp [findCandidate]
  | cons ip rest ih =>
    have hip := hpairs ip (by simp)
    have hrest := ih (fun q hq => hpairs q (by simp [hq]))
    simp only [List.map_cons, findCandidate, fillBuckets_getElem?, hip, Option.map_some',
      Bucket.find_single]
    by_cases hp : covered_by point ip.2 = true
    · simp [hp]
    · have hp' : covered_by point ip.2 = false := by simpa using hp
      simp [hp', hrest]

end PolygonDictionaryIndexEach

/-- C4. `PolygonDictionaryIndexEach::find` follows the grid query rule: with no
located cell the result is not found; in a located cell the first candidate (in
list order) whose bucket accepts the point is returned, whatever `first_covered`
is; when every candidate's bucket rejects the point the result is
`first_covered` if it is set and not found if it is unset. -/
theorem indexEach_find_query_rule (kNone : Nat) (covered_by : CoveredBy)
    (d : PolygonDictionaryIndexEach) (point : Point) (polygon_index : Nat) :
    (d.grid point.x point.y = none →
      d.find kNone covered_by point polygon_index = some (false, polygon_index)) ∧
    (∀ cell before candidate after,
      d.grid point.x point.y = some cell →
      cell.polygon_ids = before ++ candidate :: after →
      (∀ c ∈ before, ∃ bucket, d.buckets[c]? = some bucket ∧
        (bucket.find covered_by point 0).1 = false) →
      (∃ bucket, d.buckets[candidate]? = some bucket ∧
        (bucket.find covered_by point 0).1 = true) →
      d.find kNone covered_by point polygon_index = some (true, candidate)) ∧
    (∀ cell,
      d.grid point.x point.y = some cell →
      (∀ c ∈ cell.polygon_ids, ∃ bucket, d.buckets[c]? = some bucket ∧
        (bucket.find covered_by point 0).1 = false) →
      (cell.first_covered ≠ kNone →
        d.find kNone covered_by point polygon_index = some (true, cell.first_covered)) ∧
      (cell.first_covered = kNone →
        d.find kNone covered_by point polygon_index = some (false, polygon_index))) := by
  refine ⟨?_, ?_, ?_⟩
  · intro h
    simp [PolygonDictionaryIndexEach.find, h]
  · intro cell before candidate after hcell hids hbefore hcand
    have := PolygonDictionaryIndexEach.findCandidate_accept covered_by d.buckets point
      before after candidate hbefore hcand
    simp [PolygonDictionaryIndexEach.find, hcell, hids, this]
  · intro cell hcell hall
    have := PolygonDictionaryIndexEach.findCandidate_reject covered_by d.buckets point
      cell.polygon_ids hall
    constructor
    · intro hset
      simp [PolygonDictionaryIndexEach.find, hcell, this, hset]
    · intro hunset
      simp [PolygonDictionaryIndexEach.find, hcell, this, hunset]

/-- Witness of C4: squares A and B in a cell that lists the candidates 1 then 0
and has `first_covered` set to 1; at `(1/2, 1/2)` the bucket of B rejects, the
bucket of A accepts, and the result is id 0, not `first_covered`. -/
theorem indexEach_find_query_rule_witness :
    (PolygonDictionaryIndexEach.construct
        (fun _ _ _ _ _ => some (FinalCell.mk [1, 0] 1))
        [squareA, squareB] exampleConfiguration 1 5).find (2 ^ 64 - 1) coveredBy
        (Point.mk (1 / 2) (1 / 2)) 7 = some (true, 0) :=
  (indexEach_find_query_rule (2 ^ 64 - 1) coveredBy
    (PolygonDictionaryIndexEach.construct
      (fun _ _ _ _ _ => some (FinalCell.mk [1, 0] 1))
      [squareA, squareB] exampleConfiguration 1 5)
    (Point.mk (1 / 2) (1 / 2)) 7).2.1 (FinalCell.mk [1, 0] 1) [1] 0 [] rfl rfl
    (fun c hc => by
      simp only [List.mem_singleton] at hc
      subst hc
      exact ⟨Bucket.mk [squareB], rfl, by decide!⟩)
    ⟨Bucket.mk [squareA], rfl, by decide!⟩

/-- C5. `PolygonDictionaryIndexCell::find` follows the cell query rule: with no
located cell the result is not found; when the located cell has local
candidates and its nested index finds local id `l`, the result is found with
`corresponding_ids[l]`; otherwise (no local candidates, or the nested index
finds nothing) the result is `first_covered` when it is set and not found when
it is unset. -/
theorem indexCell_find_query_rule (kNone : Nat) (d : PolygonDictionaryIndexCell)
    (point : Point) (polygon_index : Nat) :
    (d.index point.x point.y = none →
      d.find kNone point polygon_index = some (false, polygon_index)) ∧
    (∀ cell l global_id,
      d.index point.x point.y = some cell →
      cell.corresponding_ids ≠ [] →
      cell.index point polygon_index = (true, l) →
      cell.corresponding_ids[l]? = some global_id →
      d.find kNone point polygon_index = some (true, global_id)) ∧
    (∀ cell,
      d.index point.x point.y = some cell →
      (cell.corresponding_ids = [] ∨ (cell.index point polygon_index).1 = false) →
      (cell.first_covered ≠ kNone →
        d.find kNone point polygon_index = some (true, cell.first_covered)) ∧
      (cell.first_covered = kNone →
        (d.find kNone point polygon_index).map Prod.fst = some false)) := by
  refine ⟨?_, ?_, ?_⟩
  · intro h
    simp [PolygonDictionaryIndexCell.find, h]
  · intro cell l global_id hcell hne hfind hid
    simp [PolygonDictionaryIndexCell.find, hcell, hne, hfind, hid]
  · intro cell hcell hnone
    rcases hnone with hempty | hmiss
    · constructor
      · intro hset
        simp [PolygonDictionaryIndexCell.find, hcell, hempty, hset]
      · intro hunset
        simp [PolygonDictionaryIndexCell.find, hcell, hempty, hunset]
    · rcases hres : cell.index point polygon_index with ⟨found, written⟩
      rw [hres] at hmiss
      simp only at hmiss
      subst hmiss
      by_cases hempty : cell.corresponding_ids = []
      · constructor
        · intro hset
          simp [PolygonDictionaryIndexCell.find, hcell, hempty, hset]
        · intro hunset
          simp [PolygonDictionaryIndexCell.find, hcell, hempty, hunset]
      · constructor
        · intro hset
          simp [PolygonDictionaryIndexCell.find, hcell, hempty, hres, hset]
        · intro hunset
          simp [PolygonDictionaryIndexCell.find, hcell, hempty, hres, hunset]

/-- Witness of C5: a cell with the id table `[4, 9]` whose nested index finds
local id 1; the result is the global id 9. -/
theorem indexCell_find_query_rule_witness :
    (PolygonDictionaryIndexCell.construct
        (fun _ _ _ _ _ => some (FinalCellWithSlabs.mk [4, 9] (fun _ _ => (true, 1)) 4))
        [squareA, squareB] exampleConfiguration 1 5).find (2 ^ 64 - 1)
        (Point.mk (1 / 2) (1 / 2)) 7 = some (true, 9) :=
  (indexCell_find_query_rule (2 ^ 64 - 1)
    (PolygonDictionaryIndexCell.construct
      (fun _ _ _ _ _ => some (FinalCellWithSlabs.mk [4, 9] (fun _ _ => (true, 1)) 4))
      [squareA, squareB] exampleConfiguration 1 5)
    (Point.mk (1 / 2) (1 / 2)) 7).2.1
    (FinalCellWithSlabs.mk [4, 9] (fun _ _ => (true, 1)) 4) 1 9 rfl (by simp) rfl rfl

/-- C6. Degenerate subdivision: when the grid built by the constructor locates,
for every point, one root cell that lists every polygon id `0 .. n-1` in
construction order and has no `first_covered`, `PolygonDictionaryIndexEach::find`
returns exactly the result of `PolygonDictionarySimple::find` over the same
polygons. -/
theorem indexEach_single_root_cell_eq_simple (kNone : Nat) (covered_by : CoveredBy)
    (makeGrid : Int → Int → List Polygon → GridRoot FinalCell)
    (polygons : List Polygon) (configuration : IPolygonDictionary.Configuration)
    (min_intersections max_depth : Int) (point : Point) (polygon_index : Nat)
    (hroot : ∀ x y, makeGrid min_intersections max_depth polygons x y =
      some (FinalCell.mk (List.range polygons.length) kNone)) :
    (PolygonDictionaryIndexEach.construct makeGrid polygons configuration
        min_intersections max_depth).find kNone covered_by point polygon_index =
      some ((PolygonDictionarySimple.mk configuration polygons).find covered_by point
        polygon_index) := by
  have hcand := PolygonDictionaryIndexEach.findCandidate_fillBuckets covered_by polygons point
    polygons.enum (fun ip hip => List.mk_mem_enum_iff_getElem?.mp hip)
  rw [List.enum_map_fst] at hcand
  have hsimple := PolygonDictionarySimple.find_eq_find? covered_by point polygons
    configuration polygon_index
  simp only [PolygonDictionaryIndexEach.find, PolygonDictionaryIndexEach.construct, hroot,
    hcand, hsimple]
  cases hfind : List.find? (fun ip => covered_by point ip.2) polygons.enum with
  | none => simp
  | some ip => simp

/-! ## Facts about the modelled grid build -/

theorem find?_filter_of_imp {α : Type} (l : List α) (keep test : α → Bool)
    (h : ∀ a ∈ l, test a = true → keep a = true) :
    (l.filter keep).find? test = l.find? test := by
  induction l with
  | nil => simp
  | cons a rest ih =>
    have hrest := ih (fun b hb => h b (by simp [hb]))
    by_cases hk : keep a = true
    · by_cases ht : test a = true
      · simp [List.filter_cons, hk, ht]
      · simp [List.filter_cons, hk, ht, hrest]
    · have ht : ¬ test a = true := fun ht => hk (h a (by simp) ht)
      simp [List.filter_cons, hk, ht, hrest]

theorem relevantPolygons_getElem? (g : GridGeometry) (polygons : List Polygon) (box : Box) :
    ∀ ip ∈ relevantPolygons g polygons box, polygons[ip.1]? = some ip.2 := by
  intro ip hip
  exact List.mk_mem_enum_iff_getElem?.mp (List.mem_filter.mp hip).1

/-- In a cell whose region contains the point, the relevant polygons hold the
first polygon that covers the point, provided covering polygons intersect the
cell. -/
theorem relevantPolygons_find? (covered_by : CoveredBy) (g : GridGeometry)
    (polygons : List Polygon) (box : Box) (point : Point)
    (hinside : box.contains point.x point.y = true)
    (hint : ∀ cell polygon, polygon ∈ polygons → cell.contains point.x point.y = true →
      covered_by point polygon = true → g.intersects cell polygon = true) :
    (relevantPolygons g polygons box).find? (fun ip => covered_by point ip.2) =
      polygons.enum.find? (fun ip => covered_by point ip.2) := by
  apply find?_filter_of_imp
  intro ip hip hcov
  have hmem : ip.2 ∈ polygons := by
    have := @List.mem_enum Polygon ip.2 ip.1 polygons hip
    rw [this.2]
    exact List.getElem_mem _
  exact hint box ip.2 hmem hinside hcov

/-- In a cell whose region contains the point, `first_covered` is unset when no
polygon covers the point, provided a polygon that contains the whole cell
covers the points of the cell. -/
theorem firstCoveredOf_eq_kNone (kNone : Nat) (covered_by : CoveredBy) (g : GridGeometry)
    (polygons : List Polygon) (box : Box) (point : Point)
    (hinside : box.contains point.x point.y = true)
    (hwithin : ∀ cell polygon, polygon ∈ polygons → cell.contains point.x point.y = true →
      g.within cell polygon = true → covered_by point polygon = true)
    (hnone : polygons.enum.find? (fun ip => covered_by point ip.2) = none) :
    firstCoveredOf kNone g polygons box = kNone := by
  unfold firstCoveredOf
  cases hfind : polygons.enum.find? (fun ip => g.within box ip.2) with
  | none => rfl
  | some ip =>
    exfalso
    have hip := List.mem_of_find?_eq_some hfind
    have hw : g.within box ip.2 = true :=
      List.find?_some (p := fun (ip : Nat × Polygon) => g.within box ip.2) hfind
    have hmem : ip.2 ∈ polygons := by
      have := @List.mem_enum Polygon ip.2 ip.1 polygons hip
      rw [this.2]
      exact List.getElem_mem _
    have hcov := hwithin box ip.2 hmem hinside hw
    have := (List.find?_eq_none.mp hnone) ip hip
    exact this hcov

namespace GridRoot

theorem makeCells_finalized {ReturnCell : Type} (g : GridGeometry) (finalize : Box → ReturnCell)
    (polygons : List Polygon) (min_intersections remaining : Nat) (box : Box) :
    ∀ cell ∈ makeCells g finalize polygons min_intersections remaining box,
      cell.2 = finalize cell.1 := by
  induction remaining generalizing box with
  | zero =>
    intro cell hcell
    simp [makeCells] at hcell
    simp [hcell]
  | succ r ih =>
    intro cell hcell
    unfold makeCells at hcell
    split at hcell
    · obtain ⟨child, _, hchild⟩ := List.mem_flatMap.mp hcell
      exact ih child cell hchild
    · simp at hcell
      simp [hcell]

theorem makeCells_covers {ReturnCell : Type} (g : GridGeometry) (finalize : Box → ReturnCell)
    (polygons : List Polygon) (min_intersections remaining : Nat) (box : Box) (x y : Coord)
    (hsplit : ∀ cell, cell.contains x y = true →
      ∃ child ∈ g.split cell, child.contains x y = true)
    (hinside : box.contains x y = true) :
    ∃ cell ∈ makeCells g finalize polygons min_intersections remaining box,
      cell.1.contains x y = true := by
  induction remaining generalizing box with
  | zero => exact ⟨(box, finalize box), by simp [makeCells], hinside⟩
  | succ r ih =>
    unfold makeCells
    split
    · obtain ⟨child, hchild, hin⟩ := hsplit box hinside
      obtain ⟨cell, hcell, hcin⟩ := ih child hin
      exact ⟨cell, List.mem_flatMap.mpr ⟨child, hchild, hcell⟩, hcin⟩
    · exact ⟨(box, finalize box), by simp, hinside⟩

/-- The query of the built grid either locates a finalized cell whose region
contains the point, or locates nothing, and then no polygon covers the point. -/
theorem build_locates {ReturnCell : Type} (covered_by : CoveredBy) (g : GridGeometry)
    (finalize : Box → ReturnCell) (polygons : List Polygon)
    (min_intersections max_depth : Nat) (point : Point)
    (hbound : ∀ polygon ∈ polygons, covered_by point polygon = true →
      ∃ root, boundingBox polygons = some root ∧ root.contains point.x point.y = true)
    (hsplit : ∀ cell, cell.contains point.x point.y = true →
      ∃ child ∈ g.split cell, child.contains point.x point.y = true) :
    (∃ box, box.contains point.x point.y = true ∧
      build g finalize polygons min_intersections max_depth point.x point.y =
        some (finalize box)) ∨
    (build g finalize polygons min_intersections max_depth point.x point.y = none ∧
      ∀ polygon ∈ polygons, covered_by point polygon = false) := by
  unfold build
  cases hfind : (cells g finalize polygons min_intersections max_depth).find?
      (fun cell => cell.1.contains point.x point.y) with
  | some cell =>
    left
    have hin : cell.1.contains point.x point.y = true :=
      List.find?_some (p := fun (cell : Box × ReturnCell) => cell.1.contains point.x point.y) hfind
    have hmem := List.mem_of_find?_eq_some hfind
    have hfin : cell.2 = finalize cell.1 := by
      unfold cells at hmem
      cases hbb : boundingBox polygons with
      | none => simp [hbb] at hmem
      | some root =>
        simp only [hbb] at hmem
        exact makeCells_finalized g finalize polygons min_intersections max_depth root cell hmem
    exact ⟨cell.1, hin, by simp [hfin]⟩
  | none =>
    right
    refine ⟨rfl, ?_⟩
    intro polygon hpolygon
    by_contra hcov
    have hcov' : covered_by point polygon = true := by simpa using hcov
    obtain ⟨root, hroot, hin⟩ := hbound polygon hpolygon hcov'
    obtain ⟨cell, hcell, hcin⟩ := makeCells_covers g finalize polygons min_intersections
      max_depth root point.x point.y hsplit hin
    have hnone := List.find?_eq_none.mp hfind cell (by simpa [cells, hroot] using hcell)
    exact hnone hcin

end GridRoot

theorem enum_find?_eq_none_of_not_covered (covered_by : CoveredBy) (polygons : List Polygon)
    (point : Point) (h : ∀ polygon ∈ polygons, covered_by point polygon = false) :
    polygons.enum.find? (fun ip => covered_by point ip.2) = none := by
  apply List.find?_eq_none.mpr
  intro ip hip
  have hmem : ip.2 ∈ polygons := by
    have := @List.mem_enum Polygon ip.2 ip.1 polygons hip
    rw [this.2]
    exact List.getElem_mem _
  simp [h ip.2 hmem]

/-- The nested scan over the local polygons of a list of pairs returns the local
position of the first pair whose polygon covers the point, and the id table
maps that position to the pair's id. -/
theorem findFrom_local (covered_by : CoveredBy) (point : Point) (pairs : List (Nat × Polygon))
    (k polygon_index : Nat) :
    match pairs.find? (fun ip => covered_by point ip.2) with
    | none =>
      PolygonDictionarySimple.findFrom covered_by point (pairs.map Prod.snd) k polygon_index =
        (false, polygon_index)
    | some ip =>
      ∃ m, PolygonDictionarySimple.findFrom covered_by point (pairs.map Prod.snd) k
          polygon_index = (true, k + m) ∧ (pairs.map Prod.fst)[m]? = some ip.1 := by
  induction pairs generalizing k with
  | nil => simp [PolygonDictionarySimple.findFrom]
  | cons q rest ih =>
    by_cases hq : covered_by point q.2 = true
    · simp only [List.find?, hq, List.map_cons, PolygonDictionarySimple.findFrom, if_true]
      exact ⟨0, by simp, by simp⟩
    · have hq' : covered_by point q.2 = false := by simpa using hq
      simp only [List.find?, hq', List.map_cons, PolygonDictionarySimple.findFrom,
        Bool.false_eq_true, if_false]
      have := ih (k + 1)
      cases hfind : rest.find? (fun ip => covered_by point ip.2) with
      | none =>
        rw [hfind] at this
        exact this
      | some ip =>
        rw [hfind] at this
        obtain ⟨m, hm, hid⟩ := this
        exact ⟨m + 1, by rw [hm]; congr 1; omega, by simpa using hid⟩

/-- The grid strategy over the modelled build agrees with the brute-force scan. -/
theorem indexEach_build_eq_simple (kNone : Nat) (covered_by : CoveredBy) (g : GridGeometry)
    (convert : Int → Nat) (polygons : List Polygon)
    (configuration : IPolygonDictionary.Configuration) (min_intersections max_depth : Int)
    (point : Point) (polygon_index : Nat)
    (hbound : ∀ polygon ∈ polygons, covered_by point polygon = true →
      ∃ root, boundingBox polygons = some root ∧ root.contains point.x point.y = true)
    (hsplit : ∀ cell, cell.contains point.x point.y = true →
      ∃ child ∈ g.split cell, child.contains point.x point.y = true)
    (hint : ∀ cell polygon, polygon ∈ polygons → cell.contains point.x point.y = true →
      covered_by point polygon = true → g.intersects cell polygon = true)
    (hwithin : ∀ cell polygon, polygon ∈ polygons → cell.contains point.x point.y = true →
      g.within cell polygon = true → covered_by point polygon = true) :
    (PolygonDictionaryIndexEach.construct
        (fun mi md ps => GridRoot.build g (FinalCell.finalize kNone g ps) ps
          (convert mi) (convert md))
        polygons configuration min_intersections max_depth).find kNone covered_by point
        polygon_index =
      some ((PolygonDictionarySimple.mk configuration polygons).find covered_by point
        polygon_index) := by
  have hsimple := PolygonDictionarySimple.find_eq_find? covered_by point polygons
    configuration polygon_index
  rcases GridRoot.build_locates covered_by g (FinalCell.finalize kNone g polygons) polygons
      (convert min_intersections) (convert max_depth) point hbound hsplit with
    ⟨box, hin, hcell⟩ | ⟨hcell, hnone⟩
  · have hcand := PolygonDictionaryIndexEach.findCandidate_fillBuckets covered_by polygons
      point (relevantPolygons g polygons box) (relevantPolygons_getElem? g polygons box)
    rw [relevantPolygons_find? covered_by g polygons box point hin hint] at hcand
    simp only [PolygonDictionaryIndexEach.find, PolygonDictionaryIndexEach.construct, hcell,
      FinalCell.finalize, hcand, hsimple]
    cases hfind : polygons.enum.find? (fun ip => covered_by point ip.2) with
    | some ip => simp
    | none =>
      have := firstCoveredOf_eq_kNone kNone covered_by g polygons box point hin hwithin hfind
      simp [this]
  · have hfind := enum_find?_eq_none_of_not_covered covered_by polygons point hnone
    simp [PolygonDictionaryIndexEach.find, PolygonDictionaryIndexEach.construct, hcell,
      hsimple, hfind]

/-- The cell strategy over the modelled build agrees with the brute-force scan. -/
theorem indexCell_build_eq_simple (kNone : Nat) (covered_by : CoveredBy) (g : GridGeometry)
    (polygons : List Polygon)
    (configuration : IPolygonDictionary.Configuration) (min_intersections max_depth : Nat)
    (point : Point) (polygon_index : Nat)
    (hbound : ∀ polygon ∈ polygons, covered_by point polygon = true →
      ∃ root, boundingBox polygons = some root ∧ root.contains point.x point.y = true)
    (hsplit : ∀ cell, cell.contains point.x point.y = true →
      ∃ child ∈ g.split cell, child.contains point.x point.y = true)
    (hint : ∀ cell polygon, polygon ∈ polygons → cell.contains point.x point.y = true →
      covered_by point polygon = true → g.intersects cell polygon = true)
    (hwithin : ∀ cell polygon, polygon ∈ polygons → cell.contains point.x point.y = true →
      g.within cell polygon = true → covered_by point polygon = true) :
    (PolygonDictionaryIndexCell.construct
        (fun mi md ps => GridRoot.build g (FinalCellWithSlabs.finalize kNone covered_by g ps)
          ps mi md)
        polygons configuration min_intersections max_depth).find kNone point polygon_index =
      some ((PolygonDictionarySimple.mk configuration polygons).find covered_by point
        polygon_index) := by
  have hsimple := PolygonDictionarySimple.find_eq_find? covered_by point polygons
    configuration polygon_index
  rcases GridRoot.build_locates covered_by g
      (FinalCellWithSlabs.finalize kNone covered_by g polygons) polygons
      min_intersections max_depth point hbound hsplit with
    ⟨box, hin, hcell⟩ | ⟨hcell, hnone⟩
  · have hlocal := findFrom_local covered_by point (relevantPolygons g polygons box) 0
      polygon_index
    rw [relevantPolygons_find? covered_by g polygons box point hin hint] at hlocal
    simp only [PolygonDictionaryIndexCell.find, PolygonDictionaryIndexCell.construct, hcell,
      FinalCellWithSlabs.finalize, hsimple]
    cases hfind : polygons.enum.find? (fun ip => covered_by point ip.2) with
    | some ip =>
      rw [hfind] at hlocal
      obtain ⟨m, hm, hid⟩ := hlocal
      have hne : (relevantPolygons g polygons box).map Prod.fst ≠ [] := by
        intro hnil
        rw [hnil] at hid
        simp at hid
      have hne' : ((relevantPolygons g polygons box).map Prod.fst).isEmpty = false := by
        cases hl : (relevantPolygons g polygons box).map Prod.fst with
        | nil => exact absurd hl hne
        | cons a l => rfl
      rw [hne', hm]
      simp only [Nat.zero_add, Bool.false_eq_true, if_false, hid]
    | none =>
      rw [hfind] at hlocal
      have hnone := firstCoveredOf_eq_kNone kNone covered_by g polygons box point hin hwithin
        hfind
      rw [hlocal, hnone]
      simp
  · have hfind := enum_find?_eq_none_of_not_covered covered_by polygons point hnone
    simp [PolygonDictionaryIndexCell.find, PolygonDictionaryIndexCell.construct, hcell,
      hsimple, hfind]

/-! ## Facts about the concrete geometry -/

theorem Box.quadrants_cover (box : Box) (x y : Coord) (h : box.contains x y = true) :
    ∃ child ∈ box.quadrants, child.contains x y = true := by
  simp only [Box.contains, Bool.and_eq_true, decide_eq_true_eq] at h
  obtain ⟨⟨h1, h2⟩, h3, h4⟩ := h
  by_cases hx : x ≤ (box.min_x + box.max_x) / 2
  · by_cases hy : y ≤ (box.min_y + box.max_y) / 2
    · exact ⟨Box.mk box.min_x box.min_y ((box.min_x + box.max_x) / 2)
        ((box.min_y + box.max_y) / 2), by simp [Box.quadrants], by
        simp only [Box.contains, Bool.and_eq_true, decide_eq_true_eq]
        exact ⟨⟨h1, hx⟩, h3, hy⟩⟩
    · exact ⟨Box.mk box.min_x ((box.min_y + box.max_y) / 2) ((box.min_x + box.max_x) / 2)
        box.max_y, by simp [Box.quadrants], by
        simp only [Box.contains, Bool.and_eq_true, decide_eq_true_eq]
        exact ⟨⟨h1, hx⟩, le_of_lt (not_le.mp hy), h4⟩⟩
  · by_cases hy : y ≤ (box.min_y + box.max_y) / 2
    · exact ⟨Box.mk ((box.min_x + box.max_x) / 2) box.min_y box.max_x
        ((box.min_y + box.max_y) / 2), by simp [Box.quadrants], by
        simp only [Box.contains, Bool.and_eq_true, decide_eq_true_eq]
        exact ⟨⟨le_of_lt (not_le.mp hx), h2⟩, h3, hy⟩⟩
    · exact ⟨Box.mk ((box.min_x + box.max_x) / 2) ((box.min_y + box.max_y) / 2) box.max_x
        box.max_y, by simp [Box.quadrants], by
        simp only [Box.contains, Bool.and_eq_true, decide_eq_true_eq]
        exact ⟨⟨le_of_lt (not_le.mp hx), h2⟩, le_of_lt (not_le.mp hy), h4⟩⟩

theorem boundsGeometry_intersects (cell bounds : Box) (polygon : Polygon) (x y : Coord)
    (hbounds : boundingBox [polygon] = some bounds)
    (hin : bounds.contains x y = true) (hcell : cell.contains x y = true) :
    boundsGeometry.intersects cell polygon = true := by
  simp only [boundsGeometry, hbounds]
  simp only [Box.contains, Box.overlaps, Bool.and_eq_true, decide_eq_true_eq] at *
  obtain ⟨⟨h1, h2⟩, h3, h4⟩ := hin
  obtain ⟨⟨c1, c2⟩, c3, c4⟩ := hcell
  exact ⟨⟨le_trans c1 h2, le_trans h1 c2⟩, le_trans c3 h4, le_trans h3 c4⟩

theorem Box.extend_contains_self (box : Box) (p : Point) :
    (box.extend p).contains p.x p.y = true := by
  simp [Box.extend, Box.contains]

theorem Box.extend_contains_of_contains (box : Box) (p : Point) (x y : Coord)
    (h : box.contains x y = true) : (box.extend p).contains x y = true := by
  simp only [Box.extend, Box.contains, Bool.and_eq_true, decide_eq_true_eq] at *
  obtain ⟨⟨h1, h2⟩, h3, h4⟩ := h
  exact ⟨⟨le_trans (min_le_left _ _) h1, le_trans h2 (le_max_left _ _)⟩,
    le_trans (min_le_left _ _) h3, le_trans h4 (le_max_left _ _)⟩

theorem foldl_extend_contains_of_contains (points : List Point) (box : Box) (x y : Coord)
    (h : box.contains x y = true) : (points.foldl Box.extend box).contains x y = true := by
  induction points generalizing box with
  | nil => exact h
  | cons p rest ih => exact ih _ (Box.extend_contains_of_contains box p x y h)

theorem foldl_extend_contains_mem (points : List Point) (box : Box) (q : Point)
    (hq : q ∈ points) : (points.foldl Box.extend box).contains q.x q.y = true := by
  induction points generalizing box with
  | nil => simp at hq
  | cons p rest ih =>
    rcases List.mem_cons.mp hq with rfl | hq
    · exact foldl_extend_contains_of_contains rest _ _ _ (Box.extend_contains_self box q)
    · exact ih _ hq

/-- The bounding box of a polygon list contains every point of every outer
ring. -/
theorem boundingBox_contains (polygons : List Polygon) (root : Box)
    (h : boundingBox polygons = some root) (polygon : Polygon) (hp : polygon ∈ polygons)
    (q : Point) (hq : q ∈ polygon.outer) : root.contains q.x q.y = true := by
  have hmem : q ∈ polygons.flatMap Polygon.outer := List.mem_flatMap.mpr ⟨polygon, hp, hq⟩
  unfold boundingBox at h
  cases hpoints : polygons.flatMap Polygon.outer with
  | nil => rw [hpoints] at hmem; simp at hmem
  | cons p rest =>
    rw [hpoints] at h hmem
    simp only [Option.some.injEq] at h
    subst h
    rcases List.mem_cons.mp hmem with rfl | hrest
    · exact foldl_extend_contains_of_contains rest _ _ _ (by simp [Box.contains])
    · exact foldl_extend_contains_mem rest _ q hrest

/-- A polygon list of which one outer ring has a point has a bounding box. -/
theorem boundingBox_isSome (polygons : List Polygon) (polygon : Polygon)
    (hp : polygon ∈ polygons) (q : Point) (hq : q ∈ polygon.outer) :
    ∃ root, boundingBox polygons = some root := by
  have hmem : q ∈ polygons.flatMap Polygon.outer := List.mem_flatMap.mpr ⟨polygon, hp, hq⟩
  unfold boundingBox
  cases hpoints : polygons.flatMap Polygon.outer with
  | nil => rw [hpoints] at hmem; simp at hmem
  | cons p rest => exact ⟨_, rfl⟩

theorem Ring.edges_mem (ring : Ring) (a b : Point) (h : (a, b) ∈ ring.edges) :
    a ∈ ring ∧ b ∈ ring := by
  cases ring with
  | nil => simp [Ring.edges] at h
  | cons p rest =>
    simp only [Ring.edges] at h
    have h1 := (List.of_mem_zip h).1
    have h2 := (List.of_mem_zip h).2
    refine ⟨h1, ?_⟩
    rcases List.mem_append.mp h2 with h2 | h2
    · exact List.mem_cons_of_mem _ h2
    · simp only [List.mem_singleton] at h2
      rw [h2]
      exact List.mem_cons_self _ _

/-- Around a closed chain the number of edges on which a boolean mark changes
has the parity of the change between the first and the last point. -/
theorem mark_changes_parity (mark : Point → Bool) (points : List Point) (a z : Point) :
    ((List.zip (a :: points) (points ++ [z])).filter
        (fun edge => mark edge.1 != mark edge.2)).length % 2 =
      if (mark a != mark z) = true then 1 else 0 := by
  induction points generalizing a with
  | nil =>
    simp only [List.nil_append, List.zip_cons_cons, List.zip_nil_right, List.filter_cons,
      List.filter_nil]
    cases mark a <;> cases mark z <;> simp
  | cons c rest ih =>
    simp only [List.cons_append, List.zip_cons_cons, List.filter_cons]
    have hrest := ih c
    cases ha : mark a <;> cases hc : mark c <;> cases hz : mark z <;>
      simp [ha, hc, hz] at hrest ⊢ <;> omega
/-- The ends of an edge on which the mark "the point is below" changes lie on
different sides of the height of the point. -/
theorem sides_of_change (p a b : Point)
    (h : (decide (p.y < a.y) != decide (p.y < b.y)) = true) :
    (p.y < a.y ∧ b.y ≤ p.y) ∨ (a.y ≤ p.y ∧ p.y < b.y) := by
  by_cases h1 : p.y < a.y
  · by_cases h2 : p.y < b.y
    · simp [h1, h2] at h
    · exact Or.inl ⟨h1, le_of_not_lt h2⟩
  · by_cases h2 : p.y < b.y
    · exact Or.inr ⟨le_of_not_lt h1, h2⟩
    · simp [h1, h2] at h

/-- Where the ray of `crossesRay` meets the line of an edge whose ends lie on
different sides of the height of the point: between the ends of the edge. -/
theorem crossing_between (p a b : Point)
    (h : (decide (p.y < a.y) != decide (p.y < b.y)) = true) :
    min a.x b.x ≤ a.x + (p.y - a.y) * (b.x - a.x) / (b.y - a.y) ∧
      a.x + (p.y - a.y) * (b.x - a.x) / (b.y - a.y) ≤ max a.x b.x := by
  have hsides := sides_of_change p a b h
  have ht : 0 ≤ (p.y - a.y) / (b.y - a.y) ∧ (p.y - a.y) / (b.y - a.y) ≤ 1 := by
    rcases hsides with ⟨h1, h2⟩ | ⟨h1, h2⟩
    · have hd : b.y - a.y < 0 := by linarith
      constructor
      · exact div_nonneg_of_nonpos (by linarith) (le_of_lt hd)
      · rw [div_le_one_of_neg hd]
        linarith
    · have hd : 0 < b.y - a.y := by linarith
      constructor
      · exact div_nonneg (by linarith) (le_of_lt hd)
      · rw [div_le_one hd]
        linarith
  rw [mul_div_right_comm]
  obtain ⟨t0, t1⟩ := ht
  generalize (p.y - a.y) / (b.y - a.y) = t at t0 t1
  rcases le_total a.x b.x with hab | hab
  · rw [min_eq_left hab, max_eq_right hab]
    constructor <;> nlinarith
  · rw [min_eq_right hab, max_eq_left hab]
    constructor <;> nlinarith

/-- A ring does not enclose a point outside a box that contains its points. -/
theorem Ring.encloses_eq_false_of_outside (ring : Ring) (box : Box)
    (hbox : ∀ q ∈ ring, box.contains q.x q.y = true) (p : Point)
    (hout : box.contains p.x p.y = false) : ring.encloses p = false := by
  have hends : ∀ edge ∈ ring.edges,
      box.contains edge.1.x edge.1.y = true ∧ box.contains edge.2.x edge.2.y = true := by
    intro edge hedge
    obtain ⟨h1, h2⟩ := Ring.edges_mem ring edge.1 edge.2 hedge
    exact ⟨hbox _ h1, hbox _ h2⟩
  simp only [Box.contains, Bool.and_eq_true, decide_eq_true_eq] at hends
  by_cases hleft : p.x < box.min_x ∧ box.min_y ≤ p.y ∧ p.y ≤ box.max_y
  · -- every edge whose ends lie on different sides is crossed
    have hsame : ring.edges.filter (fun edge => crossesRay p edge.1 edge.2) =
        ring.edges.filter
          (fun edge => (fun q : Point => decide (p.y < q.y)) edge.1 !=
            (fun q : Point => decide (p.y < q.y)) edge.2) := by
      apply List.filter_congr
      intro edge hedge
      obtain ⟨⟨⟨a1, _⟩, _⟩, ⟨b1, _⟩, _⟩ := hends edge hedge
      unfold crossesRay
      cases hchange : (decide (p.y < edge.1.y) != decide (p.y < edge.2.y)) with
      | false => simp
      | true =>
        have hbetween := (crossing_between p edge.1 edge.2 hchange).1
        have hmin : box.min_x ≤ min edge.1.x edge.2.x := le_min a1 b1
        simp only [Bool.true_and, decide_eq_true_eq]
        linarith [hleft.1]
    unfold Ring.encloses
    rw [hsame]
    cases ring with
    | nil => simp [Ring.edges]
    | cons q rest =>
      simp only [Ring.edges]
      rw [mark_changes_parity (fun q : Point => decide (p.y < q.y)) rest q q]
      simp
  · -- no edge is crossed
    have hnone : ring.edges.filter (fun edge => crossesRay p edge.1 edge.2) = [] := by
      rw [List.filter_eq_nil_iff]
      intro edge hedge
      obtain ⟨⟨⟨a1, a2⟩, a3, a4⟩, ⟨b1, b2⟩, b3, b4⟩ := hends edge hedge
      unfold crossesRay
      cases hchange : (decide (p.y < edge.1.y) != decide (p.y < edge.2.y)) with
      | false => simp
      | true =>
        have hsides := sides_of_change p edge.1 edge.2 hchange
        have hy : box.min_y ≤ p.y ∧ p.y ≤ box.max_y := by
          rcases hsides with ⟨h1, h2⟩ | ⟨h1, h2⟩
          · exact ⟨le_trans b3 h2, le_trans (le_of_lt h1) a4⟩
          · exact ⟨le_trans a3 h1, le_trans (le_of_lt h2) b4⟩
        have hx : ¬ (box.min_x ≤ p.x ∧ p.x ≤ box.max_x) := by
          intro hx
          simp [Box.contains, hx.1, hx.2, hy.1, hy.2] at hout
        have hright : box.max_x < p.x := by
          by_contra hnot
          have h1 : box.min_x ≤ p.x := by
            by_contra hlt
            exact hleft ⟨lt_of_not_le hlt, hy.1, hy.2⟩
          exact hx ⟨h1, le_of_not_lt hnot⟩
        have hbetween := (crossing_between p edge.1 edge.2 hchange).2
        have hmax : max edge.1.x edge.2.x ≤ box.max_x := max_le a2 b2
        simp only [Bool.true_and, decide_eq_true_eq, not_lt]
        linarith
    unfold Ring.encloses
    rw [hnone]
    rfl

/-- A point on the boundary of a ring lies in every box that contains the
points of the ring. -/
theorem Ring.onBoundary_inside (ring : Ring) (box : Box)
    (hbox : ∀ q ∈ ring, box.contains q.x q.y = true) (p : Point)
    (h : ring.onBoundary p = true) : box.contains p.x p.y = true := by
  unfold Ring.onBoundary at h
  obtain ⟨edge, hedge, hseg⟩ := List.any_eq_true.mp h
  obtain ⟨h1, h2⟩ := Ring.edges_mem ring edge.1 edge.2 hedge
  have ha := hbox _ h1
  have hb := hbox _ h2
  simp only [onSegment, Box.contains, Bool.and_eq_true, decide_eq_true_eq] at *
  obtain ⟨⟨_, s1, s2⟩, s3, s4⟩ := hseg
  obtain ⟨⟨a1, a2⟩, a3, a4⟩ := ha
  obtain ⟨⟨b1, b2⟩, b3, b4⟩ := hb
  exact ⟨⟨le_trans (le_min a1 b1) s1, le_trans s2 (max_le a2 b2)⟩,
    le_trans (le_min a3 b3) s3, le_trans s4 (max_le a4 b4)⟩

/-- The concrete primitive covers no point outside a box that contains the
points of the outer ring. -/
theorem coveredBy_inside (polygon : Polygon) (box : Box)
    (hbox : ∀ q ∈ polygon.outer, box.contains q.x q.y = true) (p : Point)
    (h : coveredBy p polygon = true) : box.contains p.x p.y = true := by
  simp only [coveredBy, Bool.and_eq_true, Bool.or_eq_true] at h
  rcases h.1 with hb | he
  · exact Ring.onBoundary_inside polygon.outer box hbox p hb
  · by_contra hout
    rw [Ring.encloses_eq_false_of_outside polygon.outer box hbox p (by simpa using hout)] at he
    exact absurd he (by decide)

/-- The concrete primitive covers no point of a polygon whose outer ring is
empty. -/
theorem coveredBy_outer_ne_nil (polygon : Polygon) (p : Point)
    (h : coveredBy p polygon = true) : ∃ q, q ∈ polygon.outer := by
  cases houter : polygon.outer with
  | nil =>
    simp [coveredBy, houter, Ring.onBoundary, Ring.encloses, Ring.edges] at h
  | cons q rest => exact ⟨q, List.mem_cons_self _ _⟩
/-- With the concrete primitive, candidates taken by bounding box and cells
split into quadrants, the only condition left for the cross-strategy
equivalence is that `first_covered` gives no false positive at the query point:
then the grid and the cell strategy return what the brute-force scan returns,
for every polygon list and every point. The other three conditions are facts of
the primitive and the bounding boxes. -/
theorem sound_first_covered_build_eq_simple (kNone : Nat) (within : Box → Polygon → Bool)
    (convert : Int → Nat) (polygons : List Polygon)
    (configuration : IPolygonDictionary.Configuration)
    (each_min_intersections each_max_depth : Int)
    (cell_min_intersections cell_max_depth : Nat)
    (point : Point) (polygon_index : Nat)
    (hwithin : ∀ cell polygon, polygon ∈ polygons → cell.contains point.x point.y = true →
      within cell polygon = true → coveredBy point polygon = true) :
    (PolygonDictionaryIndexEach.construct
        (fun mi md ps => GridRoot.build
          (GridGeometry.mk boundsGeometry.intersects within Box.quadrants)
          (FinalCell.finalize kNone
            (GridGeometry.mk boundsGeometry.intersects within Box.quadrants) ps) ps
          (convert mi) (convert md))
        polygons configuration each_min_intersections each_max_depth).find kNone coveredBy
        point polygon_index =
      some ((PolygonDictionarySimple.mk configuration polygons).find coveredBy point
        polygon_index) ∧
    (PolygonDictionaryIndexCell.construct
        (fun mi md ps => GridRoot.build
          (GridGeometry.mk boundsGeometry.intersects within Box.quadrants)
          (FinalCellWithSlabs.finalize kNone coveredBy
            (GridGeometry.mk boundsGeometry.intersects within Box.quadrants) ps)
          ps mi md)
        polygons configuration cell_min_intersections cell_max_depth).find kNone point
        polygon_index =
      some ((PolygonDictionarySimple.mk configuration polygons).find coveredBy point
        polygon_index) := by
  have hbound : ∀ polygon ∈ polygons, coveredBy point polygon = true →
      ∃ root, boundingBox polygons = some root ∧ root.contains point.x point.y = true := by
    intro polygon hp hcov
    obtain ⟨q, hq⟩ := coveredBy_outer_ne_nil polygon point hcov
    obtain ⟨root, hroot⟩ := boundingBox_isSome polygons polygon hp q hq
    exact ⟨root, hroot, coveredBy_inside polygon root
      (fun r hr => boundingBox_contains polygons root hroot polygon hp r hr) point hcov⟩
  have hsplit : ∀ cell : Box, cell.contains point.x point.y = true →
      ∃ child ∈ Box.quadrants cell, child.contains point.x point.y = true :=
    fun cell hcell => Box.quadrants_cover cell _ _ hcell
  have hint : ∀ (cell : Box) (polygon : Polygon), polygon ∈ polygons →
      cell.contains point.x point.y = true → coveredBy point polygon = true →
      boundsGeometry.intersects cell polygon = true := by
    intro cell polygon _ hcell hcov
    obtain ⟨q, hq⟩ := coveredBy_outer_ne_nil polygon point hcov
    obtain ⟨bounds, hbounds⟩ := boundingBox_isSome [polygon] polygon (by simp) q hq
    exact boundsGeometry_intersects cell bounds polygon _ _ hbounds
      (coveredBy_inside polygon bounds
        (fun r hr => boundingBox_contains [polygon] bounds hbounds polygon (by simp) r hr)
        point hcov) hcell
  exact ⟨indexEach_build_eq_simple kNone coveredBy
      (GridGeometry.mk boundsGeometry.intersects within Box.quadrants) convert polygons
      configuration each_min_intersections each_max_depth point polygon_index
      hbound hsplit hint hwithin,
    indexCell_build_eq_simple kNone coveredBy
      (GridGeometry.mk boundsGeometry.intersects within Box.quadrants) polygons
      configuration cell_min_intersections cell_max_depth point polygon_index
      hbound hsplit hint hwithin⟩

/-! ## Cross-strategy claims -/

/-- C3. Overlap tie-break: for two polygons registered in order P0 then P1 and a
query point covered by both, all three strategies (brute force, and grid and
cell over the build modelled from the specification) return found with id 0,
given that the point lies in the bounding region, that the sub-cells of a cell
containing the point contain it again, and that a covering polygon intersects
every cell containing the point. -/
theorem overlap_tie_break (kNone : Nat) (covered_by : CoveredBy) (g : GridGeometry)
    (convert : Int → Nat) (P0 P1 : Polygon)
    (configuration : IPolygonDictionary.Configuration)
    (each_min_intersections each_max_depth : Int)
    (cell_min_intersections cell_max_depth : Nat)
    (point : Point) (polygon_index : Nat)
    (h0 : covered_by point P0 = true) (h1 : covered_by point P1 = true)
    (hbound : ∃ root, boundingBox [P0, P1] = some root ∧ root.contains point.x point.y = true)
    (hsplit : ∀ cell, cell.contains point.x point.y = true →
      ∃ child ∈ g.split cell, child.contains point.x point.y = true)
    (hint : ∀ cell polygon, polygon ∈ [P0, P1] → cell.contains point.x point.y = true →
      g.intersects cell polygon = true) :
    (PolygonDictionarySimple.mk configuration [P0, P1]).find covered_by point polygon_index =
      (true, 0) ∧
    (PolygonDictionaryIndexEach.construct
        (fun mi md ps => GridRoot.build g (FinalCell.finalize kNone g ps) ps
          (convert mi) (convert md))
        [P0, P1] configuration each_min_intersections each_max_depth).find kNone covered_by
        point polygon_index = some (true, 0) ∧
    (PolygonDictionaryIndexCell.construct
        (fun mi md ps => GridRoot.build g (FinalCellWithSlabs.finalize kNone covered_by g ps)
          ps mi md)
        [P0, P1] configuration cell_min_intersections cell_max_depth).find kNone point
        polygon_index = some (true, 0) := by
  have hsimple : (PolygonDictionarySimple.mk configuration [P0, P1]).find covered_by point
      polygon_index = (true, 0) := by
    simp [PolygonDictionarySimple.find, PolygonDictionarySimple.findFrom, h0]
  have hcovered : ∀ polygon ∈ [P0, P1], covered_by point polygon = true := by
    intro polygon hmem
    simp only [List.mem_cons, List.mem_singleton, List.not_mem_nil, or_false] at hmem
    rcases hmem with rfl | rfl
    · exact h0
    · exact h1
  refine ⟨hsimple, ?_, ?_⟩
  · rw [← hsimple]
    exact indexEach_build_eq_simple kNone covered_by g convert [P0, P1] configuration
      each_min_intersections each_max_depth point polygon_index (fun _ _ _ => hbound) hsplit
      (fun cell polygon hmem hcell _ => hint cell polygon hmem hcell)
      (fun _ polygon hmem _ _ => hcovered polygon hmem)
  · rw [← hsimple]
    exact indexCell_build_eq_simple kNone covered_by g [P0, P1] configuration
      cell_min_intersections cell_max_depth point polygon_index (fun _ _ _ => hbound) hsplit
      (fun cell polygon hmem hcell _ => hint cell polygon hmem hcell)
      (fun _ polygon hmem _ _ => hcovered polygon hmem)

/-- Witness of C3, the scenario of section 8: squares A then B, query point
`(1.5, 1.5)` inside both; every strategy returns A's id 0. -/
theorem overlap_tie_break_witness :
    (PolygonDictionarySimple.mk exampleConfiguration [squareA, squareB]).find coveredBy
      (Point.mk (3 / 2) (3 / 2)) 7 = (true, 0) ∧
    (PolygonDictionaryIndexEach.construct
        (fun mi md ps => GridRoot.build boundsGeometry
          (FinalCell.finalize (2 ^ 64 - 1) boundsGeometry ps) ps (Int.toNat mi) (Int.toNat md))
        [squareA, squareB] exampleConfiguration 1 5).find (2 ^ 64 - 1) coveredBy
        (Point.mk (3 / 2) (3 / 2)) 7 = some (true, 0) ∧
    (PolygonDictionaryIndexCell.construct
        (fun mi md ps => GridRoot.build boundsGeometry
          (FinalCellWithSlabs.finalize (2 ^ 64 - 1) coveredBy boundsGeometry ps) ps mi md)
        [squareA, squareB] exampleConfiguration 1 5).find (2 ^ 64 - 1)
        (Point.mk (3 / 2) (3 / 2)) 7 = some (true, 0) := by
  have hboundsA : boundingBox [squareA] = some (Box.mk 0 0 2 2) := by decide!
  have hboundsB : boundingBox [squareB] = some (Box.mk 1 1 3 3) := by decide!
  apply overlap_tie_break (2 ^ 64 - 1) coveredBy boundsGeometry Int.toNat squareA squareB
    exampleConfiguration 1 5 1 5 (Point.mk (3 / 2) (3 / 2)) 7
  · decide!
  · decide!
  · exact ⟨Box.mk 0 0 3 3, by decide!, by decide!⟩
  · intro cell hcell
    exact Box.quadrants_cover cell _ _ hcell
  · intro cell polygon hmem hcell
    simp only [List.mem_cons, List.mem_singleton, List.not_mem_nil, or_false] at hmem
    rcases hmem with rfl | rfl
    · exact boundsGeometry_intersects cell _ squareA _ _ hboundsA (by decide!) hcell
    · exact boundsGeometry_intersects cell _ squareB _ _ hboundsB (by decide!) hcell

/-- Witness of C6: squares A and B under a grid of a single root cell that lists
ids 0 and 1 and has no `first_covered`. -/
theorem indexEach_single_root_cell_eq_simple_witness :
    (PolygonDictionaryIndexEach.construct
        (fun _ _ ps _ _ => some (FinalCell.mk (List.range ps.length) (2 ^ 64 - 1)))
        [squareA, squareB] exampleConfiguration 1 0).find (2 ^ 64 - 1) coveredBy
        (Point.mk (5 / 2) (5 / 2)) 7 =
      some ((PolygonDictionarySimple.mk exampleConfiguration [squareA, squareB]).find coveredBy
        (Point.mk (5 / 2) (5 / 2)) 7) :=
  indexEach_single_root_cell_eq_simple (2 ^ 64 - 1) coveredBy
    (fun _ _ ps _ _ => some (FinalCell.mk (List.range ps.length) (2 ^ 64 - 1)))
    [squareA, squareB] exampleConfiguration 1 0 (Point.mk (5 / 2) (5 / 2)) 7 (fun _ _ => rfl)

/-! ## Facts about `createLayout` -/

mutual
theorem DataType.equals_iff : ∀ a b : DataType, a.equals b = true ↔ a = b
  | .Float64, b => by cases b <;> simp [DataType.equals]
  | .Other name, b => by cases b <;> simp [DataType.equals]
  | .Array a, b => by
    cases b <;> simp [DataType.equals]
    exact DataType.equals_iff a _
  | .Tuple a, b => by
    cases b <;> simp [DataType.equals]
    exact DataType.equalsAll_iff a _
theorem DataType.equalsAll_iff : ∀ a b : List DataType, DataType.equalsAll a b = true ↔ a = b
  | [], b => by cases b <;> simp [DataType.equalsAll]
  | a :: as, b => by
    cases b with
    | nil => simp [DataType.equalsAll]
    | cons b bs =>
      simp [DataType.equalsAll, DataType.equals_iff a b, DataType.equalsAll_iff as bs]
end

theorem DataType.equals_eq_false (a b : DataType) (h : a ≠ b) : a.equals b = false := by
  cases hab : a.equals b with
  | false => rfl
  | true => exact absurd ((DataType.equals_iff a b).mp hab) h

theorem multi_polygon_array_ne_multi_polygon_tuple : multi_polygon_array ≠ multi_polygon_tuple := by
  simp [multi_polygon_array, multi_polygon_tuple, f64]

theorem multi_polygon_array_ne_simple_polygon_array :
    multi_polygon_array ≠ simple_polygon_array := by
  simp [multi_polygon_array, simple_polygon_array, f64]

theorem multi_polygon_array_ne_simple_polygon_tuple :
    multi_polygon_array ≠ simple_polygon_tuple := by
  simp [multi_polygon_array, simple_polygon_tuple, f64]

theorem multi_polygon_tuple_ne_simple_polygon_array :
    multi_polygon_tuple ≠ simple_polygon_array := by
  simp [multi_polygon_tuple, simple_polygon_array, f64]

theorem multi_polygon_tuple_ne_simple_polygon_tuple :
    multi_polygon_tuple ≠ simple_polygon_tuple := by
  simp [multi_polygon_tuple, simple_polygon_tuple, f64]

theorem simple_polygon_array_ne_simple_polygon_tuple :
    simple_polygon_array ≠ simple_polygon_tuple := by
  simp [simple_polygon_array, simple_polygon_tuple, f64]

/-- The key-type chain as a case distinction on the identity of the key type. -/
theorem keyTypeConfiguration_cases (key_type : DataType) :
    (key_type = multi_polygon_array ∧ keyTypeConfiguration key_type =
      .ok (IPolygonDictionary.InputType.MultiPolygon, IPolygonDictionary.PointType.Array)) ∨
    (key_type = multi_polygon_tuple ∧ keyTypeConfiguration key_type =
      .ok (IPolygonDictionary.InputType.MultiPolygon, IPolygonDictionary.PointType.Tuple)) ∨
    (key_type = simple_polygon_array ∧ keyTypeConfiguration key_type =
      .ok (IPolygonDictionary.InputType.SimplePolygon, IPolygonDictionary.PointType.Array)) ∨
    (key_type = simple_polygon_tuple ∧ keyTypeConfiguration key_type =
      .ok (IPolygonDictionary.InputType.SimplePolygon, IPolygonDictionary.PointType.Tuple)) ∨
    ((key_type ≠ multi_polygon_array ∧ key_type ≠ multi_polygon_tuple ∧
        key_type ≠ simple_polygon_array ∧ key_type ≠ simple_polygon_tuple) ∧
      keyTypeConfiguration key_type = .error (Exception.mk ErrorCode.BAD_ARGUMENTS
        "The key type \x7b\x7d is not one of the following allowed types for a polygon dictionary: \x7b\x7d \x7b\x7d \x7b\x7d \x7b\x7d ")) := by
  by_cases h1 : key_type = multi_polygon_array
  · left
    refine ⟨h1, ?_⟩
    have := (DataType.equals_iff key_type multi_polygon_array).mpr h1
    simp [keyTypeConfiguration, this]
  have e1 : key_type.equals multi_polygon_array = false := DataType.equals_eq_false key_type multi_polygon_array h1
  by_cases h2 : key_type = multi_polygon_tuple
  · right; left
    refine ⟨h2, ?_⟩
    have := (DataType.equals_iff key_type multi_polygon_tuple).mpr h2
    simp [keyTypeConfiguration, e1, this]
  have e2 : key_type.equals multi_polygon_tuple = false := DataType.equals_eq_false key_type multi_polygon_tuple h2
  by_cases h3 : key_type = simple_polygon_array
  · right; right; left
    refine ⟨h3, ?_⟩
    have := (DataType.equals_iff key_type simple_polygon_array).mpr h3
    simp [keyTypeConfiguration, e1, e2, this]
  have e3 : key_type.equals simple_polygon_array = false := DataType.equals_eq_false key_type simple_polygon_array h3
  by_cases h4 : key_type = simple_polygon_tuple
  · right; right; right; left
    refine ⟨h4, ?_⟩
    have := (DataType.equals_iff key_type simple_polygon_tuple).mpr h4
    simp [keyTypeConfiguration, e1, e2, e3, this]
  have e4 : key_type.equals simple_polygon_tuple = false := DataType.equals_eq_false key_type simple_polygon_tuple h4
  right; right; right; right
  exact ⟨⟨h1, h2, h3, h4⟩, by simp [keyTypeConfiguration, e1, e2, e3, e4]⟩

theorem makeDictionary_configuration (kind : PolygonDictionaryKind) (env : LayoutEnvironment)
    (config : DictionaryConfig) (configuration : IPolygonDictionary.Configuration) :
    (makeDictionary kind env config configuration).configuration = configuration := by
  cases kind <;> rfl

/-- With a single key attribute, `createLayout` is the key-type chain followed by
the range check and the construction. -/
theorem createLayout_single_key (kind : PolygonDictionaryKind) (env : LayoutEnvironment)
    (key_attribute : DictionaryAttribute) (range_min range_max : Option DictionaryAttribute)
    (config : DictionaryConfig) :
    createLayout kind env (DictionaryStructure.mk (some [key_attribute]) range_min range_max)
        config =
      match keyTypeConfiguration key_attribute.type with
      | .error e => .error e
      | .ok types =>
        if range_min.isSome || range_max.isSome then
          .error (Exception.mk ErrorCode.BAD_ARGUMENTS
            "\x7b\x7d: elements range_min and range_max should be defined only for a dictionary of layout 'range_hashed'")
        else
          .ok (makeDictionary kind env config
            (IPolygonDictionary.Configuration.mk types.1 types.2
              (getBool config.store_polygon_key_column false)
              (env.source_is_local_clickhouse && env.dictionary_use_async_executor))) := by
  unfold createLayout
  simp only
  cases keyTypeConfiguration key_attribute.type with
  | error e => rfl
  | ok types => rfl

/-- An accepted key has one of the four types, with the matching configuration. -/
theorem createLayout_ok_key_type (kind : PolygonDictionaryKind) (env : LayoutEnvironment)
    (key_attribute : DictionaryAttribute) (range_min range_max : Option DictionaryAttribute)
    (config : DictionaryConfig) (d : Dictionary)
    (hok : createLayout kind env
      (DictionaryStructure.mk (some [key_attribute]) range_min range_max) config = .ok d) :
    (key_attribute.type = multi_polygon_array ∧
      d.configuration.input_type = IPolygonDictionary.InputType.MultiPolygon ∧
      d.configuration.point_type = IPolygonDictionary.PointType.Array) ∨
    (key_attribute.type = multi_polygon_tuple ∧
      d.configuration.input_type = IPolygonDictionary.InputType.MultiPolygon ∧
      d.configuration.point_type = IPolygonDictionary.PointType.Tuple) ∨
    (key_attribute.type = simple_polygon_array ∧
      d.configuration.input_type = IPolygonDictionary.InputType.SimplePolygon ∧
      d.configuration.point_type = IPolygonDictionary.PointType.Array) ∨
    (key_attribute.type = simple_polygon_tuple ∧
      d.configuration.input_type = IPolygonDictionary.InputType.SimplePolygon ∧
      d.configuration.point_type = IPolygonDictionary.PointType.Tuple) := by
  rw [createLayout_single_key] at hok
  have hcfg : ∀ types : IPolygonDictionary.InputType × IPolygonDictionary.PointType,
      (if range_min.isSome || range_max.isSome then
        (Except.error (Exception.mk ErrorCode.BAD_ARGUMENTS
          "\x7b\x7d: elements range_min and range_max should be defined only for a dictionary of layout 'range_hashed'") :
          Except Exception Dictionary)
      else
        .ok (makeDictionary kind env config
          (IPolygonDictionary.Configuration.mk types.1 types.2
            (getBool config.store_polygon_key_column false)
            (env.source_is_local_clickhouse && env.dictionary_use_async_executor)))) = .ok d →
      d.configuration.input_type = types.1 ∧ d.configuration.point_type = types.2 := by
    intro types h
    split at h
    · cases h
    · injection h with h
      rw [← h, makeDictionary_configuration]
      exact ⟨rfl, rfl⟩
  rcases keyTypeConfiguration_cases key_attribute.type with
    ⟨ht, hk⟩ | ⟨ht, hk⟩ | ⟨ht, hk⟩ | ⟨ht, hk⟩ | ⟨_, hk⟩
  · rw [hk] at hok
    exact Or.inl ⟨ht, hcfg _ hok⟩
  · rw [hk] at hok
    exact Or.inr (Or.inl ⟨ht, hcfg _ hok⟩)
  · rw [hk] at hok
    exact Or.inr (Or.inr (Or.inl ⟨ht, hcfg _ hok⟩))
  · rw [hk] at hok
    exact Or.inr (Or.inr (Or.inr ⟨ht, hcfg _ hok⟩))
  · rw [hk] at hok
    cases hok

/-- A key of one of the four types passes the key-type chain. -/
theorem keyTypeConfiguration_ok (key_type : DataType)
    (h : key_type = multi_polygon_array ∨ key_type = multi_polygon_tuple ∨
      key_type = simple_polygon_array ∨ key_type = simple_polygon_tuple) :
    ∃ types, keyTypeConfiguration key_type = .ok types := by
  rcases keyTypeConfiguration_cases key_type with
    ⟨_, hk⟩ | ⟨_, hk⟩ | ⟨_, hk⟩ | ⟨_, hk⟩ | ⟨⟨h1, h2, h3, h4⟩, _⟩
  · exact ⟨_, hk⟩
  · exact ⟨_, hk⟩
  · exact ⟨_, hk⟩
  · exact ⟨_, hk⟩
  · rcases h with h | h | h | h
    · exact absurd h h1
    · exact absurd h h2
    · exact absurd h h3
    · exact absurd h h4

/-- C7. `createLayout` accepts a key type if and only if it is one of exactly
four encodings, and maps each to its configuration:
`Array(Array(Array(Array(Float64))))` to (MultiPolygon, Array),
`Array(Array(Array(Tuple(Float64, Float64))))` to (MultiPolygon, Tuple),
`Array(Array(Float64))` to (SimplePolygon, Array) and
`Array(Tuple(Float64, Float64))` to (SimplePolygon, Tuple); every other key type
fails with `BAD_ARGUMENTS` and no dictionary is produced. -/
theorem createLayout_key_type_encodings (kind : PolygonDictionaryKind) (env : LayoutEnvironment)
    (key_attribute : DictionaryAttribute) (range_min range_max : Option DictionaryAttribute)
    (config : DictionaryConfig) :
    (∀ d, createLayout kind env
        (DictionaryStructure.mk (some [key_attribute]) range_min range_max) config = .ok d →
      (key_attribute.type = multi_polygon_array ∧
        d.configuration.input_type = IPolygonDictionary.InputType.MultiPolygon ∧
        d.configuration.point_type = IPolygonDictionary.PointType.Array) ∨
      (key_attribute.type = multi_polygon_tuple ∧
        d.configuration.input_type = IPolygonDictionary.InputType.MultiPolygon ∧
        d.configuration.point_type = IPolygonDictionary.PointType.Tuple) ∨
      (key_attribute.type = simple_polygon_array ∧
        d.configuration.input_type = IPolygonDictionary.InputType.SimplePolygon ∧
        d.configuration.point_type = IPolygonDictionary.PointType.Array) ∨
      (key_attribute.type = simple_polygon_tuple ∧
        d.configuration.input_type = IPolygonDictionary.InputType.SimplePolygon ∧
        d.configuration.point_type = IPolygonDictionary.PointType.Tuple)) ∧
    ((key_attribute.type = multi_polygon_array ∨ key_attribute.type = multi_polygon_tuple ∨
        key_attribute.type = simple_polygon_array ∨
        key_attribute.type = simple_polygon_tuple) →
      ∃ d, createLayout kind env
        (DictionaryStructure.mk (some [key_attribute]) none none) config = .ok d) ∧
    ((key_attribute.type ≠ multi_polygon_array ∧ key_attribute.type ≠ multi_polygon_tuple ∧
        key_attribute.type ≠ simple_polygon_array ∧
        key_attribute.type ≠ simple_polygon_tuple) →
      createLayout kind env
          (DictionaryStructure.mk (some [key_attribute]) range_min range_max) config =
        .error (Exception.mk ErrorCode.BAD_ARGUMENTS
          "The key type \x7b\x7d is not one of the following allowed types for a polygon dictionary: \x7b\x7d \x7b\x7d \x7b\x7d \x7b\x7d ")) := by
  refine ⟨?_, ?_, ?_⟩
  · intro d hok
    exact createLayout_ok_key_type kind env key_attribute range_min range_max config d hok
  · intro h
    obtain ⟨types, hk⟩ := keyTypeConfiguration_ok key_attribute.type h
    rw [createLayout_single_key, hk]
    exact ⟨_, rfl⟩
  · rintro ⟨h1, h2, h3, h4⟩
    rw [createLayout_single_key]
    rcases keyTypeConfiguration_cases key_attribute.type with
      ⟨ht, _⟩ | ⟨ht, _⟩ | ⟨ht, _⟩ | ⟨ht, _⟩ | ⟨_, hk⟩
    · exact absurd ht h1
    · exact absurd ht h2
    · exact absurd ht h3
    · exact absurd ht h4
    · rw [hk]

/-- C8. `createLayout` requires exactly one key attribute: when the structure
has no key, or its key consists of a number of attributes other than one,
construction fails with `BAD_ARGUMENTS` for every layout and configuration, and
no dictionary is produced. -/
theorem createLayout_requires_single_key (kind : PolygonDictionaryKind)
    (env : LayoutEnvironment) (dict_struct : DictionaryStructure) (config : DictionaryConfig)
    (hkey : dict_struct.key = none ∨
      ∃ key, dict_struct.key = some key ∧ key.length ≠ 1) :
    createLayout kind env dict_struct config =
      .error (Exception.mk ErrorCode.BAD_ARGUMENTS
        (match dict_struct.key with
          | none => "'key' is required for a polygon dictionary"
          | some _ =>
            "The 'key' should consist of a single attribute for a polygon dictionary")) := by
  rcases hkey with hnone | ⟨key, hsome, hlen⟩
  · simp [createLayout, hnone]
  · match key, hlen, hsome with
    | [], _, hsome => simp [createLayout, hsome]
    | [_], hlen, _ => simp at hlen
    | _ :: _ :: _, _, hsome => simp [createLayout, hsome]

/-- Witness of C8: a key of two attributes under the grid layout. -/
theorem createLayout_requires_single_key_witness :
    createLayout PolygonDictionaryKind.IndexEach
        (LayoutEnvironment.mk 5 1 (fun _ _ _ _ _ => none) (fun _ _ _ _ _ => none)
          [squareA, squareB] false false)
        (DictionaryStructure.mk
          (some [DictionaryAttribute.mk "a" simple_polygon_tuple,
            DictionaryAttribute.mk "b" simple_polygon_tuple]) none none)
        (DictionaryConfig.mk "regions" none none none) =
      .error (Exception.mk ErrorCode.BAD_ARGUMENTS
        "The 'key' should consist of a single attribute for a polygon dictionary") :=
  createLayout_requires_single_key PolygonDictionaryKind.IndexEach
    (LayoutEnvironment.mk 5 1 (fun _ _ _ _ _ => none) (fun _ _ _ _ _ => none)
      [squareA, squareB] false false)
    (DictionaryStructure.mk
      (some [DictionaryAttribute.mk "a" simple_polygon_tuple,
        DictionaryAttribute.mk "b" simple_polygon_tuple]) none none)
    (DictionaryConfig.mk "regions" none none none)
    (Or.inr ⟨_, rfl, by decide⟩)

/-- C9. `createLayout` rejects range keys: for a single key of one of the four
supported encodings, when the structure declares `range_min` or `range_max`
(either one alone suffices) construction fails with `BAD_ARGUMENTS` and no
dictionary is produced; when it declares neither, a dictionary is produced. -/
theorem createLayout_rejects_range_keys (kind : PolygonDictionaryKind)
    (env : LayoutEnvironment) (key_attribute : DictionaryAttribute)
    (range_min range_max : Option DictionaryAttribute) (config : DictionaryConfig)
    (hkey : key_attribute.type = multi_polygon_array ∨
      key_attribute.type = multi_polygon_tuple ∨
      key_attribute.type = simple_polygon_array ∨
      key_attribute.type = simple_polygon_tuple) :
    ((range_min.isSome = true ∨ range_max.isSome = true) →
      createLayout kind env
          (DictionaryStructure.mk (some [key_attribute]) range_min range_max) config =
        .error (Exception.mk ErrorCode.BAD_ARGUMENTS
          "\x7b\x7d: elements range_min and range_max should be defined only for a dictionary of layout 'range_hashed'")) ∧
    ((range_min = none ∧ range_max = none) →
      ∃ d, createLayout kind env
          (DictionaryStructure.mk (some [key_attribute]) range_min range_max) config =
        .ok d) := by
  obtain ⟨types, hk⟩ := keyTypeConfiguration_ok key_attribute.type hkey
  rw [createLayout_single_key, hk]
  constructor
  · intro hrange
    have : (range_min.isSome || range_max.isSome) = true := by
      rcases hrange with h | h <;> simp [h]
    simp [this]
  · rintro ⟨hmin, hmax⟩
    subst hmin hmax
    exact ⟨_, rfl⟩

/-- Witness of C9: a tuple-encoded simple polygon key with `range_max` alone
declared, under the brute-force layout. -/
theorem createLayout_rejects_range_keys_witness :
    createLayout PolygonDictionaryKind.Simple
        (LayoutEnvironment.mk 5 1 (fun _ _ _ _ _ => none) (fun _ _ _ _ _ => none)
          [squareA, squareB] false false)
        (DictionaryStructure.mk (some [DictionaryAttribute.mk "key" simple_polygon_tuple])
          none (some (DictionaryAttribute.mk "until" DataType.Float64)))
        (DictionaryConfig.mk "regions" none none none) =
      .error (Exception.mk ErrorCode.BAD_ARGUMENTS
        "\x7b\x7d: elements range_min and range_max should be defined only for a dictionary of layout 'range_hashed'") :=
  (createLayout_rejects_range_keys PolygonDictionaryKind.Simple
    (LayoutEnvironment.mk 5 1 (fun _ _ _ _ _ => none) (fun _ _ _ _ _ => none)
      [squareA, squareB] false false)
    (DictionaryAttribute.mk "key" simple_polygon_tuple) none
    (some (DictionaryAttribute.mk "until" DataType.Float64))
    (DictionaryConfig.mk "regions" none none none)
    (Or.inr (Or.inr (Or.inr rfl)))).1 (Or.inr rfl)

/-! ## Tuning parameters -/

theorem sizeToInt_of_lt (value : Nat) (h : value < 2 ^ 31) : sizeToInt value = (value : Int) := by
  have h32 : value % 2 ^ 32 = value := Nat.mod_eq_of_lt (by omega)
  unfold sizeToInt
  rw [h32, if_pos h]

/-- The part of the tuning-parameter rule that the code keeps: the cell layout
passes every configured `unsigned int` unchanged to its index, the grid layout
passes every configured value below `2 ^ 31` unchanged to its grid, neither
swaps the two, and an absent entry gives the default of the class (an
`unsigned int`; below `2 ^ 31` for the grid layout). -/
theorem makeDictionary_tuning_parameters (env : LayoutEnvironment) (config : DictionaryConfig)
    (configuration : IPolygonDictionary.Configuration) :
    makeDictionary PolygonDictionaryKind.IndexCell env config configuration =
      .indexCell (PolygonDictionaryIndexCell.construct env.makeIndex env.polygons configuration
        (getUInt config.min_intersections env.kMinIntersectionsDefault)
        (getUInt config.max_depth env.kMaxDepthDefault)) ∧
    (∀ value, value < 2 ^ 32 → getUInt (some value) env.kMaxDepthDefault = value) ∧
    (env.kMaxDepthDefault < 2 ^ 32 → getUInt none env.kMaxDepthDefault = env.kMaxDepthDefault) ∧
    (getUInt config.min_intersections env.kMinIntersectionsDefault < 2 ^ 31 →
      getUInt config.max_depth env.kMaxDepthDefault < 2 ^ 31 →
      makeDictionary PolygonDictionaryKind.IndexEach env config configuration =
        .indexEach (PolygonDictionaryIndexEach.construct env.makeGrid env.polygons
          configuration
          (getUInt config.min_intersections env.kMinIntersectionsDefault : Nat)
          (getUInt config.max_depth env.kMaxDepthDefault : Nat))) ∧
    makeDictionary PolygonDictionaryKind.Simple env config configuration =
      .simple (PolygonDictionarySimple.mk configuration env.polygons) := by
  refine ⟨rfl, ?_, ?_, ?_, rfl⟩
  · intro value h
    exact Nat.mod_eq_of_lt h
  · intro h
    exact Nat.mod_eq_of_lt h
  · intro hmin hmax
    simp only [makeDictionary, sizeToInt_of_lt _ hmin, sizeToInt_of_lt _ hmax]

/-- C10, at the failing input. Under the grid layout with `max_depth` configured
as 2147483648 (and `min_intersections` as 1), the constructor of
`PolygonDictionaryIndexEach` receives, keeps and hands to its grid the depth
bound -2147483648: the `size_t` value does not fit the `int` parameter. Under
the cell layout the same configuration reaches the index as 2147483648. -/
theorem createLayout_indexEach_max_depth_narrowed (env : LayoutEnvironment) :
    createLayout PolygonDictionaryKind.IndexEach env
        (DictionaryStructure.mk (some [DictionaryAttribute.mk "key" simple_polygon_tuple])
          none none)
        (DictionaryConfig.mk "regions" none (some 2147483648) (some 1)) =
      .ok (.indexEach
        { configuration :=
            IPolygonDictionary.Configuration.mk IPolygonDictionary.InputType.SimplePolygon
              IPolygonDictionary.PointType.Tuple false
              (env.source_is_local_clickhouse && env.dictionary_use_async_executor)
          polygons := env.polygons
          grid := env.makeGrid 1 (-2147483648) env.polygons
          min_intersections := 1
          max_depth := -2147483648
          buckets := PolygonDictionaryIndexEach.fillBuckets env.polygons }) ∧
    createLayout PolygonDictionaryKind.IndexCell env
        (DictionaryStructure.mk (some [DictionaryAttribute.mk "key" simple_polygon_tuple])
          none none)
        (DictionaryConfig.mk "regions" none (some 2147483648) (some 1)) =
      .ok (.indexCell
        { configuration :=
            IPolygonDictionary.Configuration.mk IPolygonDictionary.InputType.SimplePolygon
              IPolygonDictionary.PointType.Tuple false
              (env.source_is_local_clickhouse && env.dictionary_use_async_executor)
          polygons := env.polygons
          index := env.makeIndex 1 2147483648 env.polygons
          min_intersections := 1
          max_depth := 2147483648 }) := by
  have hkey : keyTypeConfiguration simple_polygon_tuple =
      .ok (IPolygonDictionary.InputType.SimplePolygon, IPolygonDictionary.PointType.Tuple) := by
    rcases keyTypeConfiguration_cases simple_polygon_tuple with
      ⟨ht, _⟩ | ⟨ht, _⟩ | ⟨ht, _⟩ | ⟨_, hk⟩ | ⟨⟨_, _, _, ht⟩, _⟩
    · exact absurd ht.symm multi_polygon_array_ne_simple_polygon_tuple
    · exact absurd ht.symm multi_polygon_tuple_ne_simple_polygon_tuple
    · exact absurd ht.symm simple_polygon_array_ne_simple_polygon_tuple
    · exact hk
    · exact absurd rfl ht
  have hint : sizeToInt (getUInt (some 2147483648) env.kMaxDepthDefault) = -2147483648 := by
    unfold getUInt sizeToInt
    norm_num
  have hone : sizeToInt (getUInt (some 1) env.kMinIntersectionsDefault) = 1 := by
    simp [sizeToInt, getUInt]
  have hcell : getUInt (some 2147483648) env.kMaxDepthDefault = 2147483648 := by
    simp [getUInt]
  have hcell1 : getUInt (some 1) env.kMinIntersectionsDefault = 1 := by
    simp [getUInt]
  constructor
  · rw [createLayout_single_key, hkey]
    simp only [Option.isSome_none, Bool.or_self, Bool.false_eq_true, if_false, makeDictionary,
      hint, hone, PolygonDictionaryIndexEach.construct, getBool]
  · rw [createLayout_single_key, hkey]
    simp only [Option.isSome_none, Bool.or_self, Bool.false_eq_true, if_false, makeDictionary,
      hcell, hcell1, PolygonDictionaryIndexCell.construct, getBool]

/-! ## Layout dispatch -/

/-- C11. `registerDictionaryPolygon` registers exactly the four layout names
`polygon_simple`, `polygon_index_each`, `polygon_index_cell` and `polygon`, and
maps them to the brute-force, grid, cell and cell builders; so for every
environment, structure and configuration, building under the name `polygon`
gives the same result as building under `polygon_index_cell`. -/
theorem registerDictionaryPolygon_layouts :
    (registerDictionaryPolygon []).map RegisteredLayout.layout_type =
      ["polygon_simple", "polygon_index_each", "polygon_index_cell", "polygon"] ∧
    DictionaryFactory.lookup (registerDictionaryPolygon []) "polygon_simple" =
      some (createLayout PolygonDictionaryKind.Simple) ∧
    DictionaryFactory.lookup (registerDictionaryPolygon []) "polygon_index_each" =
      some (createLayout PolygonDictionaryKind.IndexEach) ∧
    DictionaryFactory.lookup (registerDictionaryPolygon []) "polygon_index_cell" =
      some (createLayout PolygonDictionaryKind.IndexCell) ∧
    DictionaryFactory.lookup (registerDictionaryPolygon []) "polygon" =
      some (createLayout PolygonDictionaryKind.IndexCell) ∧
    (∀ name, name ≠ "polygon_simple" → name ≠ "polygon_index_each" →
      name ≠ "polygon_index_cell" → name ≠ "polygon" →
      DictionaryFactory.lookup (registerDictionaryPolygon []) name = none) ∧
    (∀ (env : LayoutEnvironment) (dict_struct : DictionaryStructure)
      (config : DictionaryConfig),
      (DictionaryFactory.lookup (registerDictionaryPolygon []) "polygon").map
          (fun create => create env dict_struct config) =
        (DictionaryFactory.lookup (registerDictionaryPolygon []) "polygon_index_cell").map
          (fun create => create env dict_struct config)) := by
  refine ⟨rfl, ?_, ?_, ?_, ?_, ?_, ?_⟩
  · simp [DictionaryFactory.lookup, registerDictionaryPolygon, DictionaryFactory.registerLayout]
  · simp [DictionaryFactory.lookup, registerDictionaryPolygon, DictionaryFactory.registerLayout]
  · simp [DictionaryFactory.lookup, registerDictionaryPolygon, DictionaryFactory.registerLayout]
  · simp [DictionaryFactory.lookup, registerDictionaryPolygon, DictionaryFactory.registerLayout]
  · intro name h1 h2 h3 h4
    have e1 : ("polygon_simple" == name) = false := by simpa using Ne.symm h1
    have e2 : ("polygon_index_each" == name) = false := by simpa using Ne.symm h2
    have e3 : ("polygon_index_cell" == name) = false := by simpa using Ne.symm h3
    have e4 : ("polygon" == name) = false := by simpa using Ne.symm h4
    simp [DictionaryFactory.lookup, registerDictionaryPolygon, DictionaryFactory.registerLayout,
      List.find?, e1, e2, e3, e4]
  · intro env dict_struct config
    simp [DictionaryFactory.lookup, registerDictionaryPolygon, DictionaryFactory.registerLayout]

/-! ## Boundary inclusion and false positives -/

namespace PolygonDictionaryIndexEach

/-- Over the buckets filled by the constructor, a candidate through which the
candidate loop returns is the id of a polygon that covers the point. -/
theorem findCandidate_fillBuckets_sound (covered_by : CoveredBy) (polygons : List Polygon)
    (point : Point) (ids : List Nat) (candidate : Nat)
    (h : findCandidate covered_by (fillBuckets polygons) point ids = some (some candidate)) :
    ∃ polygon, polygons[candidate]? = some polygon ∧ covered_by point polygon = true := by
  induction ids with
  | nil => simp [findCandidate] at h
  | cons c rest ih =>
    unfold findCandidate at h
    rw [fillBuckets_getElem?] at h
    cases hc : polygons[c]? with
    | none => simp [hc] at h
    | some polygon =>
      simp only [hc, Option.map_some', Bucket.find_single] at h
      by_cases hp : covered_by point polygon = true
      · simp only [hp, if_true, Option.some.injEq] at h
        subst h
        exact ⟨polygon, hc, hp⟩
      · have hp' : covered_by point polygon = false := by simpa using hp
        simp only [hp', Bool.false_eq_true, if_false] at h
        exact ih h

end PolygonDictionaryIndexEach

/-- C19. No false positives from the grid strategy: provided that the
`first_covered` polygon of the located cell (when set) covers the query point,
whenever `PolygonDictionaryIndexEach::find` returns found with id `i`, the
polygon with id `i` covers the query point; for every polygon list, grid and
point. -/
theorem indexEach_find_no_false_positive (kNone : Nat) (covered_by : CoveredBy)
    (makeGrid : Int → Int → List Polygon → GridRoot FinalCell)
    (polygons : List Polygon) (configuration : IPolygonDictionary.Configuration)
    (min_intersections max_depth : Int) (point : Point) (polygon_index i : Nat)
    (hfirst : ∀ cell, makeGrid min_intersections max_depth polygons point.x point.y = some cell →
      cell.first_covered ≠ kNone →
      ∃ polygon, polygons[cell.first_covered]? = some polygon ∧
        covered_by point polygon = true)
    (hfound : (PolygonDictionaryIndexEach.construct makeGrid polygons configuration
        min_intersections max_depth).find kNone covered_by point polygon_index =
      some (true, i)) :
    ∃ polygon, polygons[i]? = some polygon ∧ covered_by point polygon = true := by
  simp only [PolygonDictionaryIndexEach.find, PolygonDictionaryIndexEach.construct] at hfound
  cases hcell : makeGrid min_intersections max_depth polygons point.x point.y with
  | none => simp [hcell] at hfound
  | some cell =>
    simp only [hcell] at hfound
    cases hcand : PolygonDictionaryIndexEach.findCandidate covered_by
        (PolygonDictionaryIndexEach.fillBuckets polygons) point cell.polygon_ids with
    | none => simp [hcand] at hfound
    | some result =>
      cases result with
      | some candidate =>
        simp only [hcand, Option.some.injEq, Prod.mk.injEq, true_and] at hfound
        subst hfound
        exact PolygonDictionaryIndexEach.findCandidate_fillBuckets_sound covered_by polygons
          point cell.polygon_ids candidate hcand
      | none =>
        simp only [hcand] at hfound
        by_cases hset : cell.first_covered = kNone
        · simp [hset] at hfound
        · simp only [ne_eq, hset, not_false_eq_true, if_true, Option.some.injEq,
            Prod.mk.injEq, true_and] at hfound
          subst hfound
          exact hfirst cell hcell hset

/-- Witness of C19: squares A and B in a cell with the candidate 1 and
`first_covered` 0; at `(1/2, 1/2)` the bucket of B rejects and the result is
`first_covered`, the id of A, which covers the point. -/
theorem indexEach_find_no_false_positive_witness :
    ∃ polygon, [squareA, squareB][0]? = some polygon ∧
      coveredBy (Point.mk (1 / 2) (1 / 2)) polygon = true :=
  indexEach_find_no_false_positive (2 ^ 64 - 1) coveredBy
    (fun _ _ _ _ _ => some (FinalCell.mk [1] 0))
    [squareA, squareB] exampleConfiguration 1 5 (Point.mk (1 / 2) (1 / 2)) 7 0
    (fun cell hcell _ => by
      simp only [Option.some.injEq] at hcell
      subst hcell
      exact ⟨squareA, rfl, by decide!⟩)
    (by decide!)

/-! ## Facts about the constant-divisor modulo -/

theorem IntType.cast_eq_self (T : IntType) (hbits : 0 < T.bits) (v : Int)
    (h1 : T.lowest ≤ v) (h2 : v ≤ T.max) : T.cast v = v := by
  obtain ⟨signed, bits⟩ := T
  simp only at hbits
  have hpow : (2 : Int) ^ bits = 2 * 2 ^ (bits - 1) := by
    obtain ⟨k, rfl⟩ : ∃ k, bits = k + 1 := ⟨bits - 1, by omega⟩
    simp [pow_succ, mul_comm]
  have hpos : (0 : Int) < 2 ^ (bits - 1) := by positivity
  cases signed
  · simp only [IntType.lowest, IntType.max, Bool.false_eq_true, if_false] at h1 h2
    simp only [IntType.cast, IntType.pattern, IntType.ofPattern, Bool.false_and,
      Bool.false_eq_true, if_false]
    rw [Int.toNat_of_nonneg (Int.emod_nonneg _ (by positivity))]
    exact Int.emod_eq_of_lt h1 (by omega)
  · simp only [IntType.lowest, IntType.max, if_true] at h1 h2
    simp only [IntType.cast, IntType.pattern, IntType.ofPattern, Bool.true_and,
      decide_eq_true_eq]
    have hnn : 0 ≤ v % 2 ^ bits := Int.emod_nonneg _ (by positivity)
    have hcast : ((2 ^ (bits - 1) : Nat) : Int) = 2 ^ (bits - 1) := by push_cast; rfl
    by_cases hv : 0 ≤ v
    · have hmod : v % 2 ^ bits = v := Int.emod_eq_of_lt hv (by omega)
      have : ¬ (2 ^ (bits - 1) ≤ (v % 2 ^ bits).toNat) := by
        rw [hmod]
        intro hle
        have : ((2 ^ (bits - 1) : Nat) : Int) ≤ ((v.toNat : Nat) : Int) := by exact_mod_cast hle
        rw [Int.toNat_of_nonneg hv, hcast] at this
        omega
      rw [if_neg this, Int.toNat_of_nonneg hnn, hmod]
    · have hmod : v % 2 ^ bits = v + 2 ^ bits := by
        rw [← Int.add_mul_emod_self (a := v) (b := 1) (c := 2 ^ bits)]
        simp only [one_mul]
        exact Int.emod_eq_of_lt (by omega) (by omega)
      have : (2 ^ (bits - 1) ≤ (v % 2 ^ bits).toNat) := by
        rw [hmod]
        have : ((2 ^ (bits - 1) : Nat) : Int) ≤ (((v + 2 ^ bits).toNat : Nat) : Int) := by
          rw [Int.toNat_of_nonneg (by omega), hcast]
          omega
        exact_mod_cast this
      rw [if_pos this, Int.toNat_of_nonneg hnn, hmod]
      ring

theorem IntType.max_nonneg (T : IntType) : 0 ≤ T.max := by
  unfold IntType.max
  have h1 : (1 : Int) ≤ 2 ^ (T.bits - 1) := one_le_pow₀ (by norm_num)
  have h2 : (1 : Int) ≤ 2 ^ T.bits := one_le_pow₀ (by norm_num)
  split <;> omega

theorem IntType.lowest_nonpos (T : IntType) : T.lowest ≤ 0 := by
  unfold IntType.lowest
  have h1 : (0 : Int) < 2 ^ (T.bits - 1) := by positivity
  split <;> omega

theorem moduloSpecialisations_same_sign (A B : IntType) (h : (A, B) ∈ moduloSpecialisations) :
    A.signed = B.signed ∧ 0 < A.bits ∧ 0 < B.bits := by
  have hall : ∀ pair ∈ moduloSpecialisations,
      pair.1.signed = pair.2.signed ∧ 0 < pair.1.bits ∧ 0 < pair.2.bits := by
    decide
  exact hall (A, B) h

namespace ModuloByConstantImpl

/-- Past the two early returns of `vectorConstant`, the divisor lies in the
range of `A`, so `static_cast<A>(b)` is `b`. -/
theorem cast_divisor (A B : IntType) (b : Int) (hsign : A.signed = B.signed)
    (hbits : 0 < A.bits) (hlow : B.lowest ≤ b)
    (hlarge : (decide (b > A.max) || (A.signed && B.signed && decide (b < A.lowest))) = false) :
    A.cast b = b := by
  simp only [Bool.or_eq_false_iff, decide_eq_false_iff_not, not_lt, Bool.and_eq_false_imp,
    Bool.and_eq_true, and_imp] at hlarge
  obtain ⟨hmax, hmin⟩ := hlarge
  apply IntType.cast_eq_self A hbits b _ (by omega)
  cases hA : A.signed with
  | true => exact hmin hA (by rw [← hsign, hA])
  | false =>
    have hB : B.signed = false := by rw [← hsign, hA]
    simp only [IntType.lowest, hA, hB, Bool.false_eq_true, if_false] at hlow ⊢
    exact hlow

theorem vectorConstant_exception_zero_iff (A B ResultType : IntType) (src : List Int) (b : Int)
    (dst : List Int) (hsign : A.signed = B.signed) (hbits : 0 < A.bits) (hlow : B.lowest ≤ b) :
    ((vectorConstant A B ResultType src b dst).exception =
        some (Exception.mk ErrorCode.ILLEGAL_DIVISION "Division by zero") ↔ b = 0) ∧
    (b = 0 → (vectorConstant A B ResultType src b dst).dst = dst) := by
  unfold vectorConstant
  by_cases h1 : ((B.signed && decide (b = -1)) || decide (b = 1)) = true
  · rw [if_pos h1]
    have hb : b ≠ 0 := by
      simp only [Bool.or_eq_true, Bool.and_eq_true, decide_eq_true_eq] at h1
      rcases h1 with ⟨_, h⟩ | h <;> omega
    simp [hb]
  · rw [if_neg h1]
    by_cases h2 : (decide (b > A.max) || (A.signed && B.signed && decide (b < A.lowest))) = true
    · rw [if_pos h2]
      have hb : b ≠ 0 := by
        have hmax := IntType.max_nonneg A
        have hmin := IntType.lowest_nonpos A
        simp only [Bool.or_eq_true, Bool.and_eq_true, decide_eq_true_eq] at h2
        rcases h2 with h | ⟨_, h⟩ <;> omega
      simp [hb]
    · rw [if_neg h2]
      have hcast := cast_divisor A B b hsign hbits hlow (by simpa using h2)
      rw [hcast]
      by_cases h3 : b = 0
      · simp [h3]
      · rw [if_neg h3]
        refine ⟨?_, fun h => absurd h h3⟩
        constructor
        · intro h
          exfalso
          split at h
          · simp at h
          · dsimp only at h
            split at h <;> split at h <;> simp at h
        · intro h
          exact absurd h h3

end ModuloByConstantImpl

namespace ModuloByConstantImpl

/-- The first early return of `vectorConstant`: a divisor 1, or -1 of a signed
type, writes zeros. -/
theorem vectorConstant_too_small (A B ResultType : IntType) (src : List Int) (b : Int)
    (dst : List Int) (h1 : ((B.signed && decide (b = -1)) || decide (b = 1)) = true) :
    vectorConstant A B ResultType src b dst =
      { dst := writeAll (fun _ => 0) src dst, exception := none } := by
  unfold vectorConstant
  rw [if_pos h1]

/-- The second early return of `vectorConstant`: a divisor above the maximum of
`A`, or below its lowest value, copies `src`. -/
theorem vectorConstant_too_large (A B ResultType : IntType) (src : List Int) (b : Int)
    (dst : List Int) (h1 : ((B.signed && decide (b = -1)) || decide (b = 1)) = false)
    (h2 : (decide (b > A.max) || (A.signed && B.signed && decide (b < A.lowest))) = true) :
    vectorConstant A B ResultType src b dst =
      { dst := writeAll (fun x => ResultType.cast x) src dst, exception := none } := by
  unfold vectorConstant
  rw [if_neg (by simp [h1]), if_pos h2]

/-- The power-of-two branch of `vectorConstant` for a positive divisor. -/
theorem vectorConstant_mask (A B ResultType : IntType) (src : List Int) (b : Int)
    (dst : List Int) (h1 : ((B.signed && decide (b = -1)) || decide (b = 1)) = false)
    (h2 : (decide (b > A.max) || (A.signed && B.signed && decide (b < A.lowest))) = false)
    (h3 : A.cast b ≠ 0) (h4 : (B.signed && decide (b = B.lowest)) = false) (hpos : 0 ≤ b)
    (hpow : (IntType.common B B).bitAnd b (b - 1) = 0) :
    vectorConstant A B ResultType src b dst =
      { dst := writeAll (fun x => ResultType.cast ((IntType.common A B).bitAnd x (b - 1)))
          src dst
        exception := none } := by
  unfold vectorConstant
  rw [if_neg (by simp [h1]), if_neg (by simp [h2]), if_neg h3, if_neg (by simp [h4])]
  simp only [not_lt.mpr hpos, if_false, hpow, ne_eq, not_true_eq_false]

/-- The power-of-two branch of `vectorConstant` for a negative divisor, which
is negated first. -/
theorem vectorConstant_mask_negated (A B ResultType : IntType) (src : List Int) (b : Int)
    (dst : List Int) (h1 : ((B.signed && decide (b = -1)) || decide (b = 1)) = false)
    (h2 : (decide (b > A.max) || (A.signed && B.signed && decide (b < A.lowest))) = false)
    (h3 : A.cast b ≠ 0) (h4 : (B.signed && decide (b = B.lowest)) = false) (hneg : b < 0)
    (hpow : (IntType.common B B).bitAnd (B.cast (-b)) (B.cast (-b) - 1) = 0) :
    vectorConstant A B ResultType src b dst =
      { dst := writeAll
          (fun x => ResultType.cast ((IntType.common A B).bitAnd x (B.cast (-b) - 1))) src dst
        exception := none } := by
  unfold vectorConstant
  rw [if_neg (by simp [h1]), if_neg (by simp [h2]), if_neg h3, if_neg (by simp [h4])]
  simp only [hneg, if_true, hpow, ne_eq, not_true_eq_false, if_false]

end ModuloByConstantImpl

/-- C13. Division by zero raises: for each specialised type pair, every input
array and every divisor `b` of type `B`, `vectorConstant` throws
`ILLEGAL_DIVISION` "Division by zero" if and only if `b` equals 0, and in that
case `dst` is left as it was. -/
theorem vectorConstant_division_by_zero (A B ResultType : IntType) (src : List Int) (b : Int)
    (dst : List Int) (hpair : (A, B) ∈ moduloSpecialisations)
    (hlow : B.lowest ≤ b) (_hhigh : b ≤ B.max) :
    ((ModuloByConstantImpl.vectorConstant A B ResultType src b dst).exception =
        some (Exception.mk ErrorCode.ILLEGAL_DIVISION "Division by zero") ↔ b = 0) ∧
    (b = 0 → (ModuloByConstantImpl.vectorConstant A B ResultType src b dst).dst = dst) :=
  ModuloByConstantImpl.vectorConstant_exception_zero_iff A B ResultType src b dst
    (moduloSpecialisations_same_sign A B hpair).1 (moduloSpecialisations_same_sign A B hpair).2.1
    hlow

/-- Witness of C13: `UInt64` by `UInt8` with divisor 0 over `[5, 7]`. -/
theorem vectorConstant_division_by_zero_witness :
    ((ModuloByConstantImpl.vectorConstant IntType.UInt64 IntType.UInt8 IntType.UInt8 [5, 7] 0
        [9, 9]).exception =
        some (Exception.mk ErrorCode.ILLEGAL_DIVISION "Division by zero") ↔ (0 : Int) = 0) ∧
    ((0 : Int) = 0 →
      (ModuloByConstantImpl.vectorConstant IntType.UInt64 IntType.UInt8 IntType.UInt8 [5, 7] 0
        [9, 9]).dst = [9, 9]) :=
  vectorConstant_division_by_zero IntType.UInt64 IntType.UInt8 IntType.UInt8 [5, 7] 0 [9, 9]
    (by decide) (by decide) (by decide)

/-- C12, at failing inputs. For `Int64` by `Int8` with the divisor 4 the element
-5 gives 3 (the power-of-two branch masks the bit pattern), where the truncated
remainder is -1; the divisor 3 gives the truncated remainder -2. For `Int32` by
`Int64` with the divisor 2147483648 the element -2147483648 is copied, where the
truncated remainder is 0. This holds for every result type. -/
theorem vectorConstant_negative_dividend (ResultType : IntType) (dst0 : Int) :
    ModuloByConstantImpl.vectorConstant IntType.Int64 IntType.Int8 ResultType [-5] 4 [dst0] =
      { dst := [ResultType.cast 3], exception := none } ∧
    (-5 : Int) - Int.tdiv (-5) 4 * 4 = -1 ∧
    ModuloByConstantImpl.vectorConstant IntType.Int64 IntType.Int8 ResultType [-5] 3 [dst0] =
      { dst := [ResultType.cast (-2)], exception := none } ∧
    (-5 : Int) - Int.tdiv (-5) 3 * 3 = -2 ∧
    ModuloByConstantImpl.vectorConstant IntType.Int32 IntType.Int64 ResultType [-2147483648]
        2147483648 [dst0] =
      { dst := [ResultType.cast (-2147483648)], exception := none } ∧
    (-2147483648 : Int) - Int.tdiv (-2147483648) 2147483648 * 2147483648 = 0 := by
  refine ⟨?_, by decide, ?_, by decide, ?_, by decide⟩
  · rw [ModuloByConstantImpl.vectorConstant_mask IntType.Int64 IntType.Int8 ResultType [-5] 4
      [dst0] (by decide) (by decide) (by decide) (by decide) (by decide) (by decide)]
    have h : (IntType.common IntType.Int64 IntType.Int8).bitAnd (-5) (4 - 1) = 3 := by decide
    simp only [writeAll, List.map_cons, List.map_nil, h, List.length_singleton, List.drop_one,
      List.tail_cons, List.append_nil]
  · have h1 : IntType.Int64.cast 3 = 3 := by decide
    have h2 : (IntType.common IntType.Int8 IntType.Int8).bitAnd 3 (3 - 1) ≠ 0 := by decide
    have h3 : (IntType.common IntType.Int64 IntType.Int8).cast
        (-5 - (IntType.common IntType.Int64 IntType.Int8).cast
          (IntType.Int64.cast (Int.tdiv (-5) 3) * 3)) = -2 := by decide
    unfold ModuloByConstantImpl.vectorConstant
    rw [if_neg (by decide), if_neg (by decide), if_neg (by decide), if_neg (by decide)]
    simp only [show ¬ ((3 : Int) < 0) by decide, if_false, h1, h2, ne_eq, not_false_eq_true,
      if_true, writeAll, List.map_cons, List.map_nil, h3, List.length_singleton, List.drop_one,
      List.tail_cons, List.append_nil]
  · rw [ModuloByConstantImpl.vectorConstant_too_large IntType.Int32 IntType.Int64 ResultType
      [-2147483648] 2147483648 [dst0] (by decide) (by decide)]
    simp only [writeAll, List.map_cons, List.map_nil, List.length_singleton, List.drop_one,
      List.tail_cons, List.append_nil]

/-- C14, at the failing input. For `Int64` by `Int8` with the constant divisor
-1 and the most negative `Int64` among the elements, `process` with a constant
right operand throws nothing and writes zeros. -/
theorem process_min_by_minus_one (ResultType : IntType) (dst0 dst1 : Int) :
    ModuloByConstantImpl.process IntType.Int64 IntType.Int8 ResultType
        [-9223372036854775808, 7] (-1) [dst0, dst1] false =
      { dst := [0, 0], exception := none } ∧
    IntType.Int64.lowest = -9223372036854775808 := by
  refine ⟨?_, by decide⟩
  unfold ModuloByConstantImpl.process
  rw [if_neg (by decide), ModuloByConstantImpl.vectorConstant_too_small IntType.Int64
    IntType.Int8 ResultType _ (-1) _ (by decide)]
  simp [writeAll]

/-- C20, at the failing input. For `Int32` by `Int64` the divisor -2147483648
(not the most negative `Int64`) sends the element -1 to 2147483647 through the
power-of-two branch, while the divisor 2147483648 copies it as -1. -/
theorem vectorConstant_negated_divisor_differs (ResultType : IntType) (dst0 : Int) :
    ModuloByConstantImpl.vectorConstant IntType.Int32 IntType.Int64 ResultType [-1]
        (-2147483648) [dst0] =
      { dst := [ResultType.cast 2147483647], exception := none } ∧
    ModuloByConstantImpl.vectorConstant IntType.Int32 IntType.Int64 ResultType [-1]
        2147483648 [dst0] =
      { dst := [ResultType.cast (-1)], exception := none } ∧
    IntType.Int64.lowest < -2147483648 := by
  refine ⟨?_, ?_, by decide⟩
  · rw [ModuloByConstantImpl.vectorConstant_mask_negated IntType.Int32 IntType.Int64 ResultType
      [-1] (-2147483648) [dst0] (by decide) (by decide) (by decide) (by decide) (by decide)
      (by decide)]
    have h : (IntType.common IntType.Int32 IntType.Int64).bitAnd (-1)
        (IntType.Int64.cast (- -2147483648) - 1) = 2147483647 := by decide
    simp only [writeAll, List.map_cons, List.map_nil, h, List.length_singleton, List.drop_one,
      List.tail_cons, List.append_nil]
  · rw [ModuloByConstantImpl.vectorConstant_too_large IntType.Int32 IntType.Int64 ResultType
      [-1] 2147483648 [dst0] (by decide) (by decide)]
    simp only [writeAll, List.map_cons, List.map_nil, List.length_singleton, List.drop_one,
      List.tail_cons, List.append_nil]

namespace ModuloByConstantImpl

/-- Past its four guards, `vectorConstant` chooses between the division branch
and the power-of-two branch on the divisor `b'`, which is `b` or its negation. -/
theorem vectorConstant_past_guards (A B ResultType : IntType) (src : List Int) (b : Int)
    (dst : List Int) (h1 : ((B.signed && decide (b = -1)) || decide (b = 1)) = false)
    (h2 : (decide (b > A.max) || (A.signed && B.signed && decide (b < A.lowest))) = false)
    (h3 : A.cast b ≠ 0) (h4 : (B.signed && decide (b = B.lowest)) = false)
    (b' : Int) (hb' : b' = if b < 0 then B.cast (-b) else b) :
    vectorConstant A B ResultType src b dst =
      if (IntType.common B B).bitAnd b' (b' - 1) ≠ 0 then
        { dst := writeAll
            (fun x => ResultType.cast ((IntType.common A B).cast
              (x - (IntType.common A B).cast (A.cast (Int.tdiv x (A.cast b')) * b')))) src dst
          exception := none }
      else
        { dst := writeAll
            (fun x => ResultType.cast ((IntType.common A B).bitAnd x (b' - 1))) src dst
          exception := none } := by
  unfold vectorConstant
  rw [if_neg (by simp [h1]), if_neg (by simp [h2]), if_neg h3, if_neg (by simp [h4])]
  subst hb'
  rfl

/-- The part of the negation rule that the code keeps: for a signed pair, a
negative divisor other than the most negative value of `B` and other than the
most negative value of `A` gives the same outcome as its negation. -/
theorem vectorConstant_neg_divisor (A B ResultType : IntType) (src : List Int) (b : Int)
    (dst : List Int) (hA : A.signed = true) (hB : B.signed = true) (hbitsA : 0 < A.bits)
    (hbitsB : 0 < B.bits) (hneg : b < 0) (hlow : B.lowest ≤ b) (hnotB : b ≠ B.lowest)
    (hnotA : b ≠ A.lowest) :
    vectorConstant A B ResultType src b dst = vectorConstant A B ResultType src (-b) dst := by
  have hAmax : A.max = -A.lowest - 1 := by simp [IntType.max, IntType.lowest, hA]
  have hBmax : B.max = -B.lowest - 1 := by simp [IntType.max, IntType.lowest, hB]
  have hAlow := IntType.lowest_nonpos A
  by_cases hone : b = -1
  · subst hone
    rw [vectorConstant_too_small A B ResultType src (-1) dst (by simp [hB]),
      vectorConstant_too_small A B ResultType src (- -1) dst (by simp)]
  · have h1 : ((B.signed && decide (b = -1)) || decide (b = 1)) = false := by
      simp only [hB, Bool.true_and, Bool.or_eq_false_iff, decide_eq_false_iff_not]
      exact ⟨hone, by omega⟩
    have h1' : ((B.signed && decide (-b = -1)) || decide (-b = 1)) = false := by
      simp only [hB, Bool.true_and, Bool.or_eq_false_iff, decide_eq_false_iff_not]
      exact ⟨by omega, by omega⟩
    by_cases hsmall : b < A.lowest
    · rw [vectorConstant_too_large A B ResultType src b dst h1 (by simp [hA, hB, hsmall]),
        vectorConstant_too_large A B ResultType src (-b) dst h1' (by
          simp only [Bool.or_eq_true, decide_eq_true_eq]
          left
          omega)]
    · have hge : A.lowest < b := lt_of_le_of_ne (not_lt.mp hsmall) (Ne.symm hnotA)
      have h2 : (decide (b > A.max) || (A.signed && B.signed && decide (b < A.lowest))) =
          false := by
        simp only [hA, hB, Bool.true_and, Bool.or_eq_false_iff, decide_eq_false_iff_not]
        exact ⟨by omega, hsmall⟩
      have h2' : (decide (-b > A.max) || (A.signed && B.signed && decide (-b < A.lowest))) =
          false := by
        simp only [hA, hB, Bool.true_and, Bool.or_eq_false_iff, decide_eq_false_iff_not]
        exact ⟨by omega, by omega⟩
      have hcast : A.cast b = b := IntType.cast_eq_self A hbitsA b (by omega) (by omega)
      have hcast' : A.cast (-b) = -b := IntType.cast_eq_self A hbitsA (-b) (by omega) (by omega)
      have hcastB : B.cast (-b) = -b :=
        IntType.cast_eq_self B hbitsB (-b) (by omega) (by
          have := lt_of_le_of_ne hlow (Ne.symm hnotB)
          omega)
      have h4 : (B.signed && decide (b = B.lowest)) = false := by simp [hB, hnotB]
      have h4' : (B.signed && decide (-b = B.lowest)) = false := by
        have hBlow := IntType.lowest_nonpos B
        simp only [hB, Bool.true_and, decide_eq_false_iff_not]
        omega
      have hL := vectorConstant_past_guards A B ResultType src b dst h1 h2
        (by rw [hcast]; omega) h4 (-b) (by simp [hneg, hcastB])
      have hR := vectorConstant_past_guards A B ResultType src (-b) dst h1' h2'
        (by rw [hcast']; omega) h4' (-b) (by simp [show ¬ (-b < 0) by omega])
      rw [hL, hR]

end ModuloByConstantImpl

/-! ## Facts about `arrayUniq` -/

theorem emplaceKey_nodup {Key : Type} [DecidableEq Key] (key : Key) (set : List Key)
    (h : set.Nodup) : (emplaceKey key set).Nodup := by
  unfold emplaceKey
  split
  · exact h
  · exact List.nodup_cons.mpr ⟨by assumption, h⟩

theorem mem_emplaceKey {Key : Type} [DecidableEq Key] (key other : Key) (set : List Key) :
    other ∈ emplaceKey key set ↔ other = key ∨ other ∈ set := by
  unfold emplaceKey
  split
  · constructor
    · intro h
      exact Or.inr h
    · rintro (rfl | h)
      · assumption
      · exact h
  · simp

/-- A duplicate-free list of keys that holds exactly the keys of a list of
entries, with a flag that tells whether the entries hold a NULL, counts the
different entries. -/
theorem length_add_eq_countDistinct {Key : Type} [DecidableEq Key] (set : List Key)
    (found_null : Bool) (entries : List (Option Key)) (hnodup : set.Nodup)
    (hmem : ∀ key, key ∈ set ↔ some key ∈ entries)
    (hnull : found_null = true ↔ none ∈ entries) :
    set.length + found_null.toNat = countDistinct entries := by
  unfold countDistinct
  cases found_null with
  | false =>
    have hnone : none ∉ entries := fun h => by simpa using hnull.mpr h
    have : entries.toFinset = set.toFinset.map Function.Embedding.some := by
      ext x
      cases x with
      | none => simp [hnone]
      | some key => simp [hmem key]
    rw [this, Finset.card_map, List.toFinset_card_of_nodup hnodup]
    simp
  | true =>
    have hnone : none ∈ entries := hnull.mp rfl
    have : entries.toFinset = Finset.insertNone set.toFinset := by
      ext x
      cases x with
      | none => simp [hnone]
      | some key => simp [hmem key]
    rw [this, Finset.card_insertNone, List.toFinset_card_of_nodup hnodup]
    simp
namespace FunctionArrayUniq

/-- The inner loop over a slice of entries keeps the set duplicate-free and in
step with the entries seen. -/
theorem rowLoop_spec {Key : Type} [DecidableEq Key] (keyAt : Nat → Option Key)
    (null_map : Option (List Bool)) (slice : List (Option Key)) :
    ∀ (j : Nat) (set : List Key) (found_null : Bool) (seen : List (Option Key)),
      (∀ t, t < slice.length → entryAt keyAt null_map (j + t) = slice[t]?) →
      set.Nodup → (∀ key, key ∈ set ↔ some key ∈ seen) →
      (found_null = true ↔ none ∈ seen) →
      ∃ set' found_null', rowLoop keyAt null_map slice.length j set found_null =
          some (set', found_null') ∧ set'.Nodup ∧
        (∀ key, key ∈ set' ↔ some key ∈ seen ++ slice) ∧
        (found_null' = true ↔ none ∈ seen ++ slice) := by
  induction slice with
  | nil =>
    intro j set found_null seen _ hnodup hmem hnull
    exact ⟨set, found_null, rfl, hnodup, by simpa using hmem, by simpa using hnull⟩
  | cons entry rest ih =>
    intro j set found_null seen hentries hnodup hmem hnull
    have hhead := hentries 0 (by simp)
    simp only [Nat.add_zero, List.getElem?_cons_zero] at hhead
    have htail : ∀ t, t < rest.length → entryAt keyAt null_map (j + 1 + t) = rest[t]? := by
      intro t ht
      have := hentries (t + 1) (by simp; omega)
      rw [List.getElem?_cons_succ] at this
      rw [← this]
      congr 1
      omega
    cases entry with
    | none =>
      have hstep : rowLoop keyAt null_map (rest.length + 1) j set found_null =
          rowLoop keyAt null_map rest.length (j + 1) set true := by
        unfold entryAt at hhead
        cases null_map with
        | none =>
          simp only at hhead
          cases hk : keyAt j <;> simp [hk] at hhead
        | some flags =>
          simp only at hhead
          cases hf : flags[j]? with
          | none => simp [hf] at hhead
          | some flag =>
            cases flag with
            | true => simp [rowLoop, hf]
            | false =>
              simp only [hf] at hhead
              cases hk : keyAt j <;> simp [hk] at hhead
      obtain ⟨set', found_null', hrun, hnodup', hmem', hnull'⟩ :=
        ih (j + 1) set true (seen ++ [none]) htail hnodup
          (by intro key; simpa using hmem key) (by simp)
      refine ⟨set', found_null', ?_, hnodup', ?_, ?_⟩
      · simp only [List.length_cons]
        rw [hstep, hrun]
      · intro key
        simpa using hmem' key
      · simpa using hnull'
    | some key =>
      have hstep : rowLoop keyAt null_map (rest.length + 1) j set found_null =
          rowLoop keyAt null_map rest.length (j + 1) (emplaceKey key set) found_null := by
        unfold entryAt at hhead
        cases null_map with
        | none =>
          simp only at hhead
          cases hk : keyAt j with
          | none => simp [hk] at hhead
          | some key' =>
            simp only [hk, Option.map_some', Option.some.injEq] at hhead
            subst hhead
            simp [rowLoop, hk]
        | some flags =>
          simp only at hhead
          cases hf : flags[j]? with
          | none => simp [hf] at hhead
          | some flag =>
            cases flag with
            | true => simp [hf] at hhead
            | false =>
              simp only [hf] at hhead
              cases hk : keyAt j with
              | none => simp [hk] at hhead
              | some key' =>
                simp only [hk, Option.map_some', Option.some.injEq] at hhead
                subst hhead
                simp [rowLoop, hf, hk]
      obtain ⟨set', found_null', hrun, hnodup', hmem', hnull'⟩ :=
        ih (j + 1) (emplaceKey key set) found_null (seen ++ [some key]) htail
          (emplaceKey_nodup key set hnodup)
          (by
            intro other
            rw [mem_emplaceKey]
            simp only [List.mem_append, List.mem_singleton, Option.some.injEq]
            rw [hmem other]
            tauto)
          (by simpa using hnull)
      refine ⟨set', found_null', ?_, hnodup', ?_, ?_⟩
      · simp only [List.length_cons]
        rw [hstep, hrun]
      · intro other
        simpa using hmem' other
      · simpa using hnull'

/-- One row of `executeMethodImpl`: the value written is the number of
different entries of the row, as a `UInt32`. -/
theorem rowLoop_count {Key : Type} [DecidableEq Key] (keyAt : Nat → Option Key)
    (null_map : Option (List Bool)) (slice : List (Option Key)) (j : Nat)
    (hentries : ∀ t, t < slice.length → entryAt keyAt null_map (j + t) = slice[t]?) :
    ∃ set found_null, rowLoop keyAt null_map slice.length j [] false =
        some (set, found_null) ∧ set.length + found_null.toNat = countDistinct slice := by
  obtain ⟨set, found_null, hrun, hnodup, hmem, hnull⟩ :=
    rowLoop_spec keyAt null_map slice j [] false [] hentries List.nodup_nil (by simp) (by simp)
  refine ⟨set, found_null, hrun, ?_⟩
  exact length_add_eq_countDistinct set found_null slice hnodup (by simpa using hmem)
    (by simpa using hnull)

/-- The loops of `executeMethodImpl` over a column of entries write, for every
row, the number of its different entries as a `UInt32`. -/
theorem executeMethodImpl_spec {Key : Type} [DecidableEq Key] (keyAt : Nat → Option Key)
    (null_map : Option (List Bool)) (entries : List (Option Key))
    (hentries : ∀ j, j < entries.length → entryAt keyAt null_map j = entries[j]?)
    (offsets : List Nat) (hoffsets : ∀ off ∈ offsets, off ≤ entries.length) (prev_off : Nat) :
    executeMethodImpl keyAt null_map offsets prev_off =
      some ((rowsOf entries offsets prev_off).map (fun row => toUInt32 (countDistinct row))) := by
  induction offsets generalizing prev_off with
  | nil => rfl
  | cons off rest ih =>
    have hoff : off ≤ entries.length := hoffsets off (by simp)
    have hlen : ((entries.drop prev_off).take (off - prev_off)).length = off - prev_off := by
      rw [List.length_take, List.length_drop]
      omega
    have hslice : ∀ t, t < ((entries.drop prev_off).take (off - prev_off)).length →
        entryAt keyAt null_map (prev_off + t) =
          ((entries.drop prev_off).take (off - prev_off))[t]? := by
      intro t ht
      rw [hlen] at ht
      rw [List.getElem?_take_of_lt ht, List.getElem?_drop]
      exact hentries (prev_off + t) (by omega)
    obtain ⟨set, found_null, hrun, hcount⟩ :=
      rowLoop_count keyAt null_map ((entries.drop prev_off).take (off - prev_off)) prev_off
        hslice
    rw [hlen] at hrun
    unfold executeMethodImpl
    rw [hrun]
    simp only
    rw [ih (fun o ho => hoffsets o (by simp [ho])) off]
    simp only [rowsOf, List.map_cons, hcount]

end FunctionArrayUniq
theorem DataColumn.elementAt_eq_getElem? {Value : Type} (column : DataColumn Value) (j : Nat) :
    column.elementAt j = column.elements[j]? := by
  cases column with
  | plain column => simp [DataColumn.elementAt, DataColumn.elements]
  | nullable nested null_map fixed_size =>
    simp only [DataColumn.elementAt, DataColumn.elements, List.getElem?_zipWith]
    cases hf : null_map[j]? with
    | none => simp
    | some flag =>
      cases hv : nested.values[j]? with
      | none => simp
      | some value => cases flag <;> simp

theorem tupleAt_eq {Value : Type} (columns : List (DataColumn Value)) (j : Nat)
    (h : ∀ column ∈ columns, j < column.elements.length) :
    tupleAt columns j = some (columns.map (fun column => column.elements.getD j none)) := by
  induction columns with
  | nil => rfl
  | cons column rest ih =>
    have hj := h column (by simp)
    have hrest := ih (fun c hc => h c (by simp [hc]))
    unfold tupleAt
    rw [hrest, DataColumn.elementAt_eq_getElem?, List.getElem?_eq_getElem hj]
    simp [List.getD_eq_getElem?_getD, List.getElem?_eq_getElem hj]

theorem rowsOf_map {α β : Type} (f : α → β) (entries : List α) (offsets : List Nat)
    (prev_off : Nat) :
    rowsOf (entries.map f) offsets prev_off = (rowsOf entries offsets prev_off).map (List.map f) := by
  induction offsets generalizing prev_off with
  | nil => rfl
  | cons off rest ih => simp [rowsOf, ih, List.map_take, List.map_drop]

theorem rowsOf_length_le {α : Type} (entries : List α) (offsets : List Nat) (prev_off : Nat) :
    ∀ row ∈ rowsOf entries offsets prev_off, ∃ off ∈ offsets, row.length ≤ off := by
  induction offsets generalizing prev_off with
  | nil => simp [rowsOf]
  | cons off rest ih =>
    intro row hrow
    simp only [rowsOf, List.mem_cons] at hrow
    rcases hrow with rfl | hrow
    · refine ⟨off, by simp, ?_⟩
      rw [List.length_take]
      omega
    · obtain ⟨o, ho, hle⟩ := ih off row hrow
      exact ⟨o, by simp [ho], hle⟩

theorem countDistinct_le_length {α : Type} [DecidableEq α] (row : List α) :
    countDistinct row ≤ row.length :=
  List.toFinset_card_le row

theorem countDistinct_map {α β : Type} [DecidableEq α] [DecidableEq β] (f : α → β)
    (row : List α) (hinj : ∀ a ∈ row, ∀ b ∈ row, f a = f b → a = b) :
    countDistinct (row.map f) = countDistinct row := by
  unfold countDistinct
  have himage : (row.map f).toFinset = row.toFinset.image f := by
    ext x
    simp
  rw [himage]
  apply Finset.card_image_of_injOn
  intro a ha b hb hab
  exact hinj a (by simpa using ha) b (by simpa using hb) hab

theorem toUInt32_of_lt (value : Nat) (h : value < 2 ^ 32) : toUInt32 value = value :=
  Nat.mod_eq_of_lt h

theorem le_foldl_max (offsets : List Nat) (start : Nat) :
    start ≤ offsets.foldl max start ∧ ∀ off ∈ offsets, off ≤ offsets.foldl max start := by
  induction offsets generalizing start with
  | nil => simp
  | cons o rest ih =>
    obtain ⟨h1, h2⟩ := ih (max start o)
    simp only [List.foldl_cons, List.mem_cons, forall_eq_or_imp]
    exact ⟨le_trans (le_max_left _ _) h1, le_trans (le_max_right _ _) h1, h2⟩

/-- In rows of fewer than `2 ^ 32` positions the `UInt32` written is the number
of different entries itself. -/
theorem rows_toUInt32 {α : Type} [DecidableEq α] (entries : List α) (offsets : List Nat)
    (prev_off : Nat) (hsize : ∀ off ∈ offsets, off < 2 ^ 32) :
    (rowsOf entries offsets prev_off).map (fun row => toUInt32 (countDistinct row)) =
      (rowsOf entries offsets prev_off).map countDistinct := by
  apply List.map_congr_left
  intro row hrow
  obtain ⟨off, hoff, hle⟩ := rowsOf_length_le entries offsets prev_off row hrow
  exact toUInt32_of_lt _ (lt_of_le_of_lt (le_trans (countDistinct_le_length row) hle)
    (hsize off hoff))

namespace FunctionArrayUniq

/-- A method whose key is a function of the tuple of the row, run without a
null map over columns that reach every offset, writes for every row the number
of different keys of its tuples. -/
theorem executeMethod_tuples {Value : Type} [DecidableEq Value]
    (key : List (Option Value) → Nat) (columns : List (DataColumn Value)) (offsets : List Nat)
    (hreach : ∀ column ∈ columns, ∀ off ∈ offsets, off ≤ column.elements.length) :
    executeMethod (fun j => (tupleAt columns j).map key) offsets none =
      some ((rowsOf (tuplesOf columns (offsets.foldl max 0)) offsets 0).map
        (fun row => toUInt32 (countDistinct (row.map key)))) := by
  have hmax := (le_foldl_max offsets 0).2
  have hspec := executeMethodImpl_spec (fun j => (tupleAt columns j).map key) none
    ((tuplesOf columns (offsets.foldl max 0)).map (fun tuple => some (key tuple)))
    (by
      intro j hj
      simp only [List.length_map, tuplesOf, List.length_range] at hj
      have hcols : ∀ column ∈ columns, j < column.elements.length := by
        intro column hcolumn
        by_contra hlt
        have hge : column.elements.length ≤ j := not_lt.mp hlt
        have : ∃ off ∈ offsets, j < off := by
          by_contra hnone
          have hall : ∀ off ∈ offsets, off ≤ j := by
            intro off hoff
            by_contra h
            exact hnone ⟨off, hoff, not_le.mp h⟩
          have : offsets.foldl max 0 ≤ j := by
            clear hj hmax
            have key' : ∀ (l : List Nat) (start : Nat), start ≤ j → (∀ o ∈ l, o ≤ j) →
                l.foldl max start ≤ j := by
              intro l
              induction l with
              | nil => intro start hs _; simpa using hs
              | cons o rest ih =>
                intro start hs hl
                simp only [List.foldl_cons]
                exact ih (max start o) (max_le hs (hl o (by simp)))
                  (fun o' ho' => hl o' (by simp [ho']))
            exact key' offsets 0 (Nat.zero_le _) hall
          omega
        obtain ⟨off, hoff, hlt'⟩ := this
        have := hreach column hcolumn off hoff
        omega
      simp only [entryAt, tupleAt_eq columns j hcols, Option.map_some', tuplesOf,
        List.map_map]
      rw [List.getElem?_map, List.getElem?_range hj]
      simp)
    offsets
    (by
      intro off hoff
      simp only [List.length_map, tuplesOf, List.length_range]
      exact hmax off hoff)
    0
  unfold executeMethod
  rw [hspec]
  congr 1
  rw [rowsOf_map, List.map_map]
  apply List.map_congr_left
  intro row _
  simp only [Function.comp]
  congr 1
  rw [show (fun tuple => some (key tuple)) = (fun k => some k) ∘ key from rfl,
    ← List.map_map]
  exact countDistinct_map (fun k => some k) (row.map key) (fun a _ b _ h => by simpa using h)

end FunctionArrayUniq
namespace FunctionArrayUniq

theorem gatherColumns_same_offsets {Value : Type} (arguments : List (ArgumentColumn Value))
    (first : List Nat)
    (hlegal : ∀ argument ∈ arguments, ∃ column, argument.column? = some column ∧
      column.offsets = first) :
    gatherColumns arguments (some first) = .ok (some first, argumentDataColumns arguments) := by
  induction arguments with
  | nil => rfl
  | cons argument rest ih =>
    obtain ⟨column, hcolumn, hoffsets⟩ := hlegal argument (by simp)
    have hrest := ih (fun a ha => hlegal a (by simp [ha]))
    cases argument with
    | other name => simp [ArgumentColumn.column?] at hcolumn
    | array c =>
      simp only [ArgumentColumn.column?, Option.some.injEq] at hcolumn
      subst hcolumn
      simp [gatherColumns, hoffsets, hrest, argumentDataColumns, ArgumentColumn.column?]
    | constArray c =>
      simp only [ArgumentColumn.column?, Option.some.injEq] at hcolumn
      subst hcolumn
      simp [gatherColumns, hoffsets, hrest, argumentDataColumns, ArgumentColumn.column?]

theorem gatherColumns_first {Value : Type} (argument : ArgumentColumn Value)
    (rest : List (ArgumentColumn Value)) (column : ColumnArray Value)
    (hcolumn : argument.column? = some column) :
    gatherColumns (argument :: rest) none =
      match gatherColumns rest (some column.offsets) with
      | .error e => .error e
      | .ok (first, data_columns) => .ok (first, column.data :: data_columns) := by
  cases argument with
  | other name => simp [ArgumentColumn.column?] at hcolumn
  | array c =>
    simp only [ArgumentColumn.column?, Option.some.injEq] at hcolumn
    subst hcolumn
    simp [gatherColumns]
  | constArray c =>
    simp only [ArgumentColumn.column?, Option.some.injEq] at hcolumn
    subst hcolumn
    simp [gatherColumns]

/-- Over arguments that are array columns with the same offsets, the first loop
of `executeImpl` returns these offsets and the data columns. -/
theorem gatherColumns_ok {Value : Type} (arguments : List (ArgumentColumn Value))
    (offsets : List Nat) (hne : arguments ≠ [])
    (hlegal : ∀ argument ∈ arguments, ∃ column, argument.column? = some column ∧
      column.offsets = offsets) :
    gatherColumns arguments none = .ok (some offsets, argumentDataColumns arguments) := by
  cases arguments with
  | nil => exact absurd rfl hne
  | cons argument rest =>
    obtain ⟨column, hcolumn, hoffsets⟩ := hlegal argument (by simp)
    rw [gatherColumns_first argument rest column hcolumn, hoffsets,
      gatherColumns_same_offsets rest offsets (fun a ha => hlegal a (by simp [ha]))]
    simp [argumentDataColumns, hcolumn]

theorem findNullMap_of_ne_one {Value : Type} (num_arguments : Nat) (h : num_arguments ≠ 1)
    (columns : List (DataColumn Value)) : (findNullMap num_arguments columns).1 = columns := by
  induction columns with
  | nil => rfl
  | cons column rest ih =>
    cases column with
    | plain c => simp [findNullMap, ih]
    | nullable nested null_map fixed_size => simp [findNullMap, h]

theorem wellFormed_reach {Value : Type} (column : ColumnArray Value)
    (h : column.wellFormed = true) : ∀ off ∈ column.offsets, off ≤ column.data.elements.length := by
  unfold ColumnArray.wellFormed at h
  simp only [Bool.and_eq_true, List.all_eq_true, decide_eq_true_eq] at h
  exact h.2

theorem argumentDataColumns_reach {Value : Type} (arguments : List (ArgumentColumn Value))
    (offsets : List Nat)
    (hlegal : ∀ argument ∈ arguments, ∃ column, argument.column? = some column ∧
      column.offsets = offsets ∧ column.wellFormed = true) :
    ∀ column ∈ argumentDataColumns arguments, ∀ off ∈ offsets,
      off ≤ column.elements.length := by
  intro data hdata off hoff
  simp only [argumentDataColumns, List.mem_map, List.mem_filterMap] at hdata
  obtain ⟨column, ⟨argument, hargument, hcolumn⟩, rfl⟩ := hdata
  obtain ⟨column', hcolumn', hoffsets, hwf⟩ := hlegal argument hargument
  rw [hcolumn] at hcolumn'
  simp only [Option.some.injEq] at hcolumn'
  subst hcolumn'
  exact wellFormed_reach column hwf off (by rw [hoffsets]; exact hoff)

end FunctionArrayUniq

/-- C16. `arrayUniq` with several array arguments counts distinct tuples: for
`n ≥ 2` array arguments with the same offsets and every row, the result is the
number of different tuples `(a1[j], ..., an[j])` of the positions `j` of the row,
on the packed 128-bit path (when `execute128bit` takes the columns) and on the
hashed path (when it does not), given that the key of the path taken (the packed
key, or the 128-bit hash) tells the tuples of a row apart, that the columns
reach their offsets, and that the offsets are below `2 ^ 32`. -/
theorem arrayUniq_counts_distinct_tuples {Value : Type} [DecidableEq Value]
    (pack : List Nat → List (Option Value) → Nat) (hash : List (Option Value) → Nat)
    (arguments : List (ArgumentColumn Value)) (offsets : List Nat)
    (hn : 2 ≤ arguments.length)
    (hlegal : ∀ argument ∈ arguments, ∃ column, argument.column? = some column ∧
      column.offsets = offsets ∧ column.wellFormed = true)
    (hsize : ∀ off ∈ offsets, off < 2 ^ 32)
    (hpack : ∀ key_sizes,
      FunctionArrayUniq.keySizes (argumentDataColumns arguments) = some key_sizes →
      key_sizes.sum ≤ 16 →
      ∀ row ∈ tupleRows arguments offsets, ∀ a ∈ row, ∀ b ∈ row,
        pack key_sizes a = pack key_sizes b → a = b)
    (hhash : (∀ key_sizes,
        FunctionArrayUniq.keySizes (argumentDataColumns arguments) = some key_sizes →
        16 < key_sizes.sum) →
      ∀ row ∈ tupleRows arguments offsets, ∀ a ∈ row, ∀ b ∈ row, hash a = hash b → a = b) :
    FunctionArrayUniq.executeImpl pack hash arguments =
      .ok (some ((tupleRows arguments offsets).map countDistinct)) := by
  have hne : arguments ≠ [] := by
    intro h
    rw [h] at hn
    simp at hn
  have hgather := FunctionArrayUniq.gatherColumns_ok arguments offsets hne
    (fun a ha => by
      obtain ⟨c, hc, ho, _⟩ := hlegal a ha
      exact ⟨c, hc, ho⟩)
  have hlen : arguments.length ≠ 1 := by omega
  have hreach := FunctionArrayUniq.argumentDataColumns_reach arguments offsets hlegal
  have hresult : ∀ key : List (Option Value) → Nat,
      (∀ row ∈ tupleRows arguments offsets, ∀ a ∈ row, ∀ b ∈ row, key a = key b → a = b) →
      FunctionArrayUniq.executeMethod
          (fun j => (tupleAt (argumentDataColumns arguments) j).map key) offsets none =
        some ((tupleRows arguments offsets).map countDistinct) := by
    intro key hkey
    rw [FunctionArrayUniq.executeMethod_tuples key (argumentDataColumns arguments) offsets
      hreach]
    congr 1
    unfold tupleRows
    rw [← rows_toUInt32 _ offsets 0 hsize]
    apply List.map_congr_left
    intro row hrow
    rw [countDistinct_map key row (hkey row hrow)]
  unfold FunctionArrayUniq.executeImpl
  rw [hgather]
  simp only [hlen, if_false, FunctionArrayUniq.findNullMap_of_ne_one _ hlen]
  unfold FunctionArrayUniq.execute128bit FunctionArrayUniq.executeHashed
  cases hsizes : FunctionArrayUniq.keySizes (argumentDataColumns arguments) with
  | none =>
    simp only
    rw [hresult hash (hhash (fun ks hks => by rw [hsizes] at hks; cases hks))]
  | some key_sizes =>
    simp only
    by_cases hsum : key_sizes.sum > 16
    · rw [if_pos hsum]
      simp only
      rw [hresult hash (hhash (fun ks hks => by
        rw [hsizes] at hks
        cases hks
        exact hsum))]
    · rw [if_neg hsum]
      simp only
      rw [hresult (pack key_sizes) (hpack key_sizes hsizes (not_lt.mp hsum))]

namespace FunctionArrayUniq

/-- The chain of the single-argument path on a plain column: a column of one of
the twelve classes is taken by its method, with the null map; any other column
is declined. -/
theorem executeTyped_plain {Value : Type} [DecidableEq Value] (offsets : List Nat)
    (nested : PlainColumn Value) (null_map : Option (List Bool)) :
    executeTyped offsets (DataColumn.plain nested) null_map =
      if nested.cls = ColumnClass.other then none
      else some (executeMethod (valueKeyAt nested) offsets null_map) := by
  unfold executeTyped executeNumber executeString executeFixedString
  cases hcls : nested.cls with
  | vector T => cases T <;> simp [hcls, Option.orElse]
  | fixedString => simp [hcls, Option.orElse]
  | string => simp [hcls, Option.orElse]
  | other => simp [hcls, Option.orElse]

/-- The entries that a typed method sees, after the second loop of
`executeImpl` over a single data column, are the elements of the column. -/
theorem entryAt_single {Value : Type} (data : DataColumn Value) (j : Nat)
    (hj : j < data.elements.length) :
    (match (findNullMap 1 [data]).1 with
      | [DataColumn.plain nested] =>
        entryAt (valueKeyAt nested) (findNullMap 1 [data]).2 j
      | _ => none) = data.elements[j]? := by
  cases data with
  | plain column =>
    simp [findNullMap, entryAt, valueKeyAt, DataColumn.elements]
  | nullable nested null_map fixed_size =>
    simp only [DataColumn.elements, List.length_zipWith] at hj
    have hflag : j < null_map.length := by omega
    have hvalue : j < nested.values.length := by omega
    simp only [findNullMap, if_true, entryAt, valueKeyAt, DataColumn.elements,
      List.getElem?_zipWith, List.getElem?_eq_getElem hflag, List.getElem?_eq_getElem hvalue]
    cases null_map[j] <;> simp

end FunctionArrayUniq

/-- The single-argument path on the twelve typed classes: for a number, string
or fixed-string column, nullable or not, every row gets the number of its
different elements, NULL counting as one element. -/
theorem arrayUniq_typed_counts_distinct {Value : Type} [DecidableEq Value]
    (pack : List Nat → List (Option Value) → Nat) (hash : List (Option Value) → Nat)
    (argument : ArgumentColumn Value) (column : ColumnArray Value)
    (hcolumn : argument.column? = some column) (hcls : column.data.cls ≠ ColumnClass.other)
    (hwf : column.wellFormed = true) (hsize : ∀ off ∈ column.offsets, off < 2 ^ 32) :
    FunctionArrayUniq.executeImpl pack hash [argument] =
      .ok (some ((rowsOf column.data.elements column.offsets 0).map countDistinct)) := by
  have hgather := FunctionArrayUniq.gatherColumns_ok [argument] column.offsets (by simp)
    (fun a ha => by
      simp only [List.mem_singleton] at ha
      subst ha
      exact ⟨column, hcolumn, rfl⟩)
  have hdata : argumentDataColumns [argument] = [column.data] := by
    simp [argumentDataColumns, hcolumn]
  have hreach := FunctionArrayUniq.wellFormed_reach column hwf
  unfold FunctionArrayUniq.executeImpl
  rw [hgather, hdata]
  simp only [List.length_singleton, if_true]
  have hentries := fun j hj => FunctionArrayUniq.entryAt_single column.data j hj
  cases hd : column.data with
  | plain nested =>
    rw [hd] at hentries hreach hcls
    simp only [DataColumn.cls] at hcls
    simp only [FunctionArrayUniq.findNullMap] at hentries ⊢
    rw [FunctionArrayUniq.executeTyped_plain, if_neg hcls]
    simp only [FunctionArrayUniq.executeMethod]
    rw [FunctionArrayUniq.executeMethodImpl_spec _ _ (DataColumn.plain nested).elements
      hentries column.offsets hreach 0, rows_toUInt32 _ _ 0 hsize]
  | nullable nested null_map fixed_size =>
    rw [hd] at hentries hreach hcls
    simp only [DataColumn.cls] at hcls
    simp only [FunctionArrayUniq.findNullMap, if_true] at hentries ⊢
    rw [FunctionArrayUniq.executeTyped_plain, if_neg hcls]
    simp only [FunctionArrayUniq.executeMethod]
    rw [FunctionArrayUniq.executeMethodImpl_spec _ _
      (DataColumn.nullable nested null_map fixed_size).elements
      hentries column.offsets hreach 0, rows_toUInt32 _ _ 0 hsize]

/-- C15, at the failing input. A single argument whose data column is nullable
over a column of none of the twelve typed classes, with the row `[NULL, 0]` (the
nested column holds the default 0 under the NULL): the typed methods decline,
`executeHashed` runs without the null map over the nested column, and the
result is 1, while the row has the 2 different elements NULL and 0. The same
row over a nested `ColumnVector<Int64>` gives 2. -/
theorem arrayUniq_nullable_fallback_drops_null_map
    (pack : List Nat → List (Option Nat) → Nat) (hash : List (Option Nat) → Nat)
    (nested_fixed_size fixed_size : Option Nat) :
    FunctionArrayUniq.executeImpl pack hash
        [ArgumentColumn.array (ColumnArray.mk [2]
          (DataColumn.nullable (PlainColumn.mk ColumnClass.other [0, 0] nested_fixed_size)
            [true, false] fixed_size))] = .ok (some [1]) ∧
    (DataColumn.nullable (PlainColumn.mk ColumnClass.other [0, 0] nested_fixed_size)
        [true, false] fixed_size).elements = [none, some 0] ∧
    countDistinct [none, some 0] = 2 ∧
    FunctionArrayUniq.executeImpl pack hash
        [ArgumentColumn.array (ColumnArray.mk [2]
          (DataColumn.nullable
            (PlainColumn.mk (ColumnClass.vector NumberType.Int64) [0, 0] nested_fixed_size)
            [true, false] fixed_size))] = .ok (some [2]) := by
  refine ⟨?_, rfl, by decide, ?_⟩
  · simp [FunctionArrayUniq.executeImpl, FunctionArrayUniq.gatherColumns,
      FunctionArrayUniq.findNullMap, FunctionArrayUniq.executeTyped_plain,
      FunctionArrayUniq.executeHashed, FunctionArrayUniq.executeMethod,
      FunctionArrayUniq.executeMethodImpl, FunctionArrayUniq.rowLoop, tupleAt,
      DataColumn.elementAt, emplaceKey, toUInt32]
  · simp [FunctionArrayUniq.executeImpl, FunctionArrayUniq.gatherColumns,
      FunctionArrayUniq.findNullMap, FunctionArrayUniq.executeTyped_plain,
      FunctionArrayUniq.executeMethod, FunctionArrayUniq.valueKeyAt,
      FunctionArrayUniq.executeMethodImpl, FunctionArrayUniq.rowLoop, emplaceKey, toUInt32]

/-- Witness of C16, the examples of the documentation on the packed path:
`arrayUniq([1, 2, 3, 1], [4, 5, 6, 4])` is 3. -/
theorem arrayUniq_counts_distinct_tuples_witness :
    FunctionArrayUniq.executeImpl packBytes (fun tuple => packBytes [] tuple)
        [ArgumentColumn.array (ColumnArray.mk [4]
          (DataColumn.plain (PlainColumn.mk (ColumnClass.vector NumberType.UInt8) [1, 2, 3, 1]
            (some 1)))),
         ArgumentColumn.array (ColumnArray.mk [4]
          (DataColumn.plain (PlainColumn.mk (ColumnClass.vector NumberType.UInt8) [4, 5, 6, 4]
            (some 1))))] = .ok (some [3]) := by
  have h := arrayUniq_counts_distinct_tuples packBytes (fun tuple => packBytes [] tuple)
    [ArgumentColumn.array (ColumnArray.mk [4]
      (DataColumn.plain (PlainColumn.mk (ColumnClass.vector NumberType.UInt8) [1, 2, 3, 1]
        (some 1)))),
     ArgumentColumn.array (ColumnArray.mk [4]
      (DataColumn.plain (PlainColumn.mk (ColumnClass.vector NumberType.UInt8) [4, 5, 6, 4]
        (some 1))))] [4] (by decide)
    (by
      intro argument hargument
      simp only [List.mem_cons, List.mem_singleton, List.not_mem_nil, or_false] at hargument
      rcases hargument with rfl | rfl
      · exact ⟨_, rfl, rfl, rfl⟩
      · exact ⟨_, rfl, rfl, rfl⟩)
    (by decide)
    (by
      intro key_sizes _ _
      have hrows : tupleRows
          [ArgumentColumn.array (ColumnArray.mk [4]
            (DataColumn.plain (PlainColumn.mk (ColumnClass.vector NumberType.UInt8) [1, 2, 3, 1]
              (some 1)))),
           ArgumentColumn.array (ColumnArray.mk [4]
            (DataColumn.plain (PlainColumn.mk (ColumnClass.vector NumberType.UInt8) [4, 5, 6, 4]
              (some 1))))] [4] =
          [[[some 1, some 4], [some 2, some 5], [some 3, some 6], [some 1, some 4]]] := by
        decide
      rw [hrows]
      simp only [packBytes]
      decide)
    (by
      intro hlarge
      exact absurd (hlarge [1, 1] rfl) (by decide))
  rw [h]
  have hcount : (tupleRows
      [ArgumentColumn.array (ColumnArray.mk [4]
        (DataColumn.plain (PlainColumn.mk (ColumnClass.vector NumberType.UInt8) [1, 2, 3, 1]
          (some 1)))),
       ArgumentColumn.array (ColumnArray.mk [4]
        (DataColumn.plain (PlainColumn.mk (ColumnClass.vector NumberType.UInt8) [4, 5, 6, 4]
          (some 1))))] [4]).map countDistinct = [3] := by
    decide
  rw [hcount]

/-- The sizes of the rows determine the offsets. -/
theorem rowSizesFrom_injective (a b : List Nat) (prev_off : Nat)
    (h : rowSizesFrom a prev_off = rowSizesFrom b prev_off) : a = b := by
  induction a generalizing b prev_off with
  | nil =>
    cases b with
    | nil => rfl
    | cons y ys => simp [rowSizesFrom] at h
  | cons x xs ih =>
    cases b with
    | nil => simp [rowSizesFrom] at h
    | cons y ys =>
      simp only [rowSizesFrom, List.cons.injEq] at h
      have hxy : x = y := by omega
      subst hxy
      rw [ih ys x h.2]

/-- Two offsets vectors differ exactly when the size of some row differs (a row
that only one of them has counts as different). -/
theorem offsets_ne_iff_row_size_ne (a b : List Nat) :
    a ≠ b ↔ ∃ i : Nat, (rowSizesFrom a 0)[i]? ≠ (rowSizesFrom b 0)[i]? := by
  constructor
  · intro hne
    by_contra hall
    push_neg at hall
    exact hne (rowSizesFrom_injective a b 0 (List.ext_getElem? (fun i => hall i)))
  · rintro ⟨i, hi⟩ hab
    exact hi (by rw [hab])

namespace FunctionArrayUniq

/-- The first loop after the first argument, over array columns of which one
has other offsets than the first: it throws SIZES_OF_ARRAYS_DONT_MATCH. -/
theorem gatherColumns_mismatch {Value : Type} (arguments : List (ArgumentColumn Value))
    (first : List Nat)
    (hlegal : ∀ argument ∈ arguments, ∃ column, argument.column? = some column)
    (hne : ∃ argument ∈ arguments, ∃ column, argument.column? = some column ∧
      column.offsets ≠ first) :
    gatherColumns arguments (some first) =
      .error (Exception.mk ErrorCode.SIZES_OF_ARRAYS_DONT_MATCH
        "Lengths of all arrays passed to \x7b\x7d must be equal.") := by
  induction arguments with
  | nil =>
    obtain ⟨a, ha, _⟩ := hne
    simp at ha
  | cons argument rest ih =>
    obtain ⟨column, hcolumn⟩ := hlegal argument (by simp)
    by_cases hoff : column.offsets = first
    · have hrest : ∃ a ∈ rest, ∃ c, a.column? = some c ∧ c.offsets ≠ first := by
        obtain ⟨a, ha, c, hc, hcne⟩ := hne
        rcases List.mem_cons.mp ha with rfl | ha
        · rw [hcolumn] at hc
          cases hc
          exact absurd hoff hcne
        · exact ⟨a, ha, c, hc, hcne⟩
      have hih := ih (fun a ha => hlegal a (by simp [ha])) hrest
      cases argument with
      | other name => simp [ArgumentColumn.column?] at hcolumn
      | array c =>
        simp only [ArgumentColumn.column?, Option.some.injEq] at hcolumn
        subst hcolumn
        simp [gatherColumns, hoff, hih]
      | constArray c =>
        simp only [ArgumentColumn.column?, Option.some.injEq] at hcolumn
        subst hcolumn
        simp [gatherColumns, hoff, hih]
    · cases argument with
      | other name => simp [ArgumentColumn.column?] at hcolumn
      | array c =>
        simp only [ArgumentColumn.column?, Option.some.injEq] at hcolumn
        subst hcolumn
        simp [gatherColumns, hoff]
      | constArray c =>
        simp only [ArgumentColumn.column?, Option.some.injEq] at hcolumn
        subst hcolumn
        simp [gatherColumns, hoff]

/-- After a first loop that throws, `executeImpl` throws the same exception. -/
theorem executeImpl_of_gather_error {Value : Type} [DecidableEq Value]
    (pack : List Nat → List (Option Value) → Nat) (hash : List (Option Value) → Nat)
    (arguments : List (ArgumentColumn Value)) (e : Exception)
    (h : gatherColumns arguments none = .error e) :
    executeImpl pack hash arguments = .error e := by
  unfold executeImpl
  rw [h]

/-- After a first loop that does not throw, `executeImpl` does not throw. -/
theorem executeImpl_of_gather_ok {Value : Type} [DecidableEq Value]
    (pack : List Nat → List (Option Value) → Nat) (hash : List (Option Value) → Nat)
    (arguments : List (ArgumentColumn Value))
    (gathered : Option (List Nat) × List (DataColumn Value))
    (h : gatherColumns arguments none = .ok gathered) :
    ∃ res_values, executeImpl pack hash arguments = .ok res_values := by
  unfold executeImpl
  rw [h]
  obtain ⟨offsets, data_columns⟩ := gathered
  cases offsets with
  | none => exact ⟨_, rfl⟩
  | some offsets =>
    simp only
    split
    · split
      · split
        · exact ⟨_, rfl⟩
        · exact ⟨_, rfl⟩
      · exact ⟨_, rfl⟩
    · split
      · exact ⟨_, rfl⟩
      · exact ⟨_, rfl⟩

end FunctionArrayUniq
/-- C17. All arrays passed to `arrayUniq` must have the same length. For
arguments that are all array columns (plain or constant, as the type check of
the function ensures), `FunctionArrayUniq::executeImpl` throws
SIZES_OF_ARRAYS_DONT_MATCH if and only if in some row the array of some argument
has another size than the array of the first argument; this is the same as the
offsets of that argument being different from the offsets of the first; and the
call then ends with the exception, with no result column. -/
theorem arrayUniq_sizes_dont_match {Value : Type} [DecidableEq Value]
    (pack : List Nat → List (Option Value) → Nat) (hash : List (Option Value) → Nat)
    (argument : ArgumentColumn Value) (rest : List (ArgumentColumn Value))
    (first : ColumnArray Value) (hfirst : argument.column? = some first)
    (hlegal : ∀ a ∈ rest, ∃ column, a.column? = some column) :
    ((∃ e, FunctionArrayUniq.executeImpl pack hash (argument :: rest) = .error e ∧
          e.code = ErrorCode.SIZES_OF_ARRAYS_DONT_MATCH) ↔
        ∃ a ∈ argument :: rest, ∃ column, a.column? = some column ∧
          ∃ i : Nat, (rowSizesFrom column.offsets 0)[i]? ≠ (rowSizesFrom first.offsets 0)[i]?) ∧
      ((∃ a ∈ argument :: rest, ∃ column, a.column? = some column ∧
          ∃ i : Nat, (rowSizesFrom column.offsets 0)[i]? ≠ (rowSizesFrom first.offsets 0)[i]?) ↔
        ∃ a ∈ argument :: rest, ∃ column, a.column? = some column ∧
          column.offsets ≠ first.offsets) ∧
      ((∃ a ∈ argument :: rest, ∃ column, a.column? = some column ∧
          column.offsets ≠ first.offsets) →
        FunctionArrayUniq.executeImpl pack hash (argument :: rest) =
            .error (Exception.mk ErrorCode.SIZES_OF_ARRAYS_DONT_MATCH
              "Lengths of all arrays passed to \x7b\x7d must be equal.") ∧
          ∀ res_values,
            FunctionArrayUniq.executeImpl pack hash (argument :: rest) ≠ .ok res_values) := by
  have hrows : (∃ a ∈ argument :: rest, ∃ column, a.column? = some column ∧
      ∃ i : Nat, (rowSizesFrom column.offsets 0)[i]? ≠ (rowSizesFrom first.offsets 0)[i]?) ↔
      ∃ a ∈ argument :: rest, ∃ column, a.column? = some column ∧
        column.offsets ≠ first.offsets := by
    constructor
    · rintro ⟨a, ha, column, hcolumn, hi⟩
      exact ⟨a, ha, column, hcolumn, (offsets_ne_iff_row_size_ne _ _).mpr hi⟩
    · rintro ⟨a, ha, column, hcolumn, hne⟩
      exact ⟨a, ha, column, hcolumn, (offsets_ne_iff_row_size_ne _ _).mp hne⟩
  have hthrow : (∃ a ∈ argument :: rest, ∃ column, a.column? = some column ∧
      column.offsets ≠ first.offsets) →
      FunctionArrayUniq.executeImpl pack hash (argument :: rest) =
        .error (Exception.mk ErrorCode.SIZES_OF_ARRAYS_DONT_MATCH
          "Lengths of all arrays passed to \x7b\x7d must be equal.") := by
    rintro ⟨a, ha, column, hcolumn, hne⟩
    have hinrest : ∃ a ∈ rest, ∃ c, a.column? = some c ∧ c.offsets ≠ first.offsets := by
      rcases List.mem_cons.mp ha with rfl | ha
      · rw [hfirst] at hcolumn
        cases hcolumn
        exact absurd rfl hne
      · exact ⟨a, ha, column, hcolumn, hne⟩
    apply FunctionArrayUniq.executeImpl_of_gather_error
    rw [FunctionArrayUniq.gatherColumns_first argument rest first hfirst,
      FunctionArrayUniq.gatherColumns_mismatch rest first.offsets hlegal hinrest]
  refine ⟨?_, hrows, fun hne => ⟨hthrow hne, fun res_values hok => ?_⟩⟩
  · rw [hrows]
    constructor
    · rintro ⟨e, he, hcode⟩
      by_contra hnone
      have hsame : ∀ a ∈ argument :: rest, ∃ column, a.column? = some column ∧
          column.offsets = first.offsets := by
        intro a ha
        have hcol : ∃ column, a.column? = some column := by
          rcases List.mem_cons.mp ha with rfl | ha
          · exact ⟨first, hfirst⟩
          · exact hlegal a ha
        obtain ⟨column, hcolumn⟩ := hcol
        refine ⟨column, hcolumn, ?_⟩
        by_contra hne
        exact hnone ⟨a, ha, column, hcolumn, hne⟩
      obtain ⟨res_values, hres⟩ := FunctionArrayUniq.executeImpl_of_gather_ok pack hash
        (argument :: rest) _
        (FunctionArrayUniq.gatherColumns_ok (argument :: rest) first.offsets (by simp) hsame)
      rw [hres] at he
      cases he
    · intro hne
      exact ⟨_, hthrow hne, rfl⟩
  · rw [hthrow hne] at hok
    cases hok

/-- Witness of C17: `arrayUniq([1, 2], [3])` on one row. The second array has
size 1 in row 0 and the first has size 2, so the call throws. -/
theorem arrayUniq_sizes_dont_match_witness :
    FunctionArrayUniq.executeImpl packBytes (fun tuple => packBytes [] tuple)
        [ArgumentColumn.array (ColumnArray.mk [2]
          (DataColumn.plain (PlainColumn.mk (ColumnClass.vector NumberType.UInt8) [1, 2]
            (some 1)))),
         ArgumentColumn.array (ColumnArray.mk [1]
          (DataColumn.plain (PlainColumn.mk (ColumnClass.vector NumberType.UInt8) [3]
            (some 1))))] =
      .error (Exception.mk ErrorCode.SIZES_OF_ARRAYS_DONT_MATCH
        "Lengths of all arrays passed to \x7b\x7d must be equal.") :=
  ((arrayUniq_sizes_dont_match packBytes (fun tuple => packBytes [] tuple)
    (ArgumentColumn.array (ColumnArray.mk [2]
      (DataColumn.plain (PlainColumn.mk (ColumnClass.vector NumberType.UInt8) [1, 2]
        (some 1)))))
    [ArgumentColumn.array (ColumnArray.mk [1]
      (DataColumn.plain (PlainColumn.mk (ColumnClass.vector NumberType.UInt8) [3]
        (some 1))))]
    (ColumnArray.mk [2]
      (DataColumn.plain (PlainColumn.mk (ColumnClass.vector NumberType.UInt8) [1, 2]
        (some 1))))
    rfl
    (by
      intro a ha
      simp only [List.mem_singleton] at ha
      subst ha
      exact ⟨_, rfl⟩)).2.2
    ⟨_, List.mem_cons_of_mem _ (List.mem_singleton.mpr rfl), _, rfl, by decide⟩).1

/-! ## The fast paths of the constant-divisor modulo on unsigned operands -/

/-- The test `b & (b - 1)` of `vectorConstant` gives zero exactly on the powers
of two (for a positive `b`). -/
theorem land_pred_eq_zero_iff (b : Nat) (hb : 0 < b) :
    Nat.land b (b - 1) = 0 ↔ ∃ k : Nat, b = 2 ^ k := by
  constructor
  · induction b using Nat.strong_induction_on with
    | _ b ih =>
      intro h
      by_cases hone : b = 1
      · exact ⟨0, by simp [hone]⟩
      · have hhalf : Nat.land (b / 2) ((b - 1) / 2) = 0 := by
          have := @Nat.and_div_two b (b - 1)
          rw [show b &&& (b - 1) = Nat.land b (b - 1) from rfl, h] at this
          exact this.symm
        rcases Nat.mod_two_eq_zero_or_one b with heven | hodd
        · have hpred : (b - 1) / 2 = b / 2 - 1 := by omega
          rw [hpred] at hhalf
          obtain ⟨k, hk⟩ := ih (b / 2) (by omega) (by omega) hhalf
          exact ⟨k + 1, by rw [pow_succ, ← hk]; omega⟩
        · have hpred : (b - 1) / 2 = b / 2 := by omega
          rw [hpred] at hhalf
          have hself : Nat.land (b / 2) (b / 2) = b / 2 := Nat.and_self _
          rw [hself] at hhalf
          omega
  · rintro ⟨k, rfl⟩
    have := Nat.and_pow_two_sub_one_eq_mod (2 ^ k) k
    rw [Nat.mod_self] at this
    exact this

/-- The bit pattern of a non-negative value that the type holds is the value. -/
theorem IntType.pattern_of_nonneg (T : IntType) (v : Nat) (h : v < 2 ^ T.bits) :
    T.pattern (v : Int) = v := by
  unfold IntType.pattern
  have hlt : (v : Int) < 2 ^ T.bits := by exact_mod_cast h
  rw [Int.emod_eq_of_lt (by positivity) hlt]
  simp

/-- The operation `x & y` of an unsigned type on values that it holds is the
bitwise and of the values. -/
theorem IntType.bitAnd_unsigned (T : IntType) (hT : T.signed = false) (x y : Nat)
    (hx : x < 2 ^ T.bits) (hy : y < 2 ^ T.bits) :
    T.bitAnd (x : Int) (y : Int) = ((Nat.land x y : Nat) : Int) := by
  unfold IntType.bitAnd
  rw [IntType.pattern_of_nonneg T x hx, IntType.pattern_of_nonneg T y hy]
  simp [IntType.ofPattern, hT]

/-- An unsigned type keeps the non-negative values below `2 ^ bits`. -/
theorem IntType.cast_unsigned (T : IntType) (hT : T.signed = false) (v : Nat)
    (h : v < 2 ^ T.bits) : T.cast (v : Int) = v := by
  unfold IntType.cast
  rw [IntType.pattern_of_nonneg T v h]
  simp [IntType.ofPattern, hT]

/-- The largest value of an unsigned type. -/
theorem IntType.max_unsigned (T : IntType) (hT : T.signed = false) :
    T.max = 2 ^ T.bits - 1 := by
  simp [IntType.max, hT]

/-- The common type of an unsigned pair is unsigned and at least as wide as
both types. -/
theorem IntType.common_unsigned (A B : IntType) (hA : A.signed = false) :
    (IntType.common A B).signed = false ∧ A.bits ≤ (IntType.common A B).bits ∧
      B.bits ≤ (IntType.common A B).bits := by
  simp only [IntType.common, hA, true_and]
  constructor
  · exact le_trans (Nat.le_max_left _ _) (Nat.le_max_left _ _)
  · exact le_trans (Nat.le_max_right _ _) (Nat.le_max_left _ _)
/-- Two loops over `src` that compute the same value at every element of `src`
leave the same `dst`. -/
theorem writeAll_congr (f g : Int → Int) (src dst : List Int)
    (h : ∀ x ∈ src, f x = g x) : writeAll f src dst = writeAll g src dst := by
  unfold writeAll
  rw [List.map_congr_left h]

namespace ModuloByConstantImpl

/-- The test `b & (b - 1)` in the promoted type of an unsigned `B`, on a
positive divisor of `B`: it is zero exactly when `b` is a power of two. -/
theorem pow_test_unsigned (B : IntType) (hB : B.signed = false) (b : Nat) (hb : 0 < b)
    (hmax : (b : Int) ≤ B.max) :
    (IntType.common B B).bitAnd (b : Int) ((b : Int) - 1) = 0 ↔ ∃ k : Nat, b = 2 ^ k := by
  obtain ⟨hsigned, hbits, _⟩ := IntType.common_unsigned B B hB
  have hlt : b < 2 ^ B.bits := by
    rw [IntType.max_unsigned B hB] at hmax
    have : (b : Int) < 2 ^ B.bits := by omega
    exact_mod_cast this
  have hlt' : b < 2 ^ (IntType.common B B).bits :=
    lt_of_lt_of_le hlt (Nat.pow_le_pow_right (by norm_num) hbits)
  have hpred : ((b : Int) - 1) = ((b - 1 : Nat) : Int) := by omega
  rw [hpred, IntType.bitAnd_unsigned _ hsigned b (b - 1) hlt' (by omega)]
  rw [← land_pred_eq_zero_iff b hb]
  exact_mod_cast Iff.rfl

/-- The power-of-two branch on unsigned operands: `src[i] & (b - 1)` is the
remainder of `src[i]` by `b`. -/
theorem mask_value_unsigned (A B : IntType) (hA : A.signed = false) (x k : Nat)
    (hx : (x : Int) ≤ A.max) (hb : ((2 ^ k : Nat) : Int) ≤ A.max) :
    (IntType.common A B).bitAnd (x : Int) (((2 ^ k : Nat) : Int) - 1) =
      plainRemainder (x : Int) ((2 ^ k : Nat) : Int) := by
  obtain ⟨hsigned, hbits, _⟩ := IntType.common_unsigned A B hA
  rw [IntType.max_unsigned A hA] at hx hb
  have hpow : (2 : Nat) ^ A.bits ≤ 2 ^ (IntType.common A B).bits :=
    Nat.pow_le_pow_right (by norm_num) hbits
  have hxlt : x < 2 ^ (IntType.common A B).bits := by
    have : (x : Int) < 2 ^ A.bits := by omega
    have : x < 2 ^ A.bits := by exact_mod_cast this
    omega
  have hblt : 2 ^ k < 2 ^ (IntType.common A B).bits := by
    have : ((2 ^ k : Nat) : Int) < 2 ^ A.bits := by omega
    have : 2 ^ k < 2 ^ A.bits := by exact_mod_cast this
    omega
  have hkpos : 0 < 2 ^ k := Nat.two_pow_pos k
  have hpred : (((2 ^ k : Nat) : Int) - 1) = ((2 ^ k - 1 : Nat) : Int) := by omega
  rw [hpred, IntType.bitAnd_unsigned _ hsigned x (2 ^ k - 1) hxlt (by omega)]
  rw [show Nat.land x (2 ^ k - 1) = x &&& 2 ^ k - 1 from rfl, Nat.and_pow_two_sub_one_eq_mod]
  unfold plainRemainder
  push_cast
  rfl

/-- The division branch on unsigned operands: `src[i] - (src[i] / divider) * b`
is the remainder of `src[i]` by `b`, with no wrap in any of the conversions. -/
theorem division_value_unsigned (A B : IntType) (hA : A.signed = false) (x b : Nat)
    (hx : (x : Int) ≤ A.max) (hmax : (b : Int) ≤ A.max) :
    (IntType.common A B).cast
        ((x : Int) - (IntType.common A B).cast
          (A.cast (Int.tdiv (x : Int) (A.cast (b : Int))) * (b : Int))) =
      plainRemainder (x : Int) (b : Int) := by
  obtain ⟨hsigned, hbits, _⟩ := IntType.common_unsigned A B hA
  rw [IntType.max_unsigned A hA] at hx hmax
  have hpow : (2 : Nat) ^ A.bits ≤ 2 ^ (IntType.common A B).bits :=
    Nat.pow_le_pow_right (by norm_num) hbits
  have hxlt : x < 2 ^ A.bits := by
    have : (x : Int) < 2 ^ A.bits := by omega
    exact_mod_cast this
  have hblt : b < 2 ^ A.bits := by
    have : (b : Int) < 2 ^ A.bits := by omega
    exact_mod_cast this
  have hquot : x / b ≤ x := Nat.div_le_self x b
  have hprod : x / b * b ≤ x := Nat.div_mul_le_self x b
  rw [IntType.cast_unsigned A hA b hblt,
    Int.tdiv_eq_ediv (Int.ofNat_nonneg x) (Int.ofNat_nonneg b)]
  rw [show (x : Int) / (b : Int) = ((x / b : Nat) : Int) by push_cast; rfl]
  rw [IntType.cast_unsigned A hA (x / b) (by omega)]
  rw [show ((x / b : Nat) : Int) * (b : Int) = ((x / b * b : Nat) : Int) by push_cast; rfl]
  rw [IntType.cast_unsigned _ hsigned (x / b * b) (by omega)]
  rw [show (x : Int) - ((x / b * b : Nat) : Int) = ((x - x / b * b : Nat) : Int) by omega]
  rw [IntType.cast_unsigned _ hsigned (x - x / b * b) (by omega)]
  unfold plainRemainder
  have hmod : x - x / b * b = x % b := by
    have := Nat.div_add_mod x b
    rw [Nat.mul_comm] at this
    omega
  rw [hmod]
  push_cast
  rfl

end ModuloByConstantImpl

/-- C21. The fast paths of `vectorConstant` on unsigned operands. For each of
the eight unsigned specialised pairs, every non-zero divisor `b` of type `B`,
every array `src` of values of type `A` and every result type that holds the
values of `B`, `vectorConstant` throws nothing and writes `src[i] mod b` to
every element. The path is the one that the claim names: zeros when `b` is 1, a
copy of `src` when `b` exceeds the largest value of `A`, the mask
`src[i] & (b - 1)` when `b` is another power of two, and
`src[i] - (src[i] / b) * b` otherwise. -/
theorem vectorConstant_unsigned_fast_paths (A B ResultType : IntType) (src : List Int)
    (b : Int) (dst : List Int) (hpair : (A, B) ∈ moduloSpecialisations)
    (hunsigned : A.signed = false) (hres : B.max ≤ ResultType.max)
    (hzero : b ≠ 0) (hlow : 0 ≤ b) (hhigh : b ≤ B.max)
    (hsrc : ∀ x ∈ src, 0 ≤ x ∧ x ≤ A.max) :
    ModuloByConstantImpl.vectorConstant A B ResultType src b dst =
        { dst := writeAll (fun x => plainRemainder x b) src dst, exception := none } ∧
      (b = 1 → ModuloByConstantImpl.vectorConstant A B ResultType src b dst =
        { dst := writeAll (fun _ => 0) src dst, exception := none }) ∧
      (A.max < b → ModuloByConstantImpl.vectorConstant A B ResultType src b dst =
        { dst := writeAll (fun x => ResultType.cast x) src dst, exception := none }) ∧
      (b ≠ 1 → b ≤ A.max → (∃ k : Nat, b = 2 ^ k) →
        ModuloByConstantImpl.vectorConstant A B ResultType src b dst =
          { dst := writeAll
              (fun x => ResultType.cast ((IntType.common A B).bitAnd x (b - 1))) src dst
            exception := none }) ∧
      (b ≠ 1 → b ≤ A.max → (¬ ∃ k : Nat, b = 2 ^ k) →
        ModuloByConstantImpl.vectorConstant A B ResultType src b dst =
          { dst := writeAll
              (fun x => ResultType.cast ((IntType.common A B).cast
                (x - (IntType.common A B).cast (A.cast (Int.tdiv x (A.cast b)) * b)))) src dst
            exception := none }) := by
  obtain ⟨hsign, hbitsA, hbitsB⟩ := moduloSpecialisations_same_sign A B hpair
  have hB : B.signed = false := by rw [← hsign, hunsigned]
  have hAmax := IntType.max_nonneg A
  have hkeep : ∀ v : Int, 0 ≤ v → v ≤ B.max → ResultType.cast v = v := by
    intro v h0 h1
    have hbits : 0 < ResultType.bits := by
      by_contra hnot
      have hz : ResultType.bits = 0 := by omega
      have hBmax : (2 : Int) ^ 1 ≤ 2 ^ B.bits :=
        pow_le_pow_right₀ (by norm_num) (by omega)
      rw [IntType.max_unsigned B hB] at hres
      have : ResultType.max = 0 := by
        unfold IntType.max
        rw [hz]
        split <;> simp
      omega
    exact IntType.cast_eq_self ResultType hbits v
      (le_trans (IntType.lowest_nonpos ResultType) h0) (le_trans h1 hres)
  have hsmall : ∀ c : Int,
      ((B.signed && decide (c = -1)) || decide (c = 1)) = decide (c = 1) := by
    intro c
    simp [hB]
  have hlarge : (decide (b > A.max) || (A.signed && B.signed && decide (b < A.lowest))) =
      decide (A.max < b) := by
    simp [hB]
  have hone : b = 1 → ModuloByConstantImpl.vectorConstant A B ResultType src b dst =
      { dst := writeAll (fun _ => 0) src dst, exception := none } := fun h1 =>
    ModuloByConstantImpl.vectorConstant_too_small A B ResultType src b dst
      (by rw [hsmall]; simp [h1])
  have hcopy : A.max < b → ModuloByConstantImpl.vectorConstant A B ResultType src b dst =
      { dst := writeAll (fun x => ResultType.cast x) src dst, exception := none } := fun h2 =>
    ModuloByConstantImpl.vectorConstant_too_large A B ResultType src b dst
      (by
        rw [hsmall]
        have : b ≠ 1 := by
          rw [IntType.max_unsigned A hunsigned] at h2
          have : (2 : Int) ^ 1 ≤ 2 ^ A.bits := pow_le_pow_right₀ (by norm_num) (by omega)
          omega
        simp [this])
      (by rw [hlarge]; simp [h2])
  have hpast : b ≠ 1 → b ≤ A.max →
      ModuloByConstantImpl.vectorConstant A B ResultType src b dst =
        if (IntType.common B B).bitAnd b (b - 1) ≠ 0 then
          { dst := writeAll
              (fun x => ResultType.cast ((IntType.common A B).cast
                (x - (IntType.common A B).cast (A.cast (Int.tdiv x (A.cast b)) * b)))) src dst
            exception := none }
        else
          { dst := writeAll
              (fun x => ResultType.cast ((IntType.common A B).bitAnd x (b - 1))) src dst
            exception := none } := by
    intro h1 h2
    have hcast : A.cast b = b :=
      IntType.cast_eq_self A hbitsA b (le_trans (IntType.lowest_nonpos A) hlow) h2
    exact ModuloByConstantImpl.vectorConstant_past_guards A B ResultType src b dst
      (by rw [hsmall]; simp [h1]) (by rw [hlarge]; simp; exact h2)
      (by rw [hcast]; exact hzero) (by simp [hB]) b
      (by rw [if_neg (by omega)])
  obtain ⟨n, rfl⟩ : ∃ n : Nat, b = (n : Int) := ⟨b.toNat, (Int.toNat_of_nonneg hlow).symm⟩
  have hn : 0 < n := by omega
  have htest := ModuloByConstantImpl.pow_test_unsigned B hB n hn hhigh
  have hpowcast : (∃ k : Nat, (n : Int) = 2 ^ k) ↔ ∃ k : Nat, n = 2 ^ k := by
    constructor
    · rintro ⟨k, hk⟩
      exact ⟨k, by exact_mod_cast hk⟩
    · rintro ⟨k, hk⟩
      exact ⟨k, by exact_mod_cast hk⟩
  have hmask : (n : Int) ≠ 1 → (n : Int) ≤ A.max → (∃ k : Nat, (n : Int) = 2 ^ k) →
      ModuloByConstantImpl.vectorConstant A B ResultType src n dst =
        { dst := writeAll
            (fun x => ResultType.cast ((IntType.common A B).bitAnd x ((n : Int) - 1))) src dst
          exception := none } := by
    intro h1 h2 hk
    rw [hpast h1 h2, if_neg (by rw [not_not, htest]; exact hpowcast.mp hk)]
  have hdivide : (n : Int) ≠ 1 → (n : Int) ≤ A.max → (¬ ∃ k : Nat, (n : Int) = 2 ^ k) →
      ModuloByConstantImpl.vectorConstant A B ResultType src n dst =
        { dst := writeAll
            (fun x => ResultType.cast ((IntType.common A B).cast
              (x - (IntType.common A B).cast
                (A.cast (Int.tdiv x (A.cast (n : Int))) * (n : Int))))) src dst
          exception := none } := by
    intro h1 h2 hk
    rw [hpast h1 h2, if_pos (by rw [ne_eq, htest]; exact fun h => hk (hpowcast.mpr h))]
  refine ⟨?_, hone, hcopy, hmask, hdivide⟩
  have hrem : ∀ x : Int, 0 ≤ x → 0 ≤ plainRemainder x n ∧ plainRemainder x n ≤ B.max := by
    intro x _
    unfold plainRemainder
    have h1 := Int.emod_nonneg x hzero
    have h2 := Int.emod_lt_of_pos x (show (0 : Int) < n by omega)
    exact ⟨h1, by omega⟩
  by_cases h1 : (n : Int) = 1
  · rw [hone h1]
    congr 1
    apply writeAll_congr
    intro x _
    simp [plainRemainder, h1]
  · by_cases h2 : A.max < (n : Int)
    · rw [hcopy h2]
      congr 1
      apply writeAll_congr
      intro x hx
      obtain ⟨hx0, hx1⟩ := hsrc x hx
      have : plainRemainder x n = x := by
        unfold plainRemainder
        exact Int.emod_eq_of_lt hx0 (by omega)
      rw [this]
      exact hkeep x hx0 (by omega)
    · have h2' : (n : Int) ≤ A.max := by omega
      by_cases hk : ∃ k : Nat, (n : Int) = 2 ^ k
      · rw [hmask h1 h2' hk]
        congr 1
        apply writeAll_congr
        intro x hx
        obtain ⟨hx0, hx1⟩ := hsrc x hx
        obtain ⟨m, rfl⟩ : ∃ m : Nat, x = (m : Int) := ⟨x.toNat, (Int.toNat_of_nonneg hx0).symm⟩
        obtain ⟨k, hk⟩ := hpowcast.mp hk
        subst hk
        rw [ModuloByConstantImpl.mask_value_unsigned A B hunsigned m k hx1 h2']
        exact hkeep _ (hrem _ hx0).1 (hrem _ hx0).2
      · rw [hdivide h1 h2' hk]
        congr 1
        apply writeAll_congr
        intro x hx
        obtain ⟨hx0, hx1⟩ := hsrc x hx
        obtain ⟨m, rfl⟩ : ∃ m : Nat, x = (m : Int) := ⟨x.toNat, (Int.toNat_of_nonneg hx0).symm⟩
        rw [ModuloByConstantImpl.division_value_unsigned A B hunsigned m n hx1 h2']
        exact hkeep _ (hrem _ hx0).1 (hrem _ hx0).2

/-- Witness of C21: `UInt64` by `UInt8` over `[5, 13, 254]` with the divisor 2
of the documented example `modulo(5, 2) = 1` (the power-of-two path). -/
theorem vectorConstant_unsigned_fast_paths_witness :
    ModuloByConstantImpl.vectorConstant IntType.UInt64 IntType.UInt8 IntType.UInt8
        [5, 13, 254] 2 [9, 9, 9] = { dst := [1, 1, 0], exception := none } :=
  (vectorConstant_unsigned_fast_paths IntType.UInt64 IntType.UInt8 IntType.UInt8
    [5, 13, 254] 2 [9, 9, 9] (by decide) rfl (by decide) (by decide) (by decide) (by decide)
    (by decide)).1.trans (by decide)

namespace PolygonDictionaryIndexEach

/-- The candidate loop reads no bucket out of range when every candidate is
below the number of buckets. -/
theorem findCandidate_in_range (covered_by : CoveredBy) (buckets : List Bucket)
    (point : Point) (ids : List Nat) (h : ∀ c ∈ ids, c < buckets.length) :
    ∃ result, findCandidate covered_by buckets point ids = some result := by
  induction ids with
  | nil => exact ⟨none, rfl⟩
  | cons candidate rest ih =>
    have hlt : candidate < buckets.length := h candidate (by simp)
    simp only [findCandidate, List.getElem?_eq_getElem hlt]
    split
    · exact ⟨_, rfl⟩
    · exact ih (fun c hc => h c (by simp [hc]))

/-- The candidate loop stops on an out-of-range access when it reaches a
candidate that is not below the number of buckets. -/
theorem findCandidate_out_of_range (covered_by : CoveredBy) (buckets : List Bucket)
    (point : Point) (candidate : Nat) (rest : List Nat) (h : buckets.length ≤ candidate) :
    findCandidate covered_by buckets point (candidate :: rest) = none := by
  simp [findCandidate, List.getElem?_eq_none h]

end PolygonDictionaryIndexEach

/-- C22. Bucket invariant of the grid strategy. After the constructor of
`PolygonDictionaryIndexEach` over any polygon list, `buckets` has one entry per
polygon and entry `i` is the bucket built from the one-element list
`[polygon i]`. Hence, for a point whose located cell (if any) lists only
candidate ids below the number of polygons, `find` makes no out-of-range access
to `buckets` and returns; and bucket `i` accepts a point exactly when polygon
`i` covers it. -/
theorem indexEach_bucket_invariant (kNone : Nat) (covered_by : CoveredBy)
    (makeGrid : Int → Int → List Polygon → GridRoot FinalCell)
    (polygons : List Polygon) (configuration : IPolygonDictionary.Configuration)
    (min_intersections max_depth : Int) :
    (PolygonDictionaryIndexEach.construct makeGrid polygons configuration
        min_intersections max_depth).buckets.length = polygons.length ∧
      (∀ i : Nat,
        (PolygonDictionaryIndexEach.construct makeGrid polygons configuration
            min_intersections max_depth).buckets[i]? =
          (polygons[i]?).map (fun polygon => Bucket.mk [polygon])) ∧
      (∀ (point : Point) (polygon_index : Nat),
        (∀ cell,
            (PolygonDictionaryIndexEach.construct makeGrid polygons configuration
              min_intersections max_depth).grid point.x point.y = some cell →
            ∀ c ∈ cell.polygon_ids, c < polygons.length) →
          ∃ result,
            (PolygonDictionaryIndexEach.construct makeGrid polygons configuration
              min_intersections max_depth).find kNone covered_by point polygon_index =
              some result) ∧
      (∀ (i : Nat) (polygon : Polygon), polygons[i]? = some polygon →
        ∀ (point : Point) (polygon_index : Nat),
          ∃ bucket,
            (PolygonDictionaryIndexEach.construct makeGrid polygons configuration
              min_intersections max_depth).buckets[i]? = some bucket ∧
            ((bucket.find covered_by point polygon_index).1 = true ↔
              covered_by point polygon = true)) := by
  have hlength : (PolygonDictionaryIndexEach.fillBuckets polygons).length = polygons.length := by
    rw [PolygonDictionaryIndexEach.fillBuckets_eq_map, List.length_map]
  refine ⟨hlength, fun i => PolygonDictionaryIndexEach.fillBuckets_getElem? polygons i, ?_, ?_⟩
  · intro point polygon_index hids
    simp only [PolygonDictionaryIndexEach.construct] at hids
    simp only [PolygonDictionaryIndexEach.find, PolygonDictionaryIndexEach.construct]
    cases hcell : makeGrid min_intersections max_depth polygons point.x point.y with
    | none => exact ⟨_, rfl⟩
    | some cell =>
      obtain ⟨result, hresult⟩ := PolygonDictionaryIndexEach.findCandidate_in_range covered_by
        (PolygonDictionaryIndexEach.fillBuckets polygons) point cell.polygon_ids
        (fun c hc => by rw [hlength]; exact hids cell hcell c hc)
      simp only [hresult]
      cases result with
      | some candidate => exact ⟨_, rfl⟩
      | none =>
        simp only
        split
        · exact ⟨_, rfl⟩
        · exact ⟨_, rfl⟩
  · intro i polygon hpolygon point polygon_index
    refine ⟨Bucket.mk [polygon], ?_, ?_⟩
    · simp only [PolygonDictionaryIndexEach.construct]
      rw [PolygonDictionaryIndexEach.fillBuckets_getElem? polygons i, hpolygon]
      rfl
    · rw [Bucket.find_single]

/-- Witness of C22: the squares A and B of section 8 under a grid whose cell
lists the candidates 0 and 1. There are two buckets, `find` returns at the point
(5/2, 5/2), and bucket 1 accepts that point, which square B covers. -/
theorem indexEach_bucket_invariant_witness :
    (PolygonDictionaryIndexEach.construct
        (fun _ _ _ _ _ => some (FinalCell.mk [0, 1] (2 ^ 64 - 1)))
        [squareA, squareB] exampleConfiguration 1 5).buckets.length = 2 ∧
      (PolygonDictionaryIndexEach.construct
        (fun _ _ _ _ _ => some (FinalCell.mk [0, 1] (2 ^ 64 - 1)))
        [squareA, squareB] exampleConfiguration 1 5).find (2 ^ 64 - 1) coveredBy
          (Point.mk (5 / 2) (5 / 2)) 7 = some (true, 1) ∧
      ∃ bucket,
        (PolygonDictionaryIndexEach.construct
          (fun _ _ _ _ _ => some (FinalCell.mk [0, 1] (2 ^ 64 - 1)))
          [squareA, squareB] exampleConfiguration 1 5).buckets[1]? = some bucket ∧
        ((bucket.find coveredBy (Point.mk (5 / 2) (5 / 2)) 7).1 = true ↔
          coveredBy (Point.mk (5 / 2) (5 / 2)) squareB = true) := by
  have h := indexEach_bucket_invariant (2 ^ 64 - 1) coveredBy
    (fun _ _ _ _ _ => some (FinalCell.mk [0, 1] (2 ^ 64 - 1))) [squareA, squareB]
    exampleConfiguration 1 5
  exact ⟨h.1, by decide!, h.2.2.2 1 squareB rfl (Point.mk (5 / 2) (5 / 2)) 7⟩

end DB
